import Mathlib

/-!
Verification of the syslog encoder/decoder core of the go-log repository.

Conventions of the shallow embedding:
* Go byte sequences are modeled as `List Char`; all wire traffic in scope is
  ASCII, so a `Char` stands for one byte.
* Go `int` is modeled as `Int` (or `Nat` where the source value is manifestly
  non-negative); overflow is irrelevant at the value ranges fixed by the
  32767-byte decode limit.
* Go functions returning `-1` offsets or `error` to signal failure are modeled
  with `Option`.
* Offsets into a byte slice are represented by the remaining suffix of the
  list: the source decoder only ever moves its offset forward.
-/

namespace GoLog

/-- slog.LevelDebug. -/
def levelDebug : Int := -4
/-- slog.LevelInfo. -/
def levelInfo : Int := 0
/-- slog.LevelWarn. -/
def levelWarn : Int := 4
/-- slog.LevelError. -/
def levelError : Int := 8
/-- `LevelNotice slog.Level = slog.LevelError + 4` (source: log.go). -/
def LevelNotice : Int := levelError + 4

/-- The decimal digit character for `n < 10` (helper for modeling strconv.Itoa). -/
def digitChar (n : Nat) : Char :=
  match n with
  | 0 => '0' | 1 => '1' | 2 => '2' | 3 => '3' | 4 => '4'
  | 5 => '5' | 6 => '6' | 7 => '7' | 8 => '8' | _ => '9'

/-- Digit accumulator for `natDigits`; the fuel argument dominates the digit
count (`n` has at most `n + 1` digits), so it never runs out. -/
def natDigitsAux : Nat → Nat → List Char → List Char
  | 0, _, acc => acc
  | fuel + 1, n, acc =>
    let acc' := digitChar (n % 10) :: acc
    if n < 10 then acc' else natDigitsAux fuel (n / 10) acc'

/-- Models `strconv.Itoa` on non-negative values: decimal digits, no sign. -/
def natDigits (n : Nat) : List Char := natDigitsAux (n + 1) n []

/-- Models `strconv.Itoa` on `Int`. -/
def intRepr (i : Int) : List Char :=
  if i < 0 then '-' :: natDigits (-i).toNat else natDigits i.toNat

/-- The numeric value of a decimal digit character, `none` for non-digits
(the ten digit cases of the source's switches, folded into a range test). -/
def digitVal (c : Char) : Option Nat :=
  if '0' ≤ c ∧ c ≤ '9' then some (c.toNat - '0'.toNat) else none

/-- Value of a digit string under the left fold `10*acc + d` that the decoder
uses in `decodePRI` and `decodeOctetFramingHeader`. -/
def digitsVal (acc : Nat) : List Char → Nat
  | [] => acc
  | c :: rest =>
    match digitVal c with
    | some d => digitsVal (10 * acc + d) rest
    | none => acc

/-- A printable ASCII byte (0x20..0x7e). -/
def printable (c : Char) : Prop := 0x20 ≤ c.toNat ∧ c.toNat ≤ 0x7e

instance (c : Char) : Decidable (printable c) := by
  unfold printable; infer_instance

/-- Models `strconv.Quote` restricted to the byte range exercised here:
a printable ASCII byte other than `"` and `\` is kept verbatim, `"` becomes
`\"`, `\` becomes `\\`, and any other byte is rendered as a `\xNN` escape
(the exact escape shape for non-printable bytes is irrelevant to the theorems,
which restrict attribute values to printable bytes). -/
def quoteChar (c : Char) : List Char :=
  if c = '"' then ['\\', '"']
  else if c = '\\' then ['\\', '\\']
  else if 0x20 ≤ c.toNat ∧ c.toNat ≤ 0x7e then [c]
  else ['\\', 'x', digitChar (c.toNat / 16 % 16), digitChar (c.toNat % 16)]

/-- Models `strconv.Quote`: a double-quoted, backslash-escaped rendering. -/
def goQuote (s : List Char) : List Char :=
  '"' :: (s.flatMap quoteChar) ++ ['"']

/-! ## Time values and the two layouts (models Go `time.Format` / `time.Parse`
for `time.Stamp`, `time.RFC3339` and `time.RFC3339Nano`) -/

/-- A wall-clock time, broken into the components the two syslog layouts
read and write. `offsetMin` is the time-zone offset in minutes (all zones in
scope are whole-minute offsets). -/
structure DateTime where
  year : Nat
  month : Nat
  day : Nat
  hour : Nat
  minute : Nat
  second : Nat
  nanos : Nat
  offsetMin : Int
  deriving Repr, DecidableEq

/-- Gregorian leap year (as used by Go's date validation). -/
def leapYear (y : Nat) : Prop := (y % 4 = 0 ∧ y % 100 ≠ 0) ∨ y % 400 = 0

instance (y : Nat) : Decidable (leapYear y) := by unfold leapYear; infer_instance

/-- Days in a month (year 0 — the year produced by parsing `time.Stamp` —
is a leap year, so February admits 29 there). -/
def daysInMonth (y m : Nat) : Nat :=
  if m = 2 then (if leapYear y then 29 else 28)
  else if m = 4 ∨ m = 6 ∨ m = 9 ∨ m = 11 then 30
  else 31

/-- Two-digit zero-padded decimal (layout element `04` etc.). -/
def pad2 (n : Nat) : List Char := [digitChar (n / 10 % 10), digitChar (n % 10)]

/-- Two-digit space-padded decimal (layout element `_2`). -/
def padSpace2 (n : Nat) : List Char :=
  if n < 10 then [' ', digitChar n] else pad2 n

/-- Four-digit zero-padded decimal (layout element `2006`). -/
def pad4 (n : Nat) : List Char :=
  [digitChar (n / 1000 % 10), digitChar (n / 100 % 10),
   digitChar (n / 10 % 10), digitChar (n % 10)]

/-- The `Jan`..`Dec` month names of the `time` package (1-based). -/
def monthName (m : Nat) : List Char :=
  match m with
  | 1 => ['J', 'a', 'n'] | 2 => ['F', 'e', 'b'] | 3 => ['M', 'a', 'r']
  | 4 => ['A', 'p', 'r'] | 5 => ['M', 'a', 'y'] | 6 => ['J', 'u', 'n']
  | 7 => ['J', 'u', 'l'] | 8 => ['A', 'u', 'g'] | 9 => ['S', 'e', 'p']
  | 10 => ['O', 'c', 't'] | 11 => ['N', 'o', 'v'] | _ => ['D', 'e', 'c']

/-- Month number for a three-letter month name. -/
def monthOfName (s : List Char) : Option Nat :=
  (List.range 12).findSome? fun i => if monthName (i + 1) = s then some (i + 1) else none

/-- `t.Format(time.Stamp)`: `Mmm _d hh:mm:ss` (15 bytes, no year, no zone). -/
def fmtStamp (t : DateTime) : List Char :=
  monthName t.month ++ [' '] ++ padSpace2 t.day ++ [' '] ++
  pad2 t.hour ++ [':'] ++ pad2 t.minute ++ [':'] ++ pad2 t.second

/-- The zone suffix of layout element `Z07:00`: `Z` at offset zero, else a
sign and `hh:mm`. -/
def fmtOffset (off : Int) : List Char :=
  if off = 0 then ['Z']
  else
    (if off > 0 then '+' else '-') ::
      (pad2 (off.natAbs / 60) ++ [':'] ++ pad2 (off.natAbs % 60))

/-- `t.Format(time.RFC3339)`: `yyyy-mm-ddThh:mm:ss` plus `Z` or `±hh:mm`
(no fractional seconds in this layout). -/
def fmtRFC3339 (t : DateTime) : List Char :=
  pad4 t.year ++ ['-'] ++ pad2 t.month ++ ['-'] ++ pad2 t.day ++ ['T'] ++
  pad2 t.hour ++ [':'] ++ pad2 t.minute ++ [':'] ++ pad2 t.second ++
  fmtOffset t.offsetMin

/-- Read exactly two decimal digits. -/
def readD2 : List Char → Option (Nat × List Char)
  | a :: b :: rest =>
    match digitVal a, digitVal b with
    | some x, some y => some (10 * x + y, rest)
    | _, _ => none
  | _ => none

/-- Read exactly four decimal digits. -/
def readD4 (l : List Char) : Option (Nat × List Char) :=
  match readD2 l with
  | some (hi, rest) =>
    match readD2 rest with
    | some (lo, rest') => some (100 * hi + lo, rest')
    | none => none
  | none => none

/-- The day-of-month reader of the `_2` layout element: a space-padded single
digit or two digits. -/
def readDay2 (l : List Char) : Option Nat :=
  match l with
  | [a, b] =>
    if a = ' ' then digitVal b
    else
      match digitVal a, digitVal b with
      | some x, some y => some (10 * x + y)
      | _, _ => none
  | _ => none

/-- `time.Parse(time.Stamp, s)`: month name, space-padded day, clock; the
result carries year 0, zero nanoseconds and UTC, exactly as Go produces.
Range validation mirrors Go's (day checked against the month in year 0). -/
def parseStamp (s : List Char) : Option DateTime :=
  match monthOfName (s.take 3), s.drop 3 with
  | some m, c0 :: rest =>
    if c0 = ' ' then
      (match readDay2 (rest.take 2), rest.drop 2 with
      | some d, c1 :: clk =>
        if c1 = ' ' then
          (match readD2 clk with
          | some (hh, c2 :: r1) =>
            if c2 = ':' then
              (match readD2 r1 with
              | some (mm, c3 :: r2) =>
                if c3 = ':' then
                  (match readD2 r2 with
                  | some (ss, []) =>
                    if 1 ≤ d ∧ d ≤ daysInMonth 0 m ∧ hh ≤ 23 ∧ mm ≤ 59 ∧ ss ≤ 59 then
                      some ⟨0, m, d, hh, mm, ss, 0, 0⟩
                    else none
                  | _ => none)
                else none
              | _ => none)
            else none
          | _ => none)
        else none
      | _, _ => none)
    else none
  | _, _ => none

/-- Fractional-second digits to nanoseconds (first nine digits weighted). -/
def fracToNanos (ds : List Char) : Nat :=
  ((ds.take 9).foldl (fun acc c => 10 * acc + (digitVal c).getD 0) 0) *
    10 ^ (9 - (ds.take 9).length)

/-- Split a leading run of decimal digits. -/
def spanDigits : List Char → List Char × List Char
  | [] => ([], [])
  | c :: rest =>
    if (digitVal c).isSome then
      let (ds, r) := spanDigits rest
      (c :: ds, r)
    else ([], c :: rest)

/-- `time.Parse(time.RFC3339Nano, s)`: strict date and clock, an optional
fractional-second part, then `Z` or a signed `hh:mm` zone; the whole input
must be consumed. Range validation mirrors Go's. -/
def parseRFC3339Nano (s : List Char) : Option DateTime :=
  match readD4 s with
  | some (y, c0 :: r1) =>
    if c0 = '-' then
      (match readD2 r1 with
      | some (mo, c1 :: r2) =>
        if c1 = '-' then
          (match readD2 r2 with
          | some (d, c2 :: r3) =>
            if c2 = 'T' then
              (match readD2 r3 with
              | some (hh, c3 :: r4) =>
                if c3 = ':' then
                  (match readD2 r4 with
                  | some (mm, c4 :: r5) =>
                    if c4 = ':' then
                      (match readD2 r5 with
                      | some (ss, r6) =>
                        let fr : Option (Nat × List Char) :=
                          match r6 with
                          | c5 :: r7 =>
                            if c5 = '.' then
                              let p := spanDigits r7
                              if p.1 = [] then none
                              else some (fracToNanos p.1, p.2)
                            else some (0, r6)
                          | [] => some (0, r6)
                        match fr with
                        | some (ns, r9) =>
                          let zone : Option Int :=
                            match r9 with
                            | sign :: z =>
                              if sign = 'Z' ∧ z = [] then some 0
                              else
                                (match readD2 z with
                                | some (zh, c6 :: z2) =>
                                  if c6 = ':' then
                                    (match readD2 z2 with
                                    | some (zm, []) =>
                                      if zh ≤ 23 ∧ zm ≤ 59 then
                                        if sign = '+' then some (zh * 60 + zm)
                                        else if sign = '-' then
                                          some (-(zh * 60 + zm : Int))
                                        else none
                                      else none
                                    | _ => none)
                                  else none
                                | _ => none)
                            | [] => none
                          match zone with
                          | some off =>
                            if 1 ≤ mo ∧ mo ≤ 12 ∧ 1 ≤ d ∧ d ≤ daysInMonth y mo ∧
                                hh ≤ 23 ∧ mm ≤ 59 ∧ ss ≤ 59 then
                              some ⟨y, mo, d, hh, mm, ss, ns, off⟩
                            else none
                          | none => none
                        | none => none
                      | _ => none)
                    else none
                  | _ => none)
                else none
              | _ => none)
            else none
          | _ => none)
        else none
      | _ => none)
    else none
  | _ => none

/-! ## The group stack (source: handler.go, `groupStack`) -/

/-- `groupStack`: the group-name stack and the parallel stack of dot-joined
path prefixes maintained by the message builder. -/
structure groupStack where
  groups : List String
  path : List String
  deriving Repr, DecidableEq

namespace groupStack

/-- `groupStack.Reset`. -/
def Reset (_ : groupStack) : groupStack := ⟨[], []⟩

/-- `groupStack.Push`: a non-empty group name is appended to `groups`, and
`path` gains the previous last path extended by `group + "."`. -/
def Push (s : groupStack) (group : String) : groupStack :=
  if group ≠ "" then
    if s.groups.length > 0 then
      { groups := s.groups ++ [group]
      , path := s.path ++ [(s.path.getLastD "") ++ group ++ "."] }
    else
      { groups := [group], path := [group ++ "."] }
  else s

/-- `groupStack.Pop` as written in the source: `s.groups = s.groups[:len(s.groups)-1]`
followed by `s.path = s.groups[:len(s.path)-1]` — note that the second
assignment slices the (already shortened) `groups` field, not `path`. -/
def Pop (s : groupStack) (group : String) : groupStack :=
  if group ≠ "" then
    let groups' := s.groups.dropLast
    { groups := groups', path := groups'.take (s.path.length - 1) }
  else s

end groupStack

/-! ## The message builder (source: handler.go, `messageBuilder`) -/

/-- `messageBuilder`: the scratch encode buffer. The source keeps a 16-byte
frame-header scratch prefix inside `buffer`; the model keeps only the content
after that prefix (`buffer[messageBuilderBufferStart:]`), which is what every
observation in scope reads. -/
structure messageBuilder where
  buffer : List Char
  conditional : List Char
  deriving Repr, DecidableEq

namespace messageBuilder

/-- `messageBuilder.AppendConditional`. -/
def AppendConditional (b : messageBuilder) (s : List Char) : messageBuilder :=
  { b with conditional := s }

/-- `messageBuilder.writeConditional`: flush a pending conditional string. -/
def writeConditional (b : messageBuilder) : messageBuilder :=
  if b.conditional ≠ [] then
    { buffer := b.buffer ++ b.conditional, conditional := [] }
  else b

/-- `messageBuilder.AppendRune` (all runes in scope are single-byte). -/
def AppendRune (b : messageBuilder) (r : Char) : messageBuilder :=
  let b := b.writeConditional
  { b with buffer := b.buffer ++ [r] }

/-- `messageBuilder.AppendString`. -/
def AppendString (b : messageBuilder) (s : List Char) : messageBuilder :=
  if s ≠ [] then
    let b := b.writeConditional
    { b with buffer := b.buffer ++ s }
  else b

/-- `messageBuilder.AppendBytes`. -/
def AppendBytes (b : messageBuilder) (p : List Char) : messageBuilder :=
  if p.length > 0 then
    let b := b.writeConditional
    { b with buffer := b.buffer ++ p }
  else b

/-- `messageBuilder.CompleteConditional`: append `yes` if the pending
conditional was flushed by an intervening append, otherwise drop it and
append `no`. -/
def CompleteConditional (b : messageBuilder) (yes no : List Char) : messageBuilder :=
  if b.conditional = [] then b.AppendString yes
  else ({ b with conditional := [] } : messageBuilder).AppendString no

/-- `messageBuilder.Write`: the framed byte sequence handed to the writer.
Implicit framing appends a newline; octet framing prepends the decimal byte
count of the payload and a space (the source writes the count into the scratch
prefix and fails when the count does not fit in 15 bytes). -/
def write (b : messageBuilder) (implicit : Bool) : Option (List Char) :=
  if implicit then some (b.buffer ++ ['\n'])
  else
    let frameHeader := natDigits b.buffer.length
    if frameHeader.length + 1 > 16 then none
    else some (frameHeader ++ [' '] ++ b.buffer)

end messageBuilder

/-! ## Syslog handler construction and PRI computation (source: syslog.go) -/

/-- `SyslogEncodingDefault`. -/
def SyslogEncodingDefault : String := ""
/-- `SyslogEncodingRFC3164`. -/
def SyslogEncodingRFC3164 : String := "rfc3164"
/-- `SyslogEncodingRFC3164F`. -/
def SyslogEncodingRFC3164F : String := "rfc3164+framing"
/-- `SyslogEncodingRFC5424`. -/
def SyslogEncodingRFC5424 : String := "rfc5424"
/-- `SyslogEncodingRFC5424F`. -/
def SyslogEncodingRFC5424F : String := "rfc5424+framing"

/-- `defaultSyslogFacility` (16, local0). -/
def defaultSyslogFacility : Int := 16

/-- The subset of `SyslogHandlerOptions` the syslog encoder reads
(`HandlerOptions.ReplaceAttr` is nil and `Level` is irrelevant to encoding). -/
structure SyslogHandlerOptions where
  encoding : String
  facility : Int
  deriving Repr, DecidableEq

/-- Which encode method `initEncoder` selected. -/
inductive EncodeKind | rfc3164 | rfc5424
  deriving Repr, DecidableEq

/-- `SyslogHandler`. The environment-derived header tokens (hostname, app
name, process id) are stored as they come out of `initHeader`. -/
structure SyslogHandler where
  encoding : String
  facility : Int
  header : List Char
  msgID : List Char
  prerendered : List (List Char)
  encodeKind : EncodeKind
  deriving Repr, DecidableEq

/-- `SyslogHandler.initHeader`, with the environment reads `syslogHostname`,
`syslogAppName`, `syslogProcID` passed in as parameters. -/
def initHeaderString (encoding : String) (host appName procID : List Char) : List Char :=
  if encoding = SyslogEncodingRFC3164 ∨ encoding = SyslogEncodingRFC3164F then
    ' ' :: host ++ [' '] ++ appName ++ ['['] ++ procID ++ [']', ':', ' ']
  else
    ' ' :: host ++ [' '] ++ appName ++ [' '] ++ procID ++ [' ']

/-- `SyslogHandler.initEncoder`: the encoding selector. Returns the stored
encoding string and the selected encode method. An empty encoding becomes
RFC5424 + octet framing; an unrecognized encoding keeps its string (a warning
is logged) and encodes as RFC5424. -/
def initEncoderSelect (encoding : String) : String × EncodeKind :=
  if encoding = SyslogEncodingDefault then (SyslogEncodingRFC5424F, .rfc5424)
  else if encoding = SyslogEncodingRFC3164 ∨ encoding = SyslogEncodingRFC3164F then
    (encoding, .rfc3164)
  else if encoding = SyslogEncodingRFC5424 ∨ encoding = SyslogEncodingRFC5424F then
    (encoding, .rfc5424)
  else (encoding, .rfc5424)

/-- `NewSyslogHandler`. The source checks the configured facility and computes
the fallback value 16 into a local variable (logging a warning), but stores
`*handlerOpts` — with the original facility — into the handler; the local is
never written back. The model mirrors this: `facilityChecked` is dead. -/
def NewSyslogHandler (opts : SyslogHandlerOptions) (host appName procID : List Char) :
    SyslogHandler :=
  let facility := opts.facility
  let _facilityChecked : Int :=
    if facility < 0 ∨ 23 < facility then defaultSyslogFacility else facility
  let sel := initEncoderSelect opts.encoding
  { encoding := sel.1
  , facility := opts.facility
  , header := initHeaderString opts.encoding host appName procID
  , msgID := ['-']
  , prerendered := []
  , encodeKind := sel.2 }

/-- The severity bits chosen by the switch in `SyslogHandler.appendPRI`,
with the source's case order: notice, then `>= LevelError`, then
`<= LevelWarn`, then `<= LevelInfo`, then the default. -/
def severityFor (level : Int) : Int :=
  if level = LevelNotice then 5
  else if level ≥ levelError then 3
  else if level ≤ levelWarn then 4
  else if level ≤ levelInfo then 6
  else 7

/-- The PRI value `h.opts.Facility << 3 | severity`. Since the severity bits
are below 8 and the shifted facility has zero low bits, the bitwise-or equals
the sum (also for negative facilities in two's complement). -/
def SyslogHandler.priValue (h : SyslogHandler) (level : Int) : Int :=
  h.facility * 8 + severityFor level

/-- `SyslogHandler.appendPRI`: `<` + decimal PRI + `>`. -/
def SyslogHandler.appendPRI (h : SyslogHandler) (b : messageBuilder) (level : Int) :
    messageBuilder :=
  ((b.AppendRune '<').AppendString (intRepr (h.priValue level))).AppendRune '>'

/-! ## Syslog transport writer (source: syslog.go, `syslogWriter`) -/

/-- What a successful `syslogWriter.dial` establishes: the dialed protocol,
the address, and whether TLS wrapping is used. Actual socket I/O is outside
the model; the dial switch itself is total and pure. -/
structure ConnKind where
  proto : String
  addr : String
  tls : Bool
  deriving Repr, DecidableEq

/-- `syslogWriter`: network scheme, target address, and at most one live
connection. -/
structure syslogWriter where
  network : String
  address : String
  conn : Option ConnKind
  deriving Repr, DecidableEq

/-- `syslogWriter.dial`: the network-scheme switch. An empty scheme dials
plain tcp; the six plain schemes dial as named; the three `+tls` schemes
strip the suffix and dial through TLS; anything else is an error (the source
message wraps the scheme name in single quotes; punctuation elided here). -/
def syslogWriter.dial (w : syslogWriter) : Except String ConnKind :=
  if w.network = "" then .ok ⟨"tcp", w.address, false⟩
  else if w.network ∈ ["udp", "udp4", "udp6", "tcp", "tcp4", "tcp6"] then
    .ok ⟨w.network, w.address, false⟩
  else if w.network ∈ ["tcp+tls", "tcp4+tls", "tcp6+tls"] then
    .ok ⟨w.network.dropRight 4, w.address, true⟩
  else .error ("unrecognized syslog network options: " ++ w.network)

/-- `syslogWriter.Write`: with no live connection, dial first and surface any
dial error as the write call's error; socket-level write success is modeled as
delivering the bytes (write failures on an established connection are
environment events outside the pure model). -/
def syslogWriter.write (w : syslogWriter) (b : List Char) :
    syslogWriter × Except String Nat :=
  match w.conn with
  | none =>
    match w.dial with
    | .error e => (w, .error e)
    | .ok c => ({ w with conn := some c }, .ok b.length)
  | some _ => (w, .ok b.length)

/-- `Config.GetWriter` for `TargetSyslog`: constructs the writer directly from
the configured scheme and address, with no validation of either. -/
def getSyslogWriter (network address : String) : syslogWriter :=
  { network := network, address := address, conn := none }

/-! ## The syslog encoder (source: syslog.go, the `encodeRFC*` methods)

The modeled scope: `ReplaceAttr` is nil, the record carries a non-zero
timestamp, the handler has no `WithGroup` groups and the record's attributes
are a flat ordered list of string key/value pairs (`attr.Value.String()`
already applied). `builder.GroupPath()` is therefore always the empty string
and its `AppendString` is a no-op, elided below. -/

/-- `SyslogKey`. -/
def SyslogKey : List Char := "syslog".data

/-- The record data the syslog encoder reads. -/
structure Record where
  level : Int
  time : DateTime
  message : List Char
  attrs : List (List Char × List Char)
  deriving Repr, DecidableEq

/-- `SyslogHandler.appendTime`: `time.Stamp` for the RFC3164 encodings,
`time.RFC3339` otherwise. -/
def SyslogHandler.appendTime (h : SyslogHandler) (b : messageBuilder) (t : DateTime) :
    messageBuilder :=
  if h.encoding = SyslogEncodingRFC3164 ∨ h.encoding = SyslogEncodingRFC3164F then
    b.AppendString (fmtStamp t)
  else b.AppendString (fmtRFC3339 t)

/-- `SyslogHandler.appendMsgID`: the first record attribute with the reserved
key overrides the handler's msgID. -/
def SyslogHandler.appendMsgID (h : SyslogHandler) (b : messageBuilder) (r : Record) :
    messageBuilder :=
  b.AppendString (((r.attrs.find? fun a => a.1 = SyslogKey).map Prod.snd).getD h.msgID)

/-- One attribute of the encode loops: a space, the (empty) group path, the
key, `=`, and the quoted value — skipped entirely for the reserved key. -/
def SyslogHandler.appendAttrTag (b : messageBuilder) (a : List Char × List Char) :
    messageBuilder :=
  if a.1 ≠ SyslogKey then
    (((b.AppendRune ' ').AppendString a.1).AppendString ['=']).AppendString (goQuote a.2)
  else b

/-- The bytes one non-reserved attribute contributes. -/
def attrTagBytes (a : List Char × List Char) : List Char :=
  ' ' :: a.1 ++ ('=' :: goQuote a.2)

/-- `SyslogHandler.encodeRFC3164`. -/
def SyslogHandler.encodeRFC3164 (h : SyslogHandler) (b : messageBuilder) (r : Record) :
    messageBuilder :=
  let b := h.appendPRI b r.level
  let b := h.appendTime b r.time
  let b := b.AppendString h.header
  let b := b.AppendString r.message
  let b := h.prerendered.foldl messageBuilder.AppendBytes b
  r.attrs.foldl SyslogHandler.appendAttrTag b

/-- `SyslogHandler.encodeRFC5424`. -/
def SyslogHandler.encodeRFC5424 (h : SyslogHandler) (b : messageBuilder) (r : Record) :
    messageBuilder :=
  let b := h.appendPRI b r.level
  let b := b.AppendString ['1', ' ']
  let b := h.appendTime b r.time
  let b := b.AppendString h.header
  let b := h.appendMsgID b r
  let b := b.AppendConditional " [Attrs@1".data
  let b := h.prerendered.foldl messageBuilder.AppendBytes b
  let b := r.attrs.foldl SyslogHandler.appendAttrTag b
  let b := b.CompleteConditional "] ".data " - ".data
  b.AppendString r.message

/-- The builder state right before `AppendConditional` in `encodeRFC5424`
(PRI, version, timestamp, header, msgID). -/
def SyslogHandler.rfc5424Prefix (h : SyslogHandler) (r : Record) : messageBuilder :=
  h.appendMsgID
    ((h.appendTime ((h.appendPRI ⟨[], []⟩ r.level).AppendString ['1', ' '])
        r.time).AppendString h.header) r

/-- `SyslogHandler.Handle`: encode with the selected method and frame on
write (newline for implicit framing, count-and-space prefix otherwise). -/
def SyslogHandler.Handle (h : SyslogHandler) (r : Record) : Option (List Char) :=
  let b : messageBuilder :=
    match h.encodeKind with
    | .rfc3164 => h.encodeRFC3164 ⟨[], []⟩ r
    | .rfc5424 => h.encodeRFC5424 ⟨[], []⟩ r
  b.write (decide (h.encoding ≠ SyslogEncodingRFC3164F ∧ h.encoding ≠ SyslogEncodingRFC5424F))

/-! ## Syslog message model (source: syslog_decoder.go) -/

/-- `SyslogSDParam`. -/
structure SyslogSDParam where
  Key : List Char
  Value : List Char
  deriving Repr, DecidableEq

/-- `SyslogSDElement`. -/
structure SyslogSDElement where
  ID : List Char
  Params : List SyslogSDParam
  deriving Repr, DecidableEq

/-- The three message variants behind the `SyslogMessage` interface. Every
variant carries the original raw bytes. -/
inductive SyslogMessage where
  | Undecoded (raw : List Char)
  | RFC3164 (raw : List Char) (Facility : Nat) (Priority : Nat) (Timestamp : DateTime)
      (Hostname : List Char) (MessageTag : List Char) (MessageContent : List Char)
  | RFC5424 (raw : List Char) (Facility : Nat) (Priority : Nat) (Version : Nat)
      (Timestamp : DateTime) (Hostname : List Char) (AppName : List Char)
      (ProcID : List Char) (MsgID : List Char) (SD : List SyslogSDElement)
      (Msg : List Char)
  deriving Repr, DecidableEq

namespace SyslogMessage

/-- `SyslogMessage.Raw`. -/
def Raw : SyslogMessage → List Char
  | .Undecoded raw => raw
  | .RFC3164 raw _ _ _ _ _ _ => raw
  | .RFC5424 raw _ _ _ _ _ _ _ _ _ _ => raw

/-- `SyslogMessage.Len`. -/
def Len (m : SyslogMessage) : Nat := m.Raw.length

end SyslogMessage

/-! ## Grammar parsers (source: the `UndecodedSyslogMessage.decode*` methods)

The source threads an integer offset through `m.raw`, always increasing it and
using `-1` for failure. The model threads the remaining suffix of the byte
list and uses `none` for failure; every parser returns the new suffix first,
mirroring the source's `decodeOff` result. -/

/-- `decodeByte`: the next byte must be `b`. -/
def decodeByteP (b : Char) : List Char → Option (List Char)
  | c :: rest => if c = b then some rest else none
  | [] => none

/-- The digit-accumulation loop of `decodePRI`; `first` records whether no
digit has been consumed yet (`decodeOff == off` in the source). Stops in
front of the first non-digit; running off the end of the input fails. -/
def priLoop (pri : Nat) (first : Bool) : List Char → Option (List Char × Nat × Nat)
  | [] => none
  | c :: rest =>
    match digitVal c with
    | some d => priLoop (10 * pri + d) false rest
    | none =>
      if first then none else some (c :: rest, pri / 8, pri % 8)

/-- `decodePRI`: digits folded to a value, returned as `(pri >> 3, pri & 7)`. -/
def decodePRIP (l : List Char) : Option (List Char × Nat × Nat) :=
  priLoop 0 true l

/-- The scan of `decodeString` past its initial bounds check: stops in front
of a space or newline, or consumes the whole input. -/
def stringLoop : List Char → List Char × List Char
  | [] => ([], [])
  | c :: rest =>
    if c = ' ' ∨ c = '\n' then (c :: rest, [])
    else
      let (r, t) := stringLoop rest
      (r, c :: t)

/-- `decodeString`: fails only on empty input. -/
def decodeStringP : List Char → Option (List Char × List Char)
  | [] => none
  | l => some (stringLoop l)

/-- The scan of `decodeTrailer`: consumes through the first newline (excluded
from the token) or the whole input. -/
def trailerLoop : List Char → List Char × List Char
  | [] => ([], [])
  | c :: rest =>
    if c = '\n' then (rest, [])
    else
      let (r, t) := trailerLoop rest
      (r, c :: t)

/-- `decodeTrailer`: fails only on empty input. -/
def decodeTrailerP : List Char → Option (List Char × List Char)
  | [] => none
  | l => some (trailerLoop l)

/-- `decodeTimestamp` with a fixed layout length (the RFC3164 path):
the source requires `off + layoutLen < len(m.raw)` — strictly, so a byte must
remain after the timestamp — then parses the 15-byte slice. -/
def decodeTimestampStampP (l : List Char) : Option (List Char × DateTime) :=
  if l.length ≤ 15 then none
  else
    match parseStamp (l.take 15) with
    | some t => some (l.drop 15, t)
    | none => none

/-- `decodeTimestamp` with `layoutLen = -1` (the RFC5424 path): a
space-delimited token parsed as RFC3339Nano. -/
def decodeTimestampRFC3339P (l : List Char) : Option (List Char × DateTime) :=
  match decodeStringP l with
  | some (rest, tok) =>
    match parseRFC3339Nano tok with
    | some t => some (rest, t)
    | none => none
  | none => none

/-- `decodeSDParamKey`: bytes up to (not including) `=`; running off the end
fails. -/
def decodeSDParamKeyP : List Char → Option (List Char × List Char)
  | [] => none
  | c :: rest =>
    if c = '=' then some (c :: rest, [])
    else
      match decodeSDParamKeyP rest with
      | some (r, k) => some (r, c :: k)
      | none => none

/-- `decodeSDParamValue`: bytes up to an unescaped `"`; a backslash escapes
the next byte (the backslash is dropped, the escaped byte kept verbatim). -/
def sdValueLoop (escaped : Bool) : List Char → Option (List Char × List Char)
  | [] => none
  | c :: rest =>
    if escaped then
      match sdValueLoop false rest with
      | some (r, v) => some (r, c :: v)
      | none => none
    else if c = '"' then some (c :: rest, [])
    else if c = '\\' then sdValueLoop true rest
    else
      match sdValueLoop false rest with
      | some (r, v) => some (r, c :: v)
      | none => none

/-- `decodeSDParam`: `key="value"`. -/
def decodeSDParamP (l : List Char) : Option (List Char × SyslogSDParam) :=
  match decodeSDParamKeyP l with
  | some (r1, key) =>
    match decodeByteP '=' r1 with
    | some r2 =>
      match decodeByteP '"' r2 with
      | some r3 =>
        match sdValueLoop false r3 with
        | some (r4, value) =>
          match decodeByteP '"' r4 with
          | some r5 => some (r5, ⟨key, value⟩)
          | none => none
        | none => none
      | none => none
    | none => none
  | none => none

theorem decodeSDParamKeyP_length {l r k} (h : decodeSDParamKeyP l = some (r, k)) :
    r.length ≤ l.length := by
  induction l generalizing r k with
  | nil => simp [decodeSDParamKeyP] at h
  | cons c rest ih =>
    simp only [decodeSDParamKeyP] at h
    split at h
    · cases h; simp
    · cases hrec : decodeSDParamKeyP rest with
      | none => rw [hrec] at h; cases h
      | some p =>
        rw [hrec] at h
        cases h
        have := ih hrec
        simp at this ⊢
        omega

theorem sdValueLoop_length {e l r v} (h : sdValueLoop e l = some (r, v)) :
    r.length ≤ l.length := by
  induction l generalizing e r v with
  | nil => simp [sdValueLoop] at h
  | cons c rest ih =>
    simp only [sdValueLoop] at h
    split at h
    · cases hrec : sdValueLoop false rest with
      | none => rw [hrec] at h; cases h
      | some p =>
        rw [hrec] at h; cases h
        have := ih hrec
        simp at this ⊢
        omega
    · split at h
      · cases h; simp
      · split at h
        · have := ih h
          simp at this ⊢
          omega
        · cases hrec : sdValueLoop false rest with
          | none => rw [hrec] at h; cases h
          | some p =>
            rw [hrec] at h; cases h
            have := ih hrec
            simp at this ⊢
            omega

theorem decodeByteP_length {b l r} (h : decodeByteP b l = some r) :
    r.length + 1 = l.length := by
  cases l with
  | nil => simp [decodeByteP] at h
  | cons c rest =>
    simp only [decodeByteP] at h
    split at h
    · cases h; simp
    · cases h

theorem decodeSDParamP_length {l r p} (h : decodeSDParamP l = some (r, p)) :
    r.length < l.length := by
  unfold decodeSDParamP at h
  split at h
  next r1 key h1 =>
    split at h
    next r2 h2 =>
      split at h
      next r3 h3 =>
        split at h
        next r4 value h4 =>
          split at h
          next r5 h5 =>
            cases h
            have l1 := decodeSDParamKeyP_length h1
            have l2 := decodeByteP_length h2
            have l3 := decodeByteP_length h3
            have l4 := sdValueLoop_length h4
            have l5 := decodeByteP_length h5
            omega
          next h5 => cases h
        next h4 => cases h
      next h3 => cases h
    next h2 => cases h
  next h1 => cases h

/-- The parameter loop of `decodeSDElement` with explicit fuel: stop past
`]`, otherwise require a space and another parameter. -/
def sdElemLoopF : Nat → List SyslogSDParam → List Char →
    Option (List Char × List SyslogSDParam)
  | 0, _, _ => none
  | fuel + 1, params, l =>
    match l with
    | [] => none
    | c :: rest =>
      if c = ']' then some (rest, params)
      else if c = ' ' then
        match decodeSDParamP rest with
        | some (r, p) => sdElemLoopF fuel (params ++ [p]) r
        | none => none
      else none

/-- The parameter loop of `decodeSDElement`. Every iteration consumes at
least one byte, so fuel `l.length + 1` never runs out
(`sdElemLoopF_adequate`). -/
def sdElemLoop (params : List SyslogSDParam) (l : List Char) :
    Option (List Char × List SyslogSDParam) :=
  sdElemLoopF (l.length + 1) params l

/-- Fuel above the buffer length is irrelevant to `sdElemLoopF`. -/
theorem sdElemLoopF_mono :
    ∀ (f₁ f₂ : Nat) (params : List SyslogSDParam) (l : List Char),
      l.length < f₁ → l.length < f₂ →
      sdElemLoopF f₁ params l = sdElemLoopF f₂ params l := by
  intro f₁
  induction f₁ with
  | zero => intro f₂ params l h1 _; omega
  | succ f₁ ih =>
    intro f₂ params l h1 h2
    cases f₂ with
    | zero => omega
    | succ f₂ =>
      cases l with
      | nil => rfl
      | cons c rest =>
        simp only [sdElemLoopF]
        split_ifs with hc hs
        · rfl
        · cases hp : decodeSDParamP rest with
          | none => rfl
          | some q =>
            obtain ⟨r, p⟩ := q
            have hlen := decodeSDParamP_length hp
            simp at h1 h2
            exact ih f₂ (params ++ [p]) r (by omega) (by omega)
        · rfl

/-- `sdElemLoopF` at its canonical fuel agrees with `sdElemLoop`. -/
theorem sdElemLoopF_adequate (fuel : Nat) (params : List SyslogSDParam)
    (l : List Char) (h : l.length < fuel) :
    sdElemLoopF fuel params l = sdElemLoop params l :=
  sdElemLoopF_mono fuel (l.length + 1) params l h (by omega)

/-- `decodeSDElement`: `[` + space-delimited id + parameters + `]`. -/
def decodeSDElementP (l : List Char) : Option (List Char × SyslogSDElement) :=
  match decodeByteP '[' l with
  | some r1 =>
    match decodeStringP r1 with
    | some (r2, id) =>
      match sdElemLoop [] r2 with
      | some (r3, params) => some (r3, ⟨id, params⟩)
      | none => none
    | none => none
  | none => none

theorem stringLoop_length (l : List Char) :
    (stringLoop l).1.length ≤ l.length := by
  induction l with
  | nil => simp [stringLoop]
  | cons c rest ih =>
    simp only [stringLoop]
    split
    · simp
    · simp only []
      have : (stringLoop rest).1.length ≤ rest.length := ih
      simp
      omega

theorem sdElemLoopF_length :
    ∀ (fuel : Nat) (ps : List SyslogSDParam) (l : List Char) r q,
      sdElemLoopF fuel ps l = some (r, q) → r.length < l.length := by
  intro fuel
  induction fuel with
  | zero => intro ps l r q h; cases h
  | succ fuel ih =>
    intro ps l r q h
    cases l with
    | nil => cases h
    | cons c rest =>
      simp only [sdElemLoopF] at h
      split_ifs at h with hc hs
      · cases h; simp
      · cases hp : decodeSDParamP rest with
        | none => rw [hp] at h; cases h
        | some pr =>
          obtain ⟨r', p⟩ := pr
          rw [hp] at h
          have hr := ih (ps ++ [p]) r' r q h
          have hlen := decodeSDParamP_length hp
          simp
          omega

theorem sdElemLoop_length {ps l r q} (h : sdElemLoop ps l = some (r, q)) :
    r.length < l.length :=
  sdElemLoopF_length (l.length + 1) ps l r q h

theorem decodeSDElementP_length {l r e} (h : decodeSDElementP l = some (r, e)) :
    r.length < l.length := by
  unfold decodeSDElementP at h
  split at h
  next r1 h1 =>
    split at h
    next r2 id h2 =>
      split at h
      next r3 params h3 =>
        cases h
        have l1 := decodeByteP_length h1
        have l3 := sdElemLoop_length h3
        have l2 : r2.length ≤ r1.length := by
          cases r1 with
          | nil => simp [decodeStringP] at h2
          | cons a b =>
            have he : stringLoop (a :: b) = (r2, id) := by
              simpa [decodeStringP] using h2
            have hl := stringLoop_length (a :: b)
            rw [he] at hl
            simpa using hl
        omega
      next h3 => cases h
    next h2 => cases h
  next h1 => cases h

/-- The element loop of `decodeSD` with explicit fuel: parse one element,
continue while the next byte is `[`. -/
def sdLoopF : Nat → List SyslogSDElement → List Char →
    Option (List Char × List SyslogSDElement)
  | 0, _, _ => none
  | fuel + 1, acc, l =>
    match decodeSDElementP l with
    | some (r, e) =>
      if r.head? = some '[' then sdLoopF fuel (acc ++ [e]) r
      else some (r, acc ++ [e])
    | none => none

/-- The element loop of `decodeSD`. Every element consumes at least one byte,
so fuel `l.length + 1` never runs out (`sdLoopF_adequate`). -/
def sdLoop (acc : List SyslogSDElement) (l : List Char) :
    Option (List Char × List SyslogSDElement) :=
  sdLoopF (l.length + 1) acc l

/-- Fuel above the buffer length is irrelevant to `sdLoopF`. -/
theorem sdLoopF_mono :
    ∀ (f₁ f₂ : Nat) (acc : List SyslogSDElement) (l : List Char),
      l.length < f₁ → l.length < f₂ →
      sdLoopF f₁ acc l = sdLoopF f₂ acc l := by
  intro f₁
  induction f₁ with
  | zero => intro f₂ acc l h1 _; omega
  | succ f₁ ih =>
    intro f₂ acc l h1 h2
    cases f₂ with
    | zero => omega
    | succ f₂ =>
      simp only [sdLoopF]
      cases he : decodeSDElementP l with
      | none => rfl
      | some re =>
        obtain ⟨r, e⟩ := re
        have hlen := decodeSDElementP_length he
        dsimp only
        split_ifs with hc
        · exact ih f₂ (acc ++ [e]) r (by omega) (by omega)
        · rfl

/-- `sdLoopF` at its canonical fuel agrees with `sdLoop`. -/
theorem sdLoopF_adequate (fuel : Nat) (acc : List SyslogSDElement)
    (l : List Char) (h : l.length < fuel) :
    sdLoopF fuel acc l = sdLoop acc l :=
  sdLoopF_mono fuel (l.length + 1) acc l h (by omega)

/-- `decodeSD`: `-` for no elements, otherwise one or more elements. -/
def decodeSDP (l : List Char) : Option (List Char × List SyslogSDElement) :=
  match l with
  | [] => none
  | c :: rest =>
    if c = '-' then some (rest, [])
    else sdLoop [] (c :: rest)

/-- `decodeRFC3164`: fixed 15-byte timestamp, hostname, message tag, trailer;
any failure falls back to the undecoded message. -/
def decodeRFC3164P (raw l : List Char) (facility priority : Nat) : SyslogMessage :=
  match decodeTimestampStampP l with
  | none => .Undecoded raw
  | some (r1, timestamp) =>
    match decodeByteP ' ' r1 with
    | none => .Undecoded raw
    | some r2 =>
      match decodeStringP r2 with
      | none => .Undecoded raw
      | some (r3, hostname) =>
        match decodeByteP ' ' r3 with
        | none => .Undecoded raw
        | some r4 =>
          match decodeStringP r4 with
          | none => .Undecoded raw
          | some (r5, messageTag) =>
            match decodeByteP ' ' r5 with
            | none => .Undecoded raw
            | some r6 =>
              match decodeTrailerP r6 with
              | none => .Undecoded raw
              | some (_, messageContent) =>
                .RFC3164 raw facility priority timestamp hostname messageTag
                  messageContent

/-- `decodeRFC5424`: version `1`, RFC3339 timestamp, four tokens, structured
data, trailer; any failure falls back to the undecoded message. -/
def decodeRFC5424P (raw l : List Char) (facility priority : Nat) : SyslogMessage :=
  match decodeByteP '1' l with
  | none => .Undecoded raw
  | some r0 =>
    match decodeByteP ' ' r0 with
    | none => .Undecoded raw
    | some r1 =>
      match decodeTimestampRFC3339P r1 with
      | none => .Undecoded raw
      | some (r2, timestamp) =>
        match decodeByteP ' ' r2 with
        | none => .Undecoded raw
        | some r3 =>
          match decodeStringP r3 with
          | none => .Undecoded raw
          | some (r4, hostname) =>
            match decodeByteP ' ' r4 with
            | none => .Undecoded raw
            | some r5 =>
              match decodeStringP r5 with
              | none => .Undecoded raw
              | some (r6, appName) =>
                match decodeByteP ' ' r6 with
                | none => .Undecoded raw
                | some r7 =>
                  match decodeStringP r7 with
                  | none => .Undecoded raw
                  | some (r8, procID) =>
                    match decodeByteP ' ' r8 with
                    | none => .Undecoded raw
                    | some r9 =>
                      match decodeStringP r9 with
                      | none => .Undecoded raw
                      | some (r10, msgID) =>
                        match decodeByteP ' ' r10 with
                        | none => .Undecoded raw
                        | some r11 =>
                          match decodeSDP r11 with
                          | none => .Undecoded raw
                          | some (r12, sd) =>
                            match decodeTrailerP r12 with
                            | none => .Undecoded raw
                            | some (_, msg) =>
                              .RFC5424 raw facility priority 1 timestamp hostname
                                appName procID msgID sd msg

/-- `UndecodedSyslogMessage.decode`: PRI bracket, then grammar selection by
the byte following `>`. The source reads `m.raw[decodeOff]` there without a
bounds check; when the frame ends directly after `>` this is an
index-out-of-range panic, modeled as `none`. -/
def undecodedDecode (raw : List Char) (off : Nat) : Option SyslogMessage :=
  let rest := raw.drop off
  match decodeByteP '<' rest with
  | none => some (.Undecoded raw)
  | some r1 =>
    match decodePRIP r1 with
    | none => some (.Undecoded raw)
    | some (r2, facility, priority) =>
      match decodeByteP '>' r2 with
      | none => some (.Undecoded raw)
      | some r3 =>
        match r3 with
        | [] => none
        | c :: _ =>
          if c = 'J' ∨ c = 'F' ∨ c = 'M' ∨ c = 'A' ∨ c = 'S' ∨ c = 'O' ∨
              c = 'N' ∨ c = 'D' then
            some (decodeRFC3164P raw r3 facility priority)
          else if c = '1' then
            some (decodeRFC5424P raw r3 facility priority)
          else some (.Undecoded raw)

/-! ## The decoder state machine (source: syslog_decoder.go, `SyslogDecoder`) -/

/-- `syslogDecodeLimit`. -/
def syslogDecodeLimit : Nat := 0x7fff

/-- `syslogDecoderState`. -/
inductive syslogDecoderState where
  | Framing | ImplicitFraming | ImplicitFramingMessage
  | OctetFramingHeader | OctetFraming | OctetFramingMessage
  | Unknown | UnknownMessage
  deriving Repr, DecidableEq

/-- `SyslogDecoder`. The `decoding` field holds the bytes of the
message-in-progress (`nil` pointer and empty message coincide: handlers touch
`decoding` only in states where the source guarantees it is non-nil). -/
structure SyslogDecoder where
  buffer : List Char
  state : syslogDecoderState
  decoding : List Char
  octets : Nat
  octetsRemaining : Nat
  deriving Repr, DecidableEq

/-- A zero-value `SyslogDecoder` (as in `&log.SyslogDecoder{}`). -/
def SyslogDecoder.empty : SyslogDecoder := ⟨[], .Framing, [], 0, 0⟩

namespace SyslogDecoder

/-- `SyslogDecoder.Reset`. -/
def Reset (_ : SyslogDecoder) : SyslogDecoder := ⟨[], .Framing, [], 0, 0⟩

/-- `SyslogDecoder.Feed`. -/
def Feed (d : SyslogDecoder) (b : List Char) : SyslogDecoder :=
  { d with buffer := d.buffer ++ b }

/-- Is a byte one of `1`..`9` (the octet-count frame starts; `0` is not
among them in either `decodeFraming` or `decodeUnknown`)? -/
def frameDigit (c : Char) : Prop :=
  c = '1' ∨ c = '2' ∨ c = '3' ∨ c = '4' ∨ c = '5' ∨ c = '6' ∨ c = '7' ∨
    c = '8' ∨ c = '9'

instance (c : Char) : Decidable (frameDigit c) := by unfold frameDigit; infer_instance

/-- `SyslogDecoder.decodeFraming`: peek the next byte without consuming it,
allocate a fresh message-in-progress, and select the framing state. -/
def decodeFraming (d : SyslogDecoder) : SyslogDecoder :=
  match d.buffer with
  | [] => d
  | b :: _ =>
    { d with
      decoding := []
      state :=
        if b = '<' then .ImplicitFraming
        else if frameDigit b then .OctetFramingHeader
        else .Unknown }

/-- `bytes.Buffer.ReadBytes('\n')`: the consumed chunk (newline included when
found) and the remaining buffer (`none` when no newline is buffered). -/
def readUntilNL : List Char → List Char × Option (List Char)
  | [] => ([], none)
  | c :: rest =>
    if c = '\n' then ([c], some rest)
    else
      let (chunk, r) := readUntilNL rest
      (c :: chunk, r)

/-- `SyslogDecoder.decodeImplicitFraming`: move bytes up to and including the
newline into the message-in-progress; without a newline, the partial bytes
still move and the state is left unchanged. -/
def decodeImplicitFraming (d : SyslogDecoder) : SyslogDecoder :=
  let (chunk, r) := readUntilNL d.buffer
  match r with
  | some rest =>
    { d with
      buffer := rest
      decoding := d.decoding ++ chunk
      state := .ImplicitFramingMessage }
  | none => { d with buffer := [], decoding := d.decoding ++ chunk }

/-- How the loop of `decodeOctetFramingHeader` exited: buffer exhausted
(suspend), the single space found, or a malformed/oversized header. -/
inductive OFHOutcome | suspended | space | unknown
  deriving Repr, DecidableEq

/-- The loop of `decodeOctetFramingHeader` over the buffer: returns the
remaining buffer, the grown message-in-progress, the accumulated count and
the exit reason. -/
def ofhLoop : List Char → List Char → Nat → List Char × List Char × Nat × OFHOutcome
  | [], dec, oct => ([], dec, oct, .suspended)
  | b :: rest, dec, oct =>
    if b = ' ' then (rest, dec ++ [b], oct, .space)
    else
      match digitVal b with
      | some dig =>
        let oct' := 10 * oct + dig
        if oct' > syslogDecodeLimit then (rest, dec ++ [b], oct', .unknown)
        else ofhLoop rest (dec ++ [b]) oct'
      | none => (rest, dec ++ [b], oct, .unknown)

/-- `SyslogDecoder.decodeOctetFramingHeader`: consume digits into `octets`
until the single space; a non-digit or a value beyond the limit forces
`Unknown`; an exhausted buffer suspends with the state unchanged. -/
def decodeOctetFramingHeader (d : SyslogDecoder) : SyslogDecoder :=
  match ofhLoop d.buffer d.decoding d.octets with
  | (buf, dec, oct, .suspended) =>
    { d with buffer := buf, decoding := dec, octets := oct }
  | (buf, dec, oct, .space) =>
    { d with
      buffer := buf
      decoding := dec
      octets := oct
      octetsRemaining := oct
      state := .OctetFraming }
  | (buf, dec, oct, .unknown) =>
    { d with buffer := buf, decoding := dec, octets := oct, state := .Unknown }

/-- `SyslogDecoder.decodeOctetFraming`: `buffer.Next(octetsRemaining)` moves
at most the remaining count into the message-in-progress; at zero remaining,
the frame is complete. -/
def decodeOctetFraming (d : SyslogDecoder) : SyslogDecoder :=
  let b := d.buffer.take d.octetsRemaining
  let d1 : SyslogDecoder :=
    { d with
      buffer := d.buffer.drop d.octetsRemaining
      decoding := d.decoding ++ b
      octetsRemaining := d.octetsRemaining - b.length }
  if d1.octetsRemaining = 0 then { d1 with state := .OctetFramingMessage }
  else d1

/-- The loop body of `SyslogDecoder.decodeUnknown`, with explicit fuel
(`none` = the loop did not return within `fuel` iterations). Faithful to the
source: the message-in-progress is re-allocated on every iteration, a frame
start byte is unread and flips the state to `Framing` without leaving the
loop, and only an exhausted buffer returns. -/
def duLoop : Nat → SyslogDecoder → Option SyslogDecoder
  | 0, _ => none
  | fuel + 1, d =>
    match d.buffer with
    | [] => some d
    | b :: rest =>
      let d1 : SyslogDecoder := { d with decoding := [] }
      if b = '<' ∨ frameDigit b then
        duLoop fuel { d1 with state := .Framing }
      else
        let d2 : SyslogDecoder := { d1 with buffer := rest, decoding := [b] }
        let d3 : SyslogDecoder :=
          if d2.decoding.length > syslogDecodeLimit then
            { d2 with state := .UnknownMessage }
          else d2
        duLoop fuel d3

/-- The reset performed by `decodeMessage` / `decodeUnknownMessage` after
emitting a message. -/
def resetAfterMessage (d : SyslogDecoder) : SyslogDecoder :=
  { d with state := .Framing, decoding := [], octets := 0, octetsRemaining := 0 }

/-- `SyslogDecoder.decodeMessage` (`none` propagates the decode panic). -/
def decodeMessage (off : Nat) (d : SyslogDecoder) :
    Option (SyslogMessage × SyslogDecoder) :=
  match undecodedDecode d.decoding off with
  | some m => some (m, resetAfterMessage d)
  | none => none

/-- `SyslogDecoder.decodeUnknownMessage`. -/
def decodeUnknownMessage (d : SyslogDecoder) : SyslogMessage × SyslogDecoder :=
  (.Undecoded d.decoding, resetAfterMessage d)

/-- `SyslogDecoder.decodeImplicitFramingMessage`. -/
def decodeImplicitFramingMessage (d : SyslogDecoder) :
    Option (SyslogMessage × SyslogDecoder) :=
  decodeMessage 0 d

/-- `SyslogDecoder.decodeOctetFramingMessage`: the grammar starts after the
count-and-space header; a header shorter than two bytes downgrades to an
undecoded message. -/
def decodeOctetFramingMessage (d : SyslogDecoder) :
    Option (SyslogMessage × SyslogDecoder) :=
  let len := d.decoding.length
  let off := len - d.octets
  if off < 2 then some (decodeUnknownMessage d)
  else decodeMessage off d

theorem decodeFraming_state (d : SyslogDecoder) :
    (decodeFraming d).state = d.state ∨
      (decodeFraming d).state = .ImplicitFraming ∨
      (decodeFraming d).state = .OctetFramingHeader ∨
      (decodeFraming d).state = .Unknown := by
  unfold decodeFraming
  cases d.buffer with
  | nil => simp
  | cons b rest =>
    dsimp only
    split_ifs <;> simp

theorem decodeImplicitFraming_state (d : SyslogDecoder) :
    (decodeImplicitFraming d).state = d.state ∨
      (decodeImplicitFraming d).state = .ImplicitFramingMessage := by
  unfold decodeImplicitFraming
  rcases readUntilNL d.buffer with ⟨chunk, r⟩
  cases r <;> simp

theorem decodeOctetFramingHeader_state (d : SyslogDecoder) :
    (decodeOctetFramingHeader d).state = d.state ∨
      (decodeOctetFramingHeader d).state = .OctetFraming ∨
      (decodeOctetFramingHeader d).state = .Unknown := by
  unfold decodeOctetFramingHeader
  rcases ofhLoop d.buffer d.decoding d.octets with ⟨buf, dec, oct, oc⟩
  cases oc <;> simp

theorem decodeOctetFraming_state (d : SyslogDecoder) :
    (decodeOctetFraming d).state = d.state ∨
      (decodeOctetFraming d).state = .OctetFramingMessage := by
  unfold decodeOctetFraming
  dsimp only
  split_ifs <;> simp

/-- In the `Unknown` state, a frame-start byte at the head of the buffer is
read, unread and re-read forever: the loop never returns. -/
theorem duLoop_frameStart :
    ∀ (fuel : Nat) (d : SyslogDecoder) b rest, d.buffer = b :: rest →
      (b = '<' ∨ frameDigit b) → duLoop fuel d = none := by
  intro fuel
  induction fuel with
  | zero => intro d b rest _ _; rfl
  | succ fuel ih =>
    intro d b rest hbuf hfs
    unfold duLoop
    rw [hbuf]
    simp only [if_pos hfs]
    exact ih _ b rest (by simpa using hbuf) hfs

/-- When the `Unknown` loop does return, the buffer has been exhausted and
the state is unchanged (the `UnknownMessage` transition is dead: the freshly
allocated message-in-progress never exceeds the limit). -/
theorem duLoop_some :
    ∀ (fuel : Nat) (d d' : SyslogDecoder), duLoop fuel d = some d' →
      d'.state = d.state ∧ d'.buffer = [] := by
  intro fuel
  induction fuel with
  | zero => intro d d' h; cases h
  | succ fuel ih =>
    intro d d' h
    unfold duLoop at h
    cases hbuf : d.buffer with
    | nil =>
      rw [hbuf] at h
      cases h
      exact ⟨rfl, hbuf⟩
    | cons b rest =>
      rw [hbuf] at h
      dsimp only at h
      split_ifs at h with hfs hlim
      · have hdiv := duLoop_frameStart fuel
          ⟨b :: rest, .Framing, [], d.octets, d.octetsRemaining⟩ b rest rfl hfs
        rw [hdiv] at h
        cases h
      · simp [syslogDecodeLimit] at hlim
      · have := ih _ _ h
        simpa using this

/-- The rank used to show the dispatch loop of `SyslogDecoder.decode`
terminates: every state change in one iteration strictly increases it. -/
def stateRank : syslogDecoderState → Nat
  | .Framing => 0
  | .ImplicitFraming => 1
  | .OctetFramingHeader => 1
  | .OctetFraming => 2
  | .Unknown => 3
  | .ImplicitFramingMessage => 4
  | .OctetFramingMessage => 5
  | .UnknownMessage => 6

/-- One pass of the goto-style dispatch loop of `SyslogDecoder.decode`, with
explicit fuel for its iterations. Returns `some (some m, d')` when a message
is emitted, `some (none, d')` when an iteration leaves the state unchanged
(more input needed), and `none` when the source would not return at all (the
`decodeUnknown` non-termination, the `decode` index panic, or — never at
fuel ≥ 8, see `decodeLoop_stable` — fuel exhaustion). -/
def decodeLoop : Nat → SyslogDecoder → Option (Option SyslogMessage × SyslogDecoder)
  | 0, _ => none
  | fuel + 1, d =>
    match d.state with
    | .ImplicitFramingMessage =>
      match decodeImplicitFramingMessage d with
      | some (m, d') => some (some m, d')
      | none => none
    | .OctetFramingMessage =>
      match decodeOctetFramingMessage d with
      | some (m, d') => some (some m, d')
      | none => none
    | .UnknownMessage =>
      let p := decodeUnknownMessage d
      some (some p.1, p.2)
    | .Framing =>
      let d' := decodeFraming d
      if d'.state = .Framing then some (none, d') else decodeLoop fuel d'
    | .ImplicitFraming =>
      let d' := decodeImplicitFraming d
      if d'.state = .ImplicitFraming then some (none, d') else decodeLoop fuel d'
    | .OctetFramingHeader =>
      let d' := decodeOctetFramingHeader d
      if d'.state = .OctetFramingHeader then some (none, d') else decodeLoop fuel d'
    | .OctetFraming =>
      let d' := decodeOctetFraming d
      if d'.state = .OctetFraming then some (none, d') else decodeLoop fuel d'
    | .Unknown =>
      match duLoop (d.buffer.length + 1) d with
      | none => none
      | some d' =>
        if d'.state = .Unknown then some (none, d') else decodeLoop fuel d'

/-- `SyslogDecoder.decode`: the dispatch loop runs to completion within 8
iterations, because every iteration that neither returns nor leaves the state
unchanged strictly increases `stateRank` (which is at most 6). -/
def decode (d : SyslogDecoder) : Option (Option SyslogMessage × SyslogDecoder) :=
  decodeLoop 8 d

theorem stateRank_le (s : syslogDecoderState) : stateRank s ≤ 6 := by
  cases s <;> simp [stateRank]

/-- Any fuel beyond `8 - stateRank` computes the same result as the
fixed-fuel `decode`: the dispatch loop is never cut short. -/
theorem decodeLoop_stable :
    ∀ (k fuel : Nat) (d : SyslogDecoder),
      8 - stateRank d.state ≤ k → k ≤ fuel →
      decodeLoop fuel d = decodeLoop k d := by
  intro k
  induction k with
  | zero =>
    intro fuel d h _
    have := stateRank_le d.state
    omega
  | succ k ih =>
    intro fuel d h hk
    cases fuel with
    | zero => omega
    | succ fuel =>
      simp only [decodeLoop]
      cases hst : d.state
      case ImplicitFramingMessage => rfl
      case OctetFramingMessage => rfl
      case UnknownMessage => rfl
      case Framing =>
        dsimp only
        split_ifs with h'
        · rfl
        · rcases decodeFraming_state d with hs | hs | hs | hs
          · rw [hst] at hs; exact absurd hs h'
          all_goals
            exact ih fuel (decodeFraming d)
              (by simp only [hs, stateRank]; simp only [hst, stateRank] at h; omega)
              (by omega)
      case ImplicitFraming =>
        dsimp only
        split_ifs with h'
        · rfl
        · rcases decodeImplicitFraming_state d with hs | hs
          · rw [hst] at hs; exact absurd hs h'
          · exact ih fuel (decodeImplicitFraming d)
              (by simp only [hs, stateRank]; simp only [hst, stateRank] at h; omega)
              (by omega)
      case OctetFramingHeader =>
        dsimp only
        split_ifs with h'
        · rfl
        · rcases decodeOctetFramingHeader_state d with hs | hs | hs
          · rw [hst] at hs; exact absurd hs h'
          all_goals
            exact ih fuel (decodeOctetFramingHeader d)
              (by simp only [hs, stateRank]; simp only [hst, stateRank] at h; omega)
              (by omega)
      case OctetFraming =>
        dsimp only
        split_ifs with h'
        · rfl
        · rcases decodeOctetFraming_state d with hs | hs
          · rw [hst] at hs; exact absurd hs h'
          · exact ih fuel (decodeOctetFraming d)
              (by simp only [hs, stateRank]; simp only [hst, stateRank] at h; omega)
              (by omega)
      case Unknown =>
        dsimp only
        cases hdu : duLoop (d.buffer.length + 1) d with
        | none => rfl
        | some d' =>
          dsimp only
          split_ifs with h'
          · rfl
          · exact absurd (((duLoop_some _ _ _ hdu).1).trans hst) h'

/-- `SyslogDecoder.Decode` as a fueled loop: collect messages until one
iteration reports that more input is needed. -/
def decodeAll : Nat → SyslogDecoder → Option (List SyslogMessage × SyslogDecoder)
  | 0, _ => none
  | fuel + 1, d =>
    match d.decode with
    | none => none
    | some (none, d') => some ([], d')
    | some (some m, d') =>
      match decodeAll fuel d' with
      | none => none
      | some (ms, d'') => some (m :: ms, d'')

/-- `SyslogDecoder.Decode`. Every emitted message consumes at least one
buffered byte (after the first, which may complete a previously suspended
frame), so `buffer.length + 2` rounds of the loop always suffice; `none`
therefore means the source's `Decode` does not return normally. -/
def Decode (d : SyslogDecoder) : Option (List SyslogMessage × SyslogDecoder) :=
  decodeAll (d.buffer.length + 2) d

/-- In the `Unknown` state the scan loop diverges as soon as any frame-start
byte is buffered: it consumes garbage bytes up to the first `<` or nonzero
digit and then re-reads that byte forever. -/
theorem duLoop_none_of_mem_frameStart :
    ∀ (fuel : Nat) (d : SyslogDecoder),
      (∃ b ∈ d.buffer, b = '<' ∨ frameDigit b) → duLoop fuel d = none := by
  intro fuel
  induction fuel with
  | zero => intro d _; rfl
  | succ fuel ih =>
    intro d hmem
    cases hbuf : d.buffer with
    | nil => rw [hbuf] at hmem; simp at hmem
    | cons b rest =>
      by_cases hfs : b = '<' ∨ frameDigit b
      · exact duLoop_frameStart (fuel + 1) d b rest hbuf hfs
      · unfold duLoop
        rw [hbuf]
        dsimp only
        rw [if_neg hfs]
        have hlim : ¬(([b] : List Char).length > syslogDecodeLimit) := by
          simp [syslogDecodeLimit]
        rw [if_neg hlim]
        apply ih
        obtain ⟨c, hc, hcfs⟩ := hmem
        rw [hbuf] at hc
        rcases List.mem_cons.mp hc with hc | hc
        · exact absurd (hc ▸ hcfs) hfs
        · exact ⟨c, by simpa using hc, hcfs⟩

end SyslogDecoder

/-! ## Claim theorems -/

/-- C3: termination fails on the code as written. For the adversarial input
`x<` the claim predicts termination with "no message yet"; instead, after the
`x` sends the decoder to the `Unknown` state, `decodeUnknown` reads the `<`,
unreads it, sets the state to `Framing` and continues its loop, re-reading
the same byte forever. No amount of fuel makes the decode loop return. -/
theorem c3_decode_never_returns_on_garbage_then_frame_start :
    ∀ fuel : Nat,
      SyslogDecoder.decodeAll fuel (SyslogDecoder.empty.Feed ['x', '<']) = none := by
  intro fuel
  cases fuel with
  | zero => rfl
  | succ fuel =>
    have h : SyslogDecoder.decode (SyslogDecoder.empty.Feed ['x', '<']) = none := by
      decide
    unfold SyslogDecoder.decodeAll
    rw [h]

/-- Abstract form of the C2 refutation: one non-framing byte leads to the
`Unknown` state, and any frame-start byte later in the stream makes the
scan loop diverge, so no amount of `decodeAll` fuel returns. -/
theorem decodeAll_none_of_unknown_garbage (c : Char) (g' rest : List Char)
    (hc : ¬(c = '<' ∨ SyslogDecoder.frameDigit c))
    (hfs : ∃ b ∈ rest, b = '<' ∨ SyslogDecoder.frameDigit b) :
    ∀ fuel : Nat,
      SyslogDecoder.decodeAll fuel
        (SyslogDecoder.empty.Feed (c :: (g' ++ rest))) = none := by
  intro fuel
  cases fuel with
  | zero => rfl
  | succ fuel =>
    have hfeed : SyslogDecoder.empty.Feed (c :: (g' ++ rest)) =
        ⟨c :: (g' ++ rest), .Framing, [], 0, 0⟩ := rfl
    have h1 : SyslogDecoder.decodeFraming ⟨c :: (g' ++ rest), .Framing, [], 0, 0⟩ =
        ⟨c :: (g' ++ rest), .Unknown, [], 0, 0⟩ := by
      unfold SyslogDecoder.decodeFraming
      dsimp only
      rw [if_neg (fun h => hc (Or.inl h)), if_neg (fun h => hc (Or.inr h))]
    have h2 : SyslogDecoder.duLoop ((c :: (g' ++ rest)).length + 1)
        ⟨c :: (g' ++ rest), .Unknown, [], 0, 0⟩ = none := by
      apply SyslogDecoder.duLoop_none_of_mem_frameStart
      obtain ⟨b, hb, hbs⟩ := hfs
      exact ⟨b, List.mem_cons_of_mem c (List.mem_append_right g' hb), hbs⟩
    have hstep : SyslogDecoder.decode
        (SyslogDecoder.empty.Feed (c :: (g' ++ rest))) = none := by
      rw [hfeed]
      show SyslogDecoder.decodeLoop 8 _ = none
      unfold SyslogDecoder.decodeLoop
      dsimp only
      rw [h1, if_neg (by simp)]
      unfold SyslogDecoder.decodeLoop
      dsimp only
      rw [h2]
    unfold SyslogDecoder.decodeAll
    rw [hstep]

/-- C2: the resynchronization path never emits the accumulated garbage. The
source re-allocates the discard buffer on every byte of the `Unknown` scan,
so the 32767-byte guard can never trip, and upon reaching the `<` of the
following well-formed frame the scan loop stops terminating altogether: for
a stream of 32768 non-framing bytes followed by a valid frame, `Decode`
never returns any message at all (the claim predicts exactly one `Undecoded`
message followed by one parsed message). -/
theorem c2_resync_overflow_never_emits :
    ∀ fuel : Nat,
      SyslogDecoder.decodeAll fuel
        (SyslogDecoder.empty.Feed
          (List.replicate 32768 'x' ++
            "<34>Oct 11 22:14:15 mymachine su: hello\n".data)) = none := by
  intro fuel
  have hcons : List.replicate 32768 'x' ++
      "<34>Oct 11 22:14:15 mymachine su: hello\n".data =
      'x' :: (List.replicate 32767 'x' ++
        "<34>Oct 11 22:14:15 mymachine su: hello\n".data) := by
    rw [show (32768 : Nat) = 32767 + 1 from rfl, List.replicate_succ]
    rfl
  rw [hcons]
  exact decodeAll_none_of_unknown_garbage 'x' (List.replicate 32767 'x') _
    (by decide) ⟨'<', by decide, Or.inl rfl⟩ fuel

/-- C6: the facility fallback is computed but never stored. `NewSyslogHandler`
with the out-of-range facility 99 logs the warning yet keeps 99 in the
handler options, so the PRI emitted for an info-level record is `<796>`
(`99*8 + 4`), not a facility-16 PRI as the claim requires. -/
theorem c6_out_of_range_facility_is_kept :
    (NewSyslogHandler ⟨SyslogEncodingDefault, 99⟩ "h".data "app".data "1".data).facility
        = 99 ∧
      ((NewSyslogHandler ⟨SyslogEncodingDefault, 99⟩ "h".data "app".data
          "1".data).appendPRI ⟨[], []⟩ levelInfo).buffer = "<796>".data ∧
      796 / 8 = 99 := by
  refine ⟨rfl, ?_, by norm_num⟩
  decide

/-- C7: the severity switch tests `level <= LevelWarn` before the info and
default branches, so an info-level record (level 0 ≤ 4) and a debug-level
record (level -4 ≤ 4) both encode severity 4 — the claim's "info maps to 6,
debug maps to 7" is contradicted by the code, whose `<= LevelInfo` and
default branches are unreachable from below. -/
theorem c7_severity_at_info_and_debug_is_4 :
    severityFor levelInfo = 4 ∧ severityFor levelDebug = 4 ∧
      (NewSyslogHandler ⟨SyslogEncodingDefault, 16⟩ [] [] []).priValue levelInfo
        = 132 ∧ severityFor (levelWarn + 1) = 7 := by
  refine ⟨by decide, by decide, by decide, by decide⟩

/-- C9 counterexample: an unrecognized network scheme is not examined at
construction (the writer is built with the scheme verbatim) and the
`unrecognized syslog network options` error is returned from the first
`Write` call — a runtime I/O error, which the claim says can never happen. -/
theorem c9_counterexample_scheme_error_at_write :
    (getSyslogWriter "foo" "host:514").network = "foo" ∧
      ((getSyslogWriter "foo" "host:514").write "msg".data).2 =
        .error ("unrecognized syslog network options: " ++ "foo") := by
  constructor
  · rfl
  · rfl

/-- C9 amended: for every scheme outside the accepted set, construction
succeeds with the scheme stored unchanged (no eager validation, no fallback),
and the first `Write` call surfaces the unrecognized-scheme dial error. -/
theorem c9_unrecognized_scheme_error_surfaces_at_first_write
    (network address : String) (b : List Char)
    (h : network ∉ (["", "udp", "udp4", "udp6", "tcp", "tcp4", "tcp6",
      "tcp+tls", "tcp4+tls", "tcp6+tls"] : List String)) :
    (getSyslogWriter network address).network = network ∧
      ((getSyslogWriter network address).write b).2 =
        .error ("unrecognized syslog network options: " ++ network) := by
  refine ⟨rfl, ?_⟩
  simp only [List.mem_cons, not_or] at h
  obtain ⟨h0, h1, h2, h3, h4, h5, h6, h7, h8, h9, _⟩ := h
  simp only [syslogWriter.write, getSyslogWriter, syslogWriter.dial]
  rw [if_neg h0]
  rw [if_neg (by simp [h1, h2, h3, h4, h5, h6])]
  rw [if_neg (by simp [h7, h8, h9])]

theorem c9_unrecognized_scheme_witness :
    ("kcp" ∉ (["", "udp", "udp4", "udp6", "tcp", "tcp4", "tcp6",
        "tcp+tls", "tcp4+tls", "tcp6+tls"] : List String)) ∧
      ((getSyslogWriter "kcp" "host:514").network = "kcp" ∧
        ((getSyslogWriter "kcp" "host:514").write ['m']).2 =
          .error ("unrecognized syslog network options: " ++ "kcp")) :=
  ⟨by decide,
   c9_unrecognized_scheme_error_surfaces_at_first_write "kcp" "host:514" ['m']
     (by decide)⟩

theorem digitsVal_ge (ds : List Char) : ∀ acc : Nat, acc ≤ digitsVal acc ds := by
  induction ds with
  | nil => intro acc; exact le_rfl
  | cons c rest ih =>
    intro acc
    unfold digitsVal
    cases h : digitVal c with
    | some d => exact le_trans (by omega) (ih (10 * acc + d))
    | none => exact le_rfl

theorem frameDigit_ne_lt {c : Char} (h : SyslogDecoder.frameDigit c) : ¬(c = '<') := by
  rcases h with h | h | h | h | h | h | h | h | h <;> subst h <;> decide

theorem frameDigit_isSome_digitVal {c : Char} (h : SyslogDecoder.frameDigit c) :
    (digitVal c).isSome := by
  rcases h with h | h | h | h | h | h | h | h | h <;> subst h <;> decide

/-- Running the octet-count header loop over a digit string followed by a
space: the digits fold into the count, the header bytes move into the
message-in-progress, and the loop exits through the space case (the limit
guard never trips because every intermediate value is bounded by the final
one). -/
theorem ofhLoop_digits :
    ∀ (ds rest dec : List Char) (oct : Nat),
      (∀ c ∈ ds, (digitVal c).isSome) →
      digitsVal oct ds ≤ syslogDecodeLimit →
      SyslogDecoder.ofhLoop (ds ++ ' ' :: rest) dec oct =
        (rest, dec ++ (ds ++ [' ']), digitsVal oct ds, .space) := by
  intro ds
  induction ds with
  | nil =>
    intro rest dec oct _ _
    simp [SyslogDecoder.ofhLoop, digitsVal]
  | cons c ds' ih =>
    intro rest dec oct hdig hlim
    have hc : (digitVal c).isSome := hdig c (List.mem_cons_self c ds')
    obtain ⟨d, hd⟩ := Option.isSome_iff_exists.mp hc
    have hcs : ¬(c = ' ') := by
      intro heq
      rw [heq] at hd
      cases hd
    have hval : digitsVal oct (c :: ds') = digitsVal (10 * oct + d) ds' := by
      conv_lhs => unfold digitsVal
      rw [hd]
    rw [List.cons_append]
    unfold SyslogDecoder.ofhLoop
    rw [if_neg hcs, hd]
    dsimp only
    have hbound : ¬(10 * oct + d > syslogDecodeLimit) := by
      have := digitsVal_ge ds' (10 * oct + d)
      rw [hval] at hlim
      omega
    rw [if_neg hbound]
    rw [ih rest (dec ++ [c]) (10 * oct + d)
      (fun x hx => hdig x (List.mem_cons_of_mem c hx)) (by rw [← hval]; exact hlim)]
    rw [hval]
    simp

theorem decodeRFC3164P_Raw (raw l : List Char) (f p : Nat) :
    (decodeRFC3164P raw l f p).Raw = raw := by
  unfold decodeRFC3164P
  repeat' split
  all_goals rfl

theorem decodeRFC5424P_Raw (raw l : List Char) (f p : Nat) :
    (decodeRFC5424P raw l f p).Raw = raw := by
  unfold decodeRFC5424P
  repeat' split
  all_goals rfl

/-- Whatever variant `decode` produces, it carries the full raw bytes. -/
theorem undecodedDecode_Raw {raw : List Char} {off : Nat} {m : SyslogMessage}
    (h : undecodedDecode raw off = some m) : m.Raw = raw := by
  unfold undecodedDecode at h
  dsimp only at h
  split at h
  · cases h; rfl
  · split at h
    · cases h; rfl
    · split at h
      · cases h; rfl
      · split at h
        · cases h
        · split_ifs at h
          · cases h; exact decodeRFC3164P_Raw _ _ _ _
          · cases h; exact decodeRFC5424P_Raw _ _ _ _
          · cases h; rfl

/-- C5 counterexample: the frame `4 <34>` declares length 4 and all four
payload bytes are buffered, yet no message ever emits: slicing off the header
leaves the body `<34>`, and `decode` reads the byte after `>` without a
bounds check — an index-out-of-range panic in the source, `none` in the
model — instead of the claimed exactly-one message. -/
theorem c5_counterexample_full_frame_panics :
    (SyslogDecoder.empty.Feed "4 <34>".data).Decode = none := by
  decide

/-- C5 amended: for an octet-framed input with canonical digit header
declaring `L ≤ 32767`: while only `k < L` payload bytes are buffered,
`Decode` emits nothing and suspends in `OctetFraming` with `L - k` bytes
still owed (the counter persists across feeds); feeding the remaining
`L - k` bytes then emits exactly one message whose raw bytes are the whole
frame, with payload length exactly `L` — provided the sliced frame body does
not land on the `decode` bounds-check panic. -/
theorem c5_octet_framing_suspends_then_emits
    (d1 : Char) (ds' p1 p2 : List Char) (L : Nat) (m : SyslogMessage)
    (hfd : SyslogDecoder.frameDigit d1)
    (hdigits : ∀ c ∈ ds', (digitVal c).isSome)
    (hL : digitsVal 0 (d1 :: ds') = L)
    (hlim : L ≤ syslogDecodeLimit)
    (hk : p1.length < L)
    (hp2 : p2.length = L - p1.length)
    (hdec : undecodedDecode ((d1 :: ds') ++ [' '] ++ (p1 ++ p2)) (ds'.length + 2)
      = some m) :
    (SyslogDecoder.empty.Feed ((d1 :: ds') ++ [' '] ++ p1)).Decode =
        some ([], ⟨[], .OctetFraming, (d1 :: ds') ++ [' '] ++ p1, L, L - p1.length⟩) ∧
      (SyslogDecoder.Feed
          ⟨[], .OctetFraming, (d1 :: ds') ++ [' '] ++ p1, L, L - p1.length⟩ p2).Decode =
        some ([m], ⟨[], .Framing, [], 0, 0⟩) ∧
      m.Raw = (d1 :: ds') ++ [' '] ++ (p1 ++ p2) ∧
      (p1 ++ p2).length = L := by
  have hdigAll : ∀ c ∈ d1 :: ds', (digitVal c).isSome := by
    intro c hc
    rcases List.mem_cons.mp hc with hc | hc
    · exact hc ▸ frameDigit_isSome_digitVal hfd
    · exact hdigits c hc
  have hlen12 : (p1 ++ p2).length = L := by
    simp
    omega
  -- Part A: the partial feed suspends.
  have hbufA : (d1 :: ds') ++ [' '] ++ p1 = d1 :: (ds' ++ ' ' :: p1) := by simp
  have hfeedA : SyslogDecoder.empty.Feed ((d1 :: ds') ++ [' '] ++ p1) =
      ⟨(d1 :: ds') ++ [' '] ++ p1, .Framing, [], 0, 0⟩ := by
    simp [SyslogDecoder.Feed, SyslogDecoder.empty]
  have hstep1 : SyslogDecoder.decodeFraming
      ⟨(d1 :: ds') ++ [' '] ++ p1, .Framing, [], 0, 0⟩ =
      ⟨(d1 :: ds') ++ [' '] ++ p1, .OctetFramingHeader, [], 0, 0⟩ := by
    unfold SyslogDecoder.decodeFraming
    rw [hbufA]
    dsimp only
    rw [if_neg (frameDigit_ne_lt hfd), if_pos hfd]
  have hstep2 : SyslogDecoder.decodeOctetFramingHeader
      ⟨(d1 :: ds') ++ [' '] ++ p1, .OctetFramingHeader, [], 0, 0⟩ =
      ⟨p1, .OctetFraming, (d1 :: ds') ++ [' '], L, L⟩ := by
    unfold SyslogDecoder.decodeOctetFramingHeader
    have hshape : (d1 :: ds') ++ [' '] ++ p1 = (d1 :: ds') ++ ' ' :: p1 := by simp
    rw [show (⟨(d1 :: ds') ++ [' '] ++ p1, .OctetFramingHeader, [], 0, 0⟩ :
        SyslogDecoder).buffer = (d1 :: ds') ++ ' ' :: p1 from hshape]
    rw [ofhLoop_digits (d1 :: ds') p1 [] 0 hdigAll (by rw [hL]; exact hlim)]
    rw [hL]
    rfl
  have hstep3 : SyslogDecoder.decodeOctetFraming
      ⟨p1, .OctetFraming, (d1 :: ds') ++ [' '], L, L⟩ =
      ⟨[], .OctetFraming, (d1 :: ds') ++ [' '] ++ p1, L, L - p1.length⟩ := by
    unfold SyslogDecoder.decodeOctetFraming
    dsimp only
    rw [List.take_of_length_le (le_of_lt hk), List.drop_of_length_le (le_of_lt hk)]
    rw [if_neg (by omega)]
  have hdecodeA : SyslogDecoder.decode
      ⟨(d1 :: ds') ++ [' '] ++ p1, .Framing, [], 0, 0⟩ =
      some (none, ⟨[], .OctetFraming, (d1 :: ds') ++ [' '] ++ p1, L, L - p1.length⟩) := by
    show SyslogDecoder.decodeLoop 8 _ = _
    unfold SyslogDecoder.decodeLoop
    dsimp only
    rw [hstep1, if_neg (by simp)]
    unfold SyslogDecoder.decodeLoop
    dsimp only
    rw [hstep2, if_neg (by simp)]
    unfold SyslogDecoder.decodeLoop
    dsimp only
    rw [hstep3, if_pos rfl]
  have partA : (SyslogDecoder.empty.Feed ((d1 :: ds') ++ [' '] ++ p1)).Decode =
      some ([], ⟨[], .OctetFraming, (d1 :: ds') ++ [' '] ++ p1, L, L - p1.length⟩) := by
    rw [hfeedA]
    show SyslogDecoder.decodeAll _ _ = _
    rw [show (⟨(d1 :: ds') ++ [' '] ++ p1, .Framing, [], 0, 0⟩ :
        SyslogDecoder).buffer.length + 2 =
      (((d1 :: ds') ++ [' '] ++ p1).length + 1) + 1 from rfl]
    unfold SyslogDecoder.decodeAll
    rw [hdecodeA]
  -- Part B: the completing feed emits exactly one message.
  have hfeedB : SyslogDecoder.Feed
      ⟨[], .OctetFraming, (d1 :: ds') ++ [' '] ++ p1, L, L - p1.length⟩ p2 =
      ⟨p2, .OctetFraming, (d1 :: ds') ++ [' '] ++ p1, L, L - p1.length⟩ := by
    simp [SyslogDecoder.Feed]
  have hstep4 : SyslogDecoder.decodeOctetFraming
      ⟨p2, .OctetFraming, (d1 :: ds') ++ [' '] ++ p1, L, L - p1.length⟩ =
      ⟨[], .OctetFramingMessage, ((d1 :: ds') ++ [' '] ++ p1) ++ p2, L, 0⟩ := by
    unfold SyslogDecoder.decodeOctetFraming
    dsimp only
    rw [List.take_of_length_le (by omega), List.drop_of_length_le (by omega)]
    rw [if_pos (by omega)]
    have : (L - p1.length) - p2.length = 0 := by omega
    rw [this]
  have hraweq : ((d1 :: ds') ++ [' '] ++ p1) ++ p2 =
      (d1 :: ds') ++ [' '] ++ (p1 ++ p2) := by simp
  have hofflen : (((d1 :: ds') ++ [' '] ++ p1) ++ p2).length - L = ds'.length + 2 := by
    simp
    omega
  have hstep5 : SyslogDecoder.decodeOctetFramingMessage
      ⟨[], .OctetFramingMessage, ((d1 :: ds') ++ [' '] ++ p1) ++ p2, L, 0⟩ =
      some (m, ⟨[], .Framing, [], 0, 0⟩) := by
    unfold SyslogDecoder.decodeOctetFramingMessage
    dsimp only
    rw [hofflen]
    rw [if_neg (by omega)]
    unfold SyslogDecoder.decodeMessage
    dsimp only
    rw [hraweq, hdec]
    rfl
  have hdecodeB : SyslogDecoder.decode
      ⟨p2, .OctetFraming, (d1 :: ds') ++ [' '] ++ p1, L, L - p1.length⟩ =
      some (some m, ⟨[], .Framing, [], 0, 0⟩) := by
    show SyslogDecoder.decodeLoop 8 _ = _
    unfold SyslogDecoder.decodeLoop
    dsimp only
    rw [hstep4, if_neg (by simp)]
    unfold SyslogDecoder.decodeLoop
    dsimp only
    rw [hstep5]
  have partB : (SyslogDecoder.Feed
      ⟨[], .OctetFraming, (d1 :: ds') ++ [' '] ++ p1, L, L - p1.length⟩ p2).Decode =
      some ([m], ⟨[], .Framing, [], 0, 0⟩) := by
    rw [hfeedB]
    show SyslogDecoder.decodeAll _ _ = _
    rw [show (⟨p2, .OctetFraming, (d1 :: ds') ++ [' '] ++ p1, L, L - p1.length⟩ :
        SyslogDecoder).buffer.length + 2 = (p2.length + 1) + 1 from rfl]
    unfold SyslogDecoder.decodeAll
    rw [hdecodeB]
    dsimp only
    have hquiet : SyslogDecoder.decodeAll (p2.length + 1)
        ⟨[], .Framing, [], 0, 0⟩ = some ([], ⟨[], .Framing, [], 0, 0⟩) := by
      cases hp : p2.length with
      | zero => decide
      | succ n =>
        have : SyslogDecoder.decode (⟨[], .Framing, [], 0, 0⟩ : SyslogDecoder) =
            some (none, ⟨[], .Framing, [], 0, 0⟩) := by decide
        unfold SyslogDecoder.decodeAll
        rw [this]
    rw [hquiet]
  exact ⟨partA, partB, undecodedDecode_Raw hdec, hlen12⟩

theorem c5_octet_framing_witness :
    (SyslogDecoder.frameDigit '5' ∧ digitsVal 0 ['5'] = 5 ∧
      ("ab".data : List Char).length < 5 ∧ ("cde".data : List Char).length = 5 - 2 ∧
      undecodedDecode (['5'] ++ [' '] ++ ("ab".data ++ "cde".data)) 2 =
        some (.Undecoded "5 abcde".data)) ∧
    ((SyslogDecoder.empty.Feed (['5'] ++ [' '] ++ "ab".data)).Decode =
        some ([], ⟨[], .OctetFraming, ['5'] ++ [' '] ++ "ab".data, 5, 5 - 2⟩) ∧
      (SyslogDecoder.Feed
          ⟨[], .OctetFraming, ['5'] ++ [' '] ++ "ab".data, 5, 5 - 2⟩ "cde".data).Decode =
        some ([.Undecoded "5 abcde".data], ⟨[], .Framing, [], 0, 0⟩)) := by
  refine ⟨⟨by decide, by decide, by decide, by decide, by decide⟩, ?_⟩
  have h := c5_octet_framing_suspends_then_emits '5' [] "ab".data "cde".data 5
    (.Undecoded "5 abcde".data) (by decide) (by intro c hc; cases hc) (by decide)
    (by decide) (by decide) (by decide) (by decide)
  exact ⟨h.1, h.2.1⟩

theorem wc_eq (b : messageBuilder) :
    b.writeConditional = ⟨b.buffer ++ b.conditional, []⟩ := by
  obtain ⟨B, C⟩ := b
  unfold messageBuilder.writeConditional
  split_ifs with h
  · rfl
  · simp only [ne_eq, not_not] at h
    simp [h]

theorem AppendRune_eq (b : messageBuilder) (c : Char) :
    b.AppendRune c = ⟨b.buffer ++ b.conditional ++ [c], []⟩ := by
  unfold messageBuilder.AppendRune
  rw [wc_eq]

theorem AppendString_free (b : messageBuilder) (s : List Char)
    (h : b.conditional = []) : b.AppendString s = ⟨b.buffer ++ s, []⟩ := by
  obtain ⟨B, C⟩ := b
  subst h
  unfold messageBuilder.AppendString
  split_ifs with hs
  · rw [wc_eq]
    simp
  · simp only [ne_eq, not_not] at hs
    simp [hs]

theorem AppendBytes_flush (b : messageBuilder) (p : List Char) (h : p ≠ []) :
    b.AppendBytes p = ⟨b.buffer ++ b.conditional ++ p, []⟩ := by
  unfold messageBuilder.AppendBytes
  rw [if_pos (by simpa [List.length_pos] using h), wc_eq]

theorem AppendBytes_nil (b : messageBuilder) : b.AppendBytes [] = b := by
  unfold messageBuilder.AppendBytes
  simp

theorem CompleteConditional_eq (b : messageBuilder) (yes no : List Char)
    (hyes : yes ≠ []) (hno : no ≠ []) :
    b.CompleteConditional yes no =
      ⟨b.buffer ++ (if b.conditional = [] then yes else no), []⟩ := by
  obtain ⟨B, C⟩ := b
  unfold messageBuilder.CompleteConditional
  split_ifs with h
  · rw [AppendString_free _ _ (by simpa using h)]
  · rw [AppendString_free _ _ rfl]

theorem appendAttrTag_real (b : messageBuilder) (a : List Char × List Char)
    (h : a.1 ≠ SyslogKey) :
    SyslogHandler.appendAttrTag b a =
      ⟨b.buffer ++ b.conditional ++ attrTagBytes a, []⟩ := by
  unfold SyslogHandler.appendAttrTag
  rw [if_pos h, AppendRune_eq]
  rw [AppendString_free (⟨b.buffer ++ b.conditional ++ [' '], []⟩ : messageBuilder)
    a.1 rfl]
  rw [AppendString_free (⟨(b.buffer ++ b.conditional ++ [' ']) ++ a.1, []⟩ :
    messageBuilder) ['='] rfl]
  rw [AppendString_free (⟨((b.buffer ++ b.conditional ++ [' ']) ++ a.1) ++ ['='], []⟩ :
    messageBuilder) (goQuote a.2) rfl]
  simp [attrTagBytes]

theorem appendAttrTag_skip (b : messageBuilder) (a : List Char × List Char)
    (h : a.1 = SyslogKey) : SyslogHandler.appendAttrTag b a = b := by
  unfold SyslogHandler.appendAttrTag
  rw [if_neg (by simpa using h)]

/-- The bytes all non-reserved attributes contribute to the structured-data
block. -/
def sdTags (attrs : List (List Char × List Char)) : List Char :=
  (attrs.filter fun a => decide (a.1 ≠ SyslogKey)).flatMap attrTagBytes

theorem sdTags_nil {attrs : List (List Char × List Char)}
    (h : ¬∃ a ∈ attrs, a.1 ≠ SyslogKey) : sdTags attrs = [] := by
  unfold sdTags
  have : attrs.filter (fun a => decide (a.1 ≠ SyslogKey)) = [] := by
    rw [List.filter_eq_nil_iff]
    intro a ha
    simpa using fun hne => h ⟨a, ha, hne⟩
  rw [this]
  rfl

theorem attrFold (attrs : List (List Char × List Char)) :
    ∀ b : messageBuilder,
      attrs.foldl SyslogHandler.appendAttrTag b =
        if ∃ a ∈ attrs, a.1 ≠ SyslogKey then
          ⟨b.buffer ++ b.conditional ++ sdTags attrs, []⟩
        else b := by
  induction attrs with
  | nil => intro b; simp
  | cons a rest ih =>
    intro b
    rw [List.foldl_cons]
    by_cases ha : a.1 = SyslogKey
    · rw [appendAttrTag_skip b a ha, ih b]
      have hiff : (∃ x ∈ a :: rest, x.1 ≠ SyslogKey) ↔ (∃ x ∈ rest, x.1 ≠ SyslogKey) := by
        constructor
        · rintro ⟨x, hx, hne⟩
          rcases List.mem_cons.mp hx with hx | hx
          · exact absurd (hx ▸ ha) hne
          · exact ⟨x, hx, hne⟩
        · rintro ⟨x, hx, hne⟩
          exact ⟨x, List.mem_cons_of_mem a hx, hne⟩
      have htags : sdTags (a :: rest) = sdTags rest := by
        unfold sdTags
        rw [List.filter_cons]
        simp [ha]
      rw [htags]
      simp only [hiff]
    · rw [appendAttrTag_real b a ha, ih]
      have hex : ∃ x ∈ a :: rest, x.1 ≠ SyslogKey := ⟨a, List.mem_cons_self a rest, ha⟩
      rw [if_pos hex]
      have htags : sdTags (a :: rest) = attrTagBytes a ++ sdTags rest := by
        unfold sdTags
        rw [List.filter_cons]
        simp [ha]
      rw [htags]
      split_ifs with h2
      · simp
      · rw [sdTags_nil h2]
        simp

theorem preFold (ps : List (List Char)) :
    ∀ b : messageBuilder,
      ps.foldl messageBuilder.AppendBytes b =
        if ∃ p ∈ ps, p ≠ [] then ⟨b.buffer ++ b.conditional ++ ps.flatten, []⟩
        else b := by
  induction ps with
  | nil => intro b; simp
  | cons p rest ih =>
    intro b
    rw [List.foldl_cons]
    by_cases hp : p = []
    · subst hp
      rw [AppendBytes_nil, ih b]
      have hiff : (∃ x ∈ ([] : List Char) :: rest, x ≠ []) ↔ (∃ x ∈ rest, x ≠ []) := by
        constructor
        · rintro ⟨x, hx, hne⟩
          rcases List.mem_cons.mp hx with hx | hx
          · exact absurd hx hne
          · exact ⟨x, hx, hne⟩
        · rintro ⟨x, hx, hne⟩
          exact ⟨x, List.mem_cons_of_mem _ hx, hne⟩
      simp only [hiff]
      split_ifs with h1
      · simp
      · rfl
    · rw [AppendBytes_flush b p hp, ih]
      rw [if_pos (show ∃ x ∈ p :: rest, x ≠ [] from
        ⟨p, List.mem_cons_self p rest, hp⟩)]
      have hflat : (p :: rest).flatten = p ++ rest.flatten := rfl
      rw [hflat]
      split_ifs with h2
      · simp
      · have : rest.flatten = [] := by
          rw [List.flatten_eq_nil_iff]
          intro l hl
          by_contra hne
          exact h2 ⟨l, hl, hne⟩
        rw [this]
        simp

/-- C8: the `[Attrs@1 …] ` block appears exactly when a non-empty prerendered
attribute chunk or a non-reserved record attribute exists; otherwise the
speculative opener is dropped and ` - ` is emitted. -/
theorem c8_rfc5424_sd_suffix_iff (h : SyslogHandler) (r : Record) :
    (((∃ p ∈ h.prerendered, p ≠ []) ∨ (∃ a ∈ r.attrs, a.1 ≠ SyslogKey)) →
      (h.encodeRFC5424 ⟨[], []⟩ r).buffer =
        (h.rfc5424Prefix r).buffer ++ " [Attrs@1".data ++ h.prerendered.flatten ++
          sdTags r.attrs ++ "] ".data ++ r.message) ∧
    ((¬((∃ p ∈ h.prerendered, p ≠ []) ∨ (∃ a ∈ r.attrs, a.1 ≠ SyslogKey))) →
      (h.encodeRFC5424 ⟨[], []⟩ r).buffer =
        (h.rfc5424Prefix r).buffer ++ " - ".data ++ r.message) := by
  have hstart : h.encodeRFC5424 ⟨[], []⟩ r =
      ((r.attrs.foldl SyslogHandler.appendAttrTag
          (h.prerendered.foldl messageBuilder.AppendBytes
            (⟨(h.rfc5424Prefix r).buffer, " [Attrs@1".data⟩ :
              messageBuilder))).CompleteConditional
        "] ".data " - ".data).AppendString r.message := rfl
  constructor
  · intro hsd
    rw [hstart, preFold]
    rcases Classical.em (∃ p ∈ h.prerendered, p ≠ []) with hp | hp
    · rw [if_pos hp, attrFold]
      rcases Classical.em (∃ a ∈ r.attrs, a.1 ≠ SyslogKey) with hat | hat
      · rw [if_pos hat,
          CompleteConditional_eq _ _ _ (by decide) (by decide),
          AppendString_free _ _ rfl]
        simp
      · rw [if_neg hat,
          CompleteConditional_eq _ _ _ (by decide) (by decide),
          AppendString_free _ _ rfl, sdTags_nil hat]
        simp
    · have hat : ∃ a ∈ r.attrs, a.1 ≠ SyslogKey := hsd.resolve_left hp
      rw [if_neg hp, attrFold, if_pos hat,
        CompleteConditional_eq _ _ _ (by decide) (by decide),
        AppendString_free _ _ rfl]
      have hflat : h.prerendered.flatten = [] := by
        rw [List.flatten_eq_nil_iff]
        intro l hl
        by_contra hne
        exact hp ⟨l, hl, hne⟩
      rw [hflat]
      simp
  · intro hnsd
    rw [not_or] at hnsd
    obtain ⟨hp, hat⟩ := hnsd
    rw [hstart, preFold, if_neg hp, attrFold, if_neg hat,
      CompleteConditional_eq _ _ _ (by decide) (by decide),
      AppendString_free _ _ rfl]
    simp

theorem natDigitsAux_acc :
    ∀ (fuel n : Nat) (acc : List Char),
      natDigitsAux fuel n acc = natDigitsAux fuel n [] ++ acc := by
  intro fuel
  induction fuel with
  | zero => intro n acc; rfl
  | succ fuel ih =>
    intro n acc
    simp only [natDigitsAux]
    split_ifs with h
    · rfl
    · rw [ih (n / 10) (digitChar (n % 10) :: acc), ih (n / 10) [digitChar (n % 10)]]
      simp

theorem natDigitsAux_fuel :
    ∀ (n f₁ f₂ : Nat), 0 < f₁ → 0 < f₂ → n < 10 ^ f₁ → n < 10 ^ f₂ →
      natDigitsAux f₁ n [] = natDigitsAux f₂ n [] := by
  intro n
  induction n using Nat.strong_induction_on with
  | _ n ih =>
    intro f₁ f₂ h₁ h₂ hb₁ hb₂
    obtain ⟨g₁, rfl⟩ := Nat.exists_eq_succ_of_ne_zero (Nat.pos_iff_ne_zero.mp h₁)
    obtain ⟨g₂, rfl⟩ := Nat.exists_eq_succ_of_ne_zero (Nat.pos_iff_ne_zero.mp h₂)
    simp only [natDigitsAux]
    split_ifs with h
    · rfl
    · have hn : 10 ≤ n := by omega
      have hd : n / 10 < n := Nat.div_lt_self (by omega) (by omega)
      have hg₁ : 0 < g₁ := by
        by_contra hg
        have hz : g₁ = 0 := by omega
        subst hz
        simp [pow_succ] at hb₁
        omega
      have hg₂ : 0 < g₂ := by
        by_contra hg
        have hz : g₂ = 0 := by omega
        subst hz
        simp [pow_succ] at hb₂
        omega
      have hb₁' : n / 10 < 10 ^ g₁ := by
        rw [Nat.div_lt_iff_lt_mul (by omega)]
        calc n < 10 ^ (g₁ + 1) := hb₁
        _ = 10 ^ g₁ * 10 := by ring
      have hb₂' : n / 10 < 10 ^ g₂ := by
        rw [Nat.div_lt_iff_lt_mul (by omega)]
        calc n < 10 ^ (g₂ + 1) := hb₂
        _ = 10 ^ g₂ * 10 := by ring
      rw [natDigitsAux_acc g₁ (n / 10), natDigitsAux_acc g₂ (n / 10)]
      rw [ih (n / 10) hd g₁ g₂ hg₁ hg₂ hb₁' hb₂']

theorem natDigits_rec (n : Nat) :
    natDigits n = if n < 10 then [digitChar n]
      else natDigits (n / 10) ++ [digitChar (n % 10)] := by
  unfold natDigits
  conv_lhs => rw [natDigitsAux]
  split_ifs with h
  · rw [Nat.mod_eq_of_lt h]
  · rw [natDigitsAux_acc n (n / 10)]
    congr 1
    have h10 : 10 ≤ n := by omega
    have hp1 : n / 10 < 10 ^ n := by
      have ha : n < 10 ^ n := Nat.lt_pow_self (by omega) n
      have hb : n / 10 < n := Nat.div_lt_self (by omega) (by omega)
      omega
    have hp2 : n / 10 < 10 ^ (n / 10 + 1) := by
      have ha : n / 10 < 10 ^ (n / 10) := Nat.lt_pow_self (by omega) _
      have hb : 10 ^ (n / 10) ≤ 10 ^ (n / 10 + 1) := Nat.pow_le_pow_right (by omega) (by omega)
      omega
    exact natDigitsAux_fuel (n / 10) n (n / 10 + 1) (by omega) (by omega) hp1 hp2

theorem digitVal_digitChar {k : Nat} (h : k < 10) :
    digitVal (digitChar k) = some k := by
  interval_cases k <;> decide

theorem digitChar_ne_special (k : Nat) :
    digitChar k ≠ ' ' ∧ digitChar k ≠ '\n' ∧ digitChar k ≠ '<' ∧
      digitChar k ≠ '>' ∧ digitChar k ≠ '=' := by
  unfold digitChar
  split <;> exact ⟨by decide, by decide, by decide, by decide, by decide⟩

theorem natDigits_ne_nil (n : Nat) : natDigits n ≠ [] := by
  rw [natDigits_rec]
  split_ifs <;> simp

theorem natDigits_all_digits (n : Nat) : ∀ c ∈ natDigits n, (digitVal c).isSome := by
  induction n using Nat.strong_induction_on with
  | _ n ih =>
    rw [natDigits_rec]
    split_ifs with h
    · intro c hc
      simp at hc
      subst hc
      rw [digitVal_digitChar h]
      rfl
    · intro c hc
      rcases List.mem_append.mp hc with hc | hc
      · exact ih (n / 10) (Nat.div_lt_self (by omega) (by omega)) c hc
      · simp at hc
        subst hc
        rw [digitVal_digitChar (Nat.mod_lt n (by omega))]
        rfl

theorem digitsVal_cons (acc : Nat) (c : Char) (rest : List Char) :
    digitsVal acc (c :: rest) =
      match digitVal c with
      | some d => digitsVal (10 * acc + d) rest
      | none => acc := rfl

theorem digitsVal_append_digits :
    ∀ (ds : List Char), (∀ c ∈ ds, (digitVal c).isSome) →
      ∀ (es : List Char) (acc : Nat),
        digitsVal acc (ds ++ es) = digitsVal (digitsVal acc ds) es := by
  intro ds
  induction ds with
  | nil => intro _ es acc; rfl
  | cons c rest ih =>
    intro hd es acc
    obtain ⟨d, hdv⟩ := Option.isSome_iff_exists.mp (hd c (List.mem_cons_self c rest))
    have h1 : digitsVal acc (c :: (rest ++ es)) = digitsVal (10 * acc + d) (rest ++ es) := by
      rw [digitsVal_cons, hdv]
    have h2 : digitsVal acc (c :: rest) = digitsVal (10 * acc + d) rest := by
      rw [digitsVal_cons, hdv]
    rw [List.cons_append, h1, h2]
    exact ih (fun x hx => hd x (List.mem_cons_of_mem c hx)) es (10 * acc + d)

theorem digitsVal_natDigits (n : Nat) : digitsVal 0 (natDigits n) = n := by
  suffices h : ∀ m acc, digitsVal acc (natDigits m) = acc * 10 ^ (natDigits m).length + m by
    have := h n 0
    simpa using this
  intro m
  induction m using Nat.strong_induction_on with
  | _ m ih =>
    intro acc
    rw [natDigits_rec]
    split_ifs with h
    · have h1 : digitsVal acc [digitChar m] = 10 * acc + m := by
        rw [digitsVal_cons, digitVal_digitChar h]
        rfl
      rw [h1]
      simp
      ring
    · rw [digitsVal_append_digits _ (natDigits_all_digits (m / 10))]
      rw [ih (m / 10) (Nat.div_lt_self (by omega) (by omega)) acc]
      have h1 : ∀ b, digitsVal b [digitChar (m % 10)] = 10 * b + m % 10 := by
        intro b
        rw [digitsVal_cons, digitVal_digitChar (Nat.mod_lt m (by omega))]
        rfl
      rw [h1]
      simp only [List.length_append, List.length_cons, List.length_nil]
      rw [pow_succ]
      have h2 : m = 10 * (m / 10) + m % 10 := by omega
      ring_nf
      omega

theorem natDigits_length_le :
    ∀ (k n : Nat), 0 < k → n < 10 ^ k → (natDigits n).length ≤ k := by
  intro k
  induction k with
  | zero => intro n h; omega
  | succ k ih =>
    intro n _ hb
    rw [natDigits_rec]
    split_ifs with h
    · simp
    · have hk : 0 < k := by
        by_contra hk
        have hz : k = 0 := by omega
        subst hz
        simp at hb
        omega
      have hq : n / 10 < 10 ^ k := by
        rw [Nat.div_lt_iff_lt_mul (by omega)]
        calc n < 10 ^ (k + 1) := hb
        _ = 10 ^ k * 10 := by ring
      have := ih (n / 10) hk hq
      simp
      omega

/-- A concrete RFC5424 handler for the C8 witness. -/
def c8h : SyslogHandler :=
  NewSyslogHandler ⟨SyslogEncodingRFC5424F, 16⟩ "h".data "app".data "1".data

/-- A record with one ordinary attribute. -/
def c8r1 : Record := ⟨levelInfo, ⟨2024, 1, 2, 3, 4, 5, 0, 0⟩, "m".data,
  [("k".data, "v".data)]⟩

/-- A record whose only attribute uses the reserved syslog key. -/
def c8r2 : Record := ⟨levelInfo, ⟨2024, 1, 2, 3, 4, 5, 0, 0⟩, "m".data,
  [(SyslogKey, "ID47".data)]⟩

theorem c8_rfc5424_sd_suffix_witness :
    (((∃ p ∈ c8h.prerendered, p ≠ []) ∨ (∃ a ∈ c8r1.attrs, a.1 ≠ SyslogKey)) ∧
      (c8h.encodeRFC5424 ⟨[], []⟩ c8r1).buffer =
        (c8h.rfc5424Prefix c8r1).buffer ++ " [Attrs@1".data ++
          c8h.prerendered.flatten ++ sdTags c8r1.attrs ++ "] ".data ++
          c8r1.message) ∧
    ((¬((∃ p ∈ c8h.prerendered, p ≠ []) ∨ (∃ a ∈ c8r2.attrs, a.1 ≠ SyslogKey))) ∧
      (c8h.encodeRFC5424 ⟨[], []⟩ c8r2).buffer =
        (c8h.rfc5424Prefix c8r2).buffer ++ " - ".data ++ c8r2.message) :=
  ⟨⟨by decide, (c8_rfc5424_sd_suffix_iff c8h c8r1).1 (by decide)⟩,
   ⟨by decide, (c8_rfc5424_sd_suffix_iff c8h c8r2).2 (by decide)⟩⟩

/-- C10: `groupStack.Pop` assigns a slice of the already-shortened `groups`
list into `path` (instead of slicing `path`), so `Push "b"` followed by
`Pop "b"` on the stack `groups = [a], path = [a.]` restores `groups` but
replaces `path` with the undotted `[a]`: the push/pop identity fails for any
non-empty starting stack (and the dot-joined prefix of later attributes is
corrupted). -/
theorem c10_push_pop_corrupts_path :
    ((groupStack.Push ⟨["a"], ["a."]⟩ "b").Pop "b").groups = ["a"] ∧
      ((groupStack.Push ⟨["a"], ["a."]⟩ "b").Pop "b").path = ["a"] ∧
      (groupStack.Push ⟨["a"], ["a."]⟩ "b").Pop "b" ≠ (⟨["a"], ["a."]⟩ : groupStack) := by
  refine ⟨by decide, by decide, by decide⟩

/-! ## Parse lemmas for the round-trip claim -/

theorem readUntilNL_complete (body : List Char) (hnl : '\n' ∉ body) :
    SyslogDecoder.readUntilNL (body ++ ['\n']) = (body ++ ['\n'], some []) := by
  induction body with
  | nil => rfl
  | cons c rest ih =>
    rw [List.cons_append]
    unfold SyslogDecoder.readUntilNL
    rw [if_neg (fun (h : c = '\n') => hnl (h ▸ List.mem_cons_self c rest))]
    rw [ih (fun h => hnl (List.mem_cons_of_mem c h))]

theorem stringLoop_token (tok rest : List Char)
    (htok : ∀ c ∈ tok, ¬(c = ' ' ∨ c = '\n')) :
    stringLoop (tok ++ ' ' :: rest) = (' ' :: rest, tok) := by
  induction tok with
  | nil => rfl
  | cons c t ih =>
    rw [List.cons_append]
    unfold stringLoop
    rw [if_neg (htok c (List.mem_cons_self c t))]
    rw [ih (fun x hx => htok x (List.mem_cons_of_mem c hx))]

theorem decodeStringP_token (tok rest : List Char)
    (htok : ∀ c ∈ tok, ¬(c = ' ' ∨ c = '\n')) :
    decodeStringP (tok ++ ' ' :: rest) = some (' ' :: rest, tok) := by
  cases tok with
  | nil =>
    rw [List.nil_append]
    show some (stringLoop (' ' :: rest)) = _
    unfold stringLoop
    rw [if_pos (Or.inl rfl)]
  | cons c t =>
    rw [List.cons_append]
    show some (stringLoop (c :: (t ++ ' ' :: rest))) = _
    rw [← List.cons_append, stringLoop_token (c :: t) rest htok]

theorem trailerLoop_nl (content rest : List Char) (hnl : '\n' ∉ content) :
    trailerLoop (content ++ '\n' :: rest) = (rest, content) := by
  induction content with
  | nil => rfl
  | cons c t ih =>
    rw [List.cons_append]
    unfold trailerLoop
    rw [if_neg (fun (h : c = '\n') => hnl (h ▸ List.mem_cons_self c t))]
    rw [ih (fun h => hnl (List.mem_cons_of_mem c h))]

theorem trailerLoop_all (content : List Char) (hnl : '\n' ∉ content) :
    trailerLoop content = ([], content) := by
  induction content with
  | nil => rfl
  | cons c t ih =>
    unfold trailerLoop
    rw [if_neg (fun (h : c = '\n') => hnl (h ▸ List.mem_cons_self c t))]
    rw [ih (fun h => hnl (List.mem_cons_of_mem c h))]

theorem decodeTrailerP_nl (content rest : List Char) (hnl : '\n' ∉ content) :
    decodeTrailerP (content ++ '\n' :: rest) = some (rest, content) := by
  cases content with
  | nil =>
    rw [List.nil_append]
    show some (trailerLoop ('\n' :: rest)) = _
    unfold trailerLoop
    rw [if_pos rfl]
  | cons c t =>
    rw [List.cons_append]
    show some (trailerLoop (c :: (t ++ '\n' :: rest))) = _
    rw [← List.cons_append, trailerLoop_nl (c :: t) rest hnl]

theorem decodeTrailerP_all (content : List Char) (hne : content ≠ [])
    (hnl : '\n' ∉ content) :
    decodeTrailerP content = some ([], content) := by
  obtain ⟨c, t, rfl⟩ := List.exists_cons_of_ne_nil hne
  show some (trailerLoop (c :: t)) = _
  rw [trailerLoop_all (c :: t) hnl]

theorem priLoop_digits :
    ∀ (ds : List Char), (∀ c ∈ ds, (digitVal c).isSome) →
      ∀ (c : Char), digitVal c = none →
      ∀ (rest : List Char) (acc : Nat) (first : Bool),
        (first = true → ds ≠ []) →
        priLoop acc first (ds ++ c :: rest) =
          some (c :: rest, digitsVal acc ds / 8, digitsVal acc ds % 8) := by
  intro ds
  induction ds with
  | nil =>
    intro _ c hc rest acc first hf
    cases first with
    | true => exact absurd rfl (hf rfl)
    | false =>
      rw [List.nil_append]
      unfold priLoop
      rw [hc]
      rfl
  | cons d ds ih =>
    intro hd c hc rest acc first _
    obtain ⟨v, hv⟩ := Option.isSome_iff_exists.mp (hd d (List.mem_cons_self d ds))
    rw [List.cons_append]
    unfold priLoop
    rw [hv]
    dsimp only
    rw [ih (fun x hx => hd x (List.mem_cons_of_mem d hx)) c hc rest (10 * acc + v)
      false (fun h => nomatch h)]
    rw [show digitsVal acc (d :: ds) = digitsVal (10 * acc + v) ds from by
      rw [digitsVal_cons, hv]]

theorem decodePRIP_digits (ds : List Char) (hds : ∀ c ∈ ds, (digitVal c).isSome)
    (hne : ds ≠ []) (c : Char) (hc : digitVal c = none) (rest : List Char) :
    decodePRIP (ds ++ c :: rest) =
      some (c :: rest, digitsVal 0 ds / 8, digitsVal 0 ds % 8) :=
  priLoop_digits ds hds c hc rest 0 true (fun _ => hne)

theorem readD2_digits (a b : Nat) (ha : a < 10) (hb : b < 10) (rest : List Char) :
    readD2 (digitChar a :: digitChar b :: rest) = some (10 * a + b, rest) := by
  unfold readD2
  dsimp only
  rw [digitVal_digitChar ha, digitVal_digitChar hb]

theorem readD2_pad2 (x : Nat) (rest : List Char) :
    readD2 (pad2 x ++ rest) = some (x % 100, rest) := by
  show readD2 (digitChar (x / 10 % 10) :: digitChar (x % 10) :: rest) = _
  rw [readD2_digits _ _ (by omega) (by omega)]
  rw [show 10 * (x / 10 % 10) + x % 10 = x % 100 from by omega]

theorem pad4_eq (y : Nat) : pad4 y = pad2 (y / 100) ++ pad2 y := by
  simp [pad4, pad2, Nat.div_div_eq_div_mul]

theorem readD4_pad4 (y : Nat) (hy : y ≤ 9999) (rest : List Char) :
    readD4 (pad4 y ++ rest) = some (y, rest) := by
  unfold readD4
  rw [pad4_eq, List.append_assoc, readD2_pad2]
  dsimp only
  rw [readD2_pad2]
  rw [show y / 100 % 100 = y / 100 from Nat.mod_eq_of_lt (by omega)]
  dsimp only
  rw [show 100 * (y / 100) + y % 100 = y from by omega]

theorem monthName_length (m : Nat) : (monthName m).length = 3 := by
  unfold monthName
  split <;> rfl

theorem monthOfName_monthName (m : Nat) (h1 : 1 ≤ m) (h2 : m ≤ 12) :
    monthOfName (monthName m) = some m := by
  interval_cases m <;> decide

theorem monthName_head (m : Nat) (h1 : 1 ≤ m) (h2 : m ≤ 12) :
    ∃ c cs, monthName m = c :: cs ∧
      (c = 'J' ∨ c = 'F' ∨ c = 'M' ∨ c = 'A' ∨ c = 'S' ∨ c = 'O' ∨
        c = 'N' ∨ c = 'D') := by
  interval_cases m <;> exact ⟨_, _, rfl, by decide⟩

theorem padSpace2_length (n : Nat) : (padSpace2 n).length = 2 := by
  unfold padSpace2
  split_ifs <;> simp [pad2]

theorem fmtStamp_length (t : DateTime) : (fmtStamp t).length = 15 := by
  unfold fmtStamp
  simp [monthName_length, padSpace2_length, pad2]

theorem readDay2_padSpace2 (d : Nat) (hd : d ≤ 99) :
    readDay2 (padSpace2 d) = some d := by
  by_cases h : d < 10
  · unfold padSpace2
    rw [if_pos h]
    unfold readDay2
    dsimp only
    rw [if_pos rfl, digitVal_digitChar h]
  · unfold padSpace2
    rw [if_neg h]
    unfold readDay2 pad2
    dsimp only
    rw [if_neg ((digitChar_ne_special (d / 10 % 10)).1)]
    rw [digitVal_digitChar (by omega), digitVal_digitChar (by omega)]
    dsimp only
    rw [show 10 * (d / 10 % 10) + d % 10 = d from by omega]

theorem readD2_pad2_end (x : Nat) : readD2 (pad2 x) = some (x % 100, []) := by
  have h1 := readD2_pad2 x []
  rwa [List.append_nil] at h1

theorem parseStamp_fmt (t : DateTime)
    (hm1 : 1 ≤ t.month) (hm2 : t.month ≤ 12)
    (hd1 : 1 ≤ t.day) (hdm : t.day ≤ daysInMonth 0 t.month)
    (hh : t.hour ≤ 23) (hmi : t.minute ≤ 59) (hs : t.second ≤ 59) :
    parseStamp (fmtStamp t) =
      some ⟨0, t.month, t.day, t.hour, t.minute, t.second, 0, 0⟩ := by
  have hd99 : t.day ≤ 99 := by
    have h31 : daysInMonth 0 t.month ≤ 31 := by
      unfold daysInMonth
      split_ifs <;> omega
    omega
  have hfmt : fmtStamp t = monthName t.month ++
      (' ' :: (padSpace2 t.day ++ (' ' :: (pad2 t.hour ++
        (':' :: (pad2 t.minute ++ (':' :: pad2 t.second))))))) := by
    unfold fmtStamp
    simp
  rw [hfmt]
  unfold parseStamp
  rw [List.take_left' (monthName_length t.month)]
  rw [monthOfName_monthName t.month hm1 hm2]
  rw [List.drop_left' (monthName_length t.month)]
  dsimp only
  rw [if_pos rfl]
  rw [List.take_left' (padSpace2_length t.day)]
  rw [List.drop_left' (padSpace2_length t.day)]
  rw [readDay2_padSpace2 t.day hd99]
  dsimp only
  rw [if_pos rfl]
  rw [readD2_pad2]
  dsimp only
  rw [if_pos rfl]
  rw [readD2_pad2]
  dsimp only
  rw [if_pos rfl]
  rw [readD2_pad2_end]
  dsimp only
  rw [show t.hour % 100 = t.hour from Nat.mod_eq_of_lt (by omega)]
  rw [show t.minute % 100 = t.minute from Nat.mod_eq_of_lt (by omega)]
  rw [show t.second % 100 = t.second from Nat.mod_eq_of_lt (by omega)]
  rw [if_pos ⟨hd1, hdm, hh, hmi, hs⟩]

theorem parseRFC3339Nano_fmt (t : DateTime)
    (hy : t.year ≤ 9999) (hm1 : 1 ≤ t.month) (hm2 : t.month ≤ 12)
    (hd1 : 1 ≤ t.day) (hdm : t.day ≤ daysInMonth t.year t.month)
    (hh : t.hour ≤ 23) (hmi : t.minute ≤ 59) (hs : t.second ≤ 59)
    (hoff : t.offsetMin.natAbs ≤ 1439) :
    parseRFC3339Nano (fmtRFC3339 t) =
      some ⟨t.year, t.month, t.day, t.hour, t.minute, t.second, 0, t.offsetMin⟩ := by
  have hfmt : fmtRFC3339 t = pad4 t.year ++ ('-' :: (pad2 t.month ++ ('-' ::
      (pad2 t.day ++ ('T' :: (pad2 t.hour ++ (':' :: (pad2 t.minute ++ (':' ::
        (pad2 t.second ++ fmtOffset t.offsetMin)))))))))) := by
    unfold fmtRFC3339
    simp
  rw [hfmt]
  unfold parseRFC3339Nano
  rw [readD4_pad4 t.year hy]
  dsimp only
  rw [if_pos rfl, readD2_pad2]
  dsimp only
  rw [if_pos rfl, readD2_pad2]
  dsimp only
  rw [if_pos rfl, readD2_pad2]
  dsimp only
  rw [if_pos rfl, readD2_pad2]
  dsimp only
  rw [if_pos rfl, readD2_pad2]
  dsimp only
  rw [show t.month % 100 = t.month from Nat.mod_eq_of_lt (by omega)]
  rw [show t.day % 100 = t.day from Nat.mod_eq_of_lt (by
    have h31 : daysInMonth t.year t.month ≤ 31 := by
      unfold daysInMonth
      split_ifs <;> omega
    omega)]
  rw [show t.hour % 100 = t.hour from Nat.mod_eq_of_lt (by omega)]
  rw [show t.minute % 100 = t.minute from Nat.mod_eq_of_lt (by omega)]
  rw [show t.second % 100 = t.second from Nat.mod_eq_of_lt (by omega)]
  rcases lt_trichotomy t.offsetMin 0 with hneg | hzero | hpos
  · have hZ : fmtOffset t.offsetMin = '-' ::
        (pad2 (t.offsetMin.natAbs / 60) ++ (':' :: pad2 (t.offsetMin.natAbs % 60))) := by
      unfold fmtOffset
      rw [if_neg (by omega), if_neg (by omega)]
      simp
    rw [hZ]
    dsimp only
    rw [if_neg (by decide)]
    dsimp only
    rw [if_neg (fun hq => absurd hq.1 (by decide))]
    rw [readD2_pad2]
    dsimp only
    rw [if_pos rfl, readD2_pad2_end]
    dsimp only
    rw [show t.offsetMin.natAbs / 60 % 100 = t.offsetMin.natAbs / 60 from
      Nat.mod_eq_of_lt (by omega)]
    rw [show t.offsetMin.natAbs % 60 % 100 = t.offsetMin.natAbs % 60 from
      Nat.mod_eq_of_lt (by omega)]
    rw [if_pos (⟨by omega, by omega⟩ :
      t.offsetMin.natAbs / 60 ≤ 23 ∧ t.offsetMin.natAbs % 60 ≤ 59)]
    rw [if_neg (by decide), if_pos rfl]
    rw [show (-((t.offsetMin.natAbs / 60 : Nat) * 60 + (t.offsetMin.natAbs % 60 : Nat)) :
      Int) = t.offsetMin from by omega]
    dsimp only
    rw [if_pos ⟨hm1, hm2, hd1, hdm, hh, hmi, hs⟩]
  · rw [hzero]
    rw [show fmtOffset 0 = ['Z'] from rfl]
    dsimp only
    rw [if_neg (by decide)]
    dsimp only
    rw [if_pos ⟨rfl, rfl⟩]
    dsimp only
    rw [if_pos ⟨hm1, hm2, hd1, hdm, hh, hmi, hs⟩]
  · have hZ : fmtOffset t.offsetMin = '+' ::
        (pad2 (t.offsetMin.natAbs / 60) ++ (':' :: pad2 (t.offsetMin.natAbs % 60))) := by
      unfold fmtOffset
      rw [if_neg (by omega), if_pos (by omega)]
      simp
    rw [hZ]
    dsimp only
    rw [if_neg (by decide)]
    dsimp only
    rw [if_neg (fun hq => absurd hq.1 (by decide))]
    rw [readD2_pad2]
    dsimp only
    rw [if_pos rfl, readD2_pad2_end]
    dsimp only
    rw [show t.offsetMin.natAbs / 60 % 100 = t.offsetMin.natAbs / 60 from
      Nat.mod_eq_of_lt (by omega)]
    rw [show t.offsetMin.natAbs % 60 % 100 = t.offsetMin.natAbs % 60 from
      Nat.mod_eq_of_lt (by omega)]
    rw [if_pos (⟨by omega, by omega⟩ :
      t.offsetMin.natAbs / 60 ≤ 23 ∧ t.offsetMin.natAbs % 60 ≤ 59)]
    rw [if_pos rfl]
    rw [show (((t.offsetMin.natAbs / 60 : Nat) * 60 + (t.offsetMin.natAbs % 60 : Nat)) :
      Int) = t.offsetMin from by omega]
    dsimp only
    rw [if_pos ⟨hm1, hm2, hd1, hdm, hh, hmi, hs⟩]

theorem decodeByteP_cons (b : Char) (rest : List Char) :
    decodeByteP b (b :: rest) = some rest := by
  unfold decodeByteP
  dsimp only
  rw [if_pos rfl]

theorem goQuote_append (v rest : List Char) :
    goQuote v ++ rest = '"' :: (v.flatMap quoteChar ++ ('"' :: rest)) := by
  unfold goQuote
  simp

theorem sdValueLoop_quote :
    ∀ (v : List Char), (∀ c ∈ v, printable c) → ∀ (rest : List Char),
      sdValueLoop false (v.flatMap quoteChar ++ '"' :: rest) =
        some ('"' :: rest, v) := by
  intro v
  induction v with
  | nil =>
    intro _ rest
    rw [List.flatMap_nil, List.nil_append]
    unfold sdValueLoop
    rw [if_neg (by decide), if_pos rfl]
  | cons c v ih =>
    intro hp rest
    have hc := hp c (List.mem_cons_self c v)
    have ihv := ih (fun x hx => hp x (List.mem_cons_of_mem c hx)) rest
    rw [List.flatMap_cons, List.append_assoc]
    by_cases h1 : c = '"'
    · subst h1
      rw [show quoteChar '"' = ['\\', '"'] from rfl]
      show sdValueLoop false ('\\' :: ('"' :: (v.flatMap quoteChar ++ '"' :: rest))) = _
      unfold sdValueLoop
      rw [if_neg (by decide), if_neg (by decide), if_pos rfl]
      unfold sdValueLoop
      rw [if_pos rfl]
      rw [ihv]
    · by_cases h2 : c = '\\'
      · subst h2
        rw [show quoteChar '\\' = ['\\', '\\'] from rfl]
        show sdValueLoop false ('\\' :: ('\\' :: (v.flatMap quoteChar ++ '"' :: rest))) = _
        unfold sdValueLoop
        rw [if_neg (by decide), if_neg (by decide), if_pos rfl]
        unfold sdValueLoop
        rw [if_pos rfl]
        rw [ihv]
      · rw [show quoteChar c = [c] from by
          unfold quoteChar
          rw [if_neg h1, if_neg h2, if_pos ⟨hc.1, hc.2⟩]]
        show sdValueLoop false (c :: (v.flatMap quoteChar ++ '"' :: rest)) = _
        unfold sdValueLoop
        rw [if_neg (by decide), if_neg h1, if_neg h2]
        rw [ihv]

theorem decodeSDParamKeyP_token :
    ∀ (key : List Char), '=' ∉ key → ∀ (rest : List Char),
      decodeSDParamKeyP (key ++ '=' :: rest) = some ('=' :: rest, key) := by
  intro key
  induction key with
  | nil =>
    intro _ rest
    rw [List.nil_append]
    unfold decodeSDParamKeyP
    rw [if_pos rfl]
  | cons c k ih =>
    intro hk rest
    rw [List.cons_append]
    unfold decodeSDParamKeyP
    rw [if_neg (fun (h : c = '=') => hk (h ▸ List.mem_cons_self c k))]
    rw [ih (fun h => hk (List.mem_cons_of_mem c h)) rest]

theorem decodeSDParamP_tag (key value rest : List Char)
    (hk : '=' ∉ key) (hv : ∀ c ∈ value, printable c) :
    decodeSDParamP (key ++ '=' :: ('"' :: (value.flatMap quoteChar ++ '"' :: rest))) =
      some (rest, ⟨key, value⟩) := by
  unfold decodeSDParamP
  rw [decodeSDParamKeyP_token key hk]
  dsimp only
  rw [decodeByteP_cons]
  dsimp only
  rw [decodeByteP_cons]
  dsimp only
  rw [sdValueLoop_quote value hv rest]
  dsimp only
  rw [decodeByteP_cons]

theorem length_le_flatMap_attrTagBytes :
    ∀ (as : List (List Char × List Char)),
      as.length ≤ (as.flatMap attrTagBytes).length := by
  intro as
  induction as with
  | nil => simp
  | cons a as ih =>
    rw [List.flatMap_cons]
    have : (attrTagBytes a).length = 1 + (a.1 ++ ('=' :: goQuote a.2)).length := by
      unfold attrTagBytes
      simp
      omega
    simp only [List.length_append, List.length_cons]
    omega

theorem sdElemLoopF_tags :
    ∀ (as : List (List Char × List Char)) (fuel : Nat) (params : List SyslogSDParam)
      (rest : List Char),
      (∀ a ∈ as, '=' ∉ a.1 ∧ ∀ c ∈ a.2, printable c) →
      as.length + 1 ≤ fuel →
      sdElemLoopF fuel params ((as.flatMap attrTagBytes) ++ ']' :: rest) =
        some (rest, params ++ as.map fun a => ⟨a.1, a.2⟩) := by
  intro as
  induction as with
  | nil =>
    intro fuel params rest _ hf
    obtain ⟨f, rfl⟩ := Nat.exists_eq_succ_of_ne_zero (by omega : fuel ≠ 0)
    rw [List.flatMap_nil, List.nil_append]
    unfold sdElemLoopF
    dsimp only
    rw [if_pos rfl]
    simp
  | cons a as ih =>
    intro fuel params rest hcl hf
    obtain ⟨f, rfl⟩ := Nat.exists_eq_succ_of_ne_zero (by omega : fuel ≠ 0)
    have hca := hcl a (List.mem_cons_self a as)
    rw [List.flatMap_cons, List.append_assoc]
    have htag : attrTagBytes a ++ (as.flatMap attrTagBytes ++ ']' :: rest) =
        ' ' :: (a.1 ++ '=' :: ('"' :: (a.2.flatMap quoteChar ++ '"' ::
          (as.flatMap attrTagBytes ++ ']' :: rest)))) := by
      unfold attrTagBytes goQuote
      simp
    rw [htag]
    unfold sdElemLoopF
    dsimp only
    rw [if_neg (by decide), if_pos rfl]
    rw [decodeSDParamP_tag a.1 a.2 _ hca.1 hca.2]
    dsimp only
    rw [ih f (params ++ [(⟨a.1, a.2⟩ : SyslogSDParam)]) rest
      (fun x hx => hcl x (List.mem_cons_of_mem a hx)) (by simp at hf ⊢; omega)]
    simp

theorem sdElemLoop_tags (as : List (List Char × List Char))
    (params : List SyslogSDParam) (rest : List Char)
    (hcl : ∀ a ∈ as, '=' ∉ a.1 ∧ ∀ c ∈ a.2, printable c) :
    sdElemLoop params ((as.flatMap attrTagBytes) ++ ']' :: rest) =
      some (rest, params ++ as.map fun a => ⟨a.1, a.2⟩) := by
  unfold sdElemLoop
  apply sdElemLoopF_tags as _ params rest hcl
  have h1 := length_le_flatMap_attrTagBytes as
  rw [List.length_append, List.length_cons]
  omega

theorem decodeSDP_dash (rest : List Char) : decodeSDP ('-' :: rest) = some (rest, []) := rfl

theorem decodeSDP_attrs (a : List Char × List Char)
    (as : List (List Char × List Char)) (rest : List Char)
    (hcl : ∀ x ∈ a :: as, '=' ∉ x.1 ∧ ∀ c ∈ x.2, printable c)
    (hrest : rest.head? ≠ some '[') :
    decodeSDP ('[' :: ("Attrs@1".data ++
        ((a :: as).flatMap attrTagBytes ++ (']' :: rest)))) =
      some (rest, [⟨"Attrs@1".data, (a :: as).map fun x => ⟨x.1, x.2⟩⟩]) := by
  have hca := hcl a (List.mem_cons_self a as)
  have hflat : (a :: as).flatMap attrTagBytes ++ ']' :: rest =
      ' ' :: (a.1 ++ ('=' :: goQuote a.2) ++ (as.flatMap attrTagBytes ++ ']' :: rest)) := by
    rw [List.flatMap_cons]
    unfold attrTagBytes
    simp
  have helem : decodeSDElementP ('[' :: ("Attrs@1".data ++
      ((a :: as).flatMap attrTagBytes ++ (']' :: rest)))) =
      some (rest, ⟨"Attrs@1".data, (a :: as).map fun x => ⟨x.1, x.2⟩⟩) := by
    unfold decodeSDElementP
    rw [decodeByteP_cons]
    dsimp only
    rw [show (a :: as).flatMap attrTagBytes ++ (']' :: rest) =
      ' ' :: (a.1 ++ ('=' :: goQuote a.2) ++ (as.flatMap attrTagBytes ++ ']' :: rest))
      from hflat]
    rw [decodeStringP_token _ _ (by decide)]
    dsimp only
    rw [← hflat]
    rw [sdElemLoop_tags (a :: as) [] rest hcl]
    simp
  show (if ('[' : Char) = '-' then some ("Attrs@1".data ++
      ((a :: as).flatMap attrTagBytes ++ (']' :: rest)), ([] : List SyslogSDElement))
    else sdLoop [] ('[' :: ("Attrs@1".data ++
      ((a :: as).flatMap attrTagBytes ++ (']' :: rest))))) = _
  rw [if_neg (by decide)]
  unfold sdLoop
  have hfe : ∃ f, ('[' :: ("Attrs@1".data ++
      ((a :: as).flatMap attrTagBytes ++ (']' :: rest)))).length + 1 = f + 1 :=
    ⟨_, rfl⟩
  obtain ⟨f, hf⟩ := hfe
  rw [hf]
  unfold sdLoopF
  dsimp only
  rw [helem]
  dsimp only
  rw [if_neg hrest]
  simp

theorem fmtRFC3339_clean (t : DateTime) :
    ∀ c ∈ fmtRFC3339 t, ¬(c = ' ' ∨ c = '\n') := by
  have hdig : ∀ k : Nat, ¬(digitChar k = ' ' ∨ digitChar k = '\n') := fun k h =>
    h.elim (digitChar_ne_special k).1 (digitChar_ne_special k).2.1
  have hpad2 : ∀ x : Nat, ∀ c ∈ pad2 x, ¬(c = ' ' ∨ c = '\n') := by
    intro x
    unfold pad2
    exact List.forall_mem_cons.mpr ⟨hdig _, List.forall_mem_cons.mpr ⟨hdig _, by simp⟩⟩
  have hpad4 : ∀ c ∈ pad4 t.year, ¬(c = ' ' ∨ c = '\n') := by
    rw [pad4_eq]
    exact List.forall_mem_append.mpr ⟨hpad2 _, hpad2 _⟩
  have hoffc : ∀ c ∈ fmtOffset t.offsetMin, ¬(c = ' ' ∨ c = '\n') := by
    unfold fmtOffset
    split_ifs with h1 h2
    · exact List.forall_mem_cons.mpr ⟨by decide, by simp⟩
    · exact List.forall_mem_cons.mpr ⟨by decide,
        List.forall_mem_append.mpr ⟨List.forall_mem_append.mpr ⟨hpad2 _, by decide⟩,
          hpad2 _⟩⟩
    · exact List.forall_mem_cons.mpr ⟨by decide,
        List.forall_mem_append.mpr ⟨List.forall_mem_append.mpr ⟨hpad2 _, by decide⟩,
          hpad2 _⟩⟩
  unfold fmtRFC3339
  refine List.forall_mem_append.mpr ⟨?_, hoffc⟩
  refine List.forall_mem_append.mpr ⟨?_, hpad2 _⟩
  refine List.forall_mem_append.mpr ⟨?_, by decide⟩
  refine List.forall_mem_append.mpr ⟨?_, hpad2 _⟩
  refine List.forall_mem_append.mpr ⟨?_, by decide⟩
  refine List.forall_mem_append.mpr ⟨?_, hpad2 _⟩
  refine List.forall_mem_append.mpr ⟨?_, by decide⟩
  refine List.forall_mem_append.mpr ⟨?_, hpad2 _⟩
  refine List.forall_mem_append.mpr ⟨?_, by decide⟩
  refine List.forall_mem_append.mpr ⟨?_, hpad2 _⟩
  refine List.forall_mem_append.mpr ⟨?_, by decide⟩
  exact hpad4

theorem decodeTimestampStampP_fmt (T : DateTime) (rest : List Char) (hne : rest ≠ [])
    (hm1 : 1 ≤ T.month) (hm2 : T.month ≤ 12)
    (hd1 : 1 ≤ T.day) (hdm : T.day ≤ daysInMonth 0 T.month)
    (hh : T.hour ≤ 23) (hmi : T.minute ≤ 59) (hs : T.second ≤ 59) :
    decodeTimestampStampP (fmtStamp T ++ rest) =
      some (rest, ⟨0, T.month, T.day, T.hour, T.minute, T.second, 0, 0⟩) := by
  unfold decodeTimestampStampP
  rw [if_neg (by
    rw [List.length_append, fmtStamp_length]
    have hp := List.length_pos.mpr hne
    omega)]
  rw [List.take_left' (fmtStamp_length T), List.drop_left' (fmtStamp_length T)]
  rw [parseStamp_fmt T hm1 hm2 hd1 hdm hh hmi hs]

theorem decodeTimestampRFC3339P_fmt (T : DateTime) (rest : List Char)
    (hy : T.year ≤ 9999) (hm1 : 1 ≤ T.month) (hm2 : T.month ≤ 12)
    (hd1 : 1 ≤ T.day) (hdm : T.day ≤ daysInMonth T.year T.month)
    (hh : T.hour ≤ 23) (hmi : T.minute ≤ 59) (hs : T.second ≤ 59)
    (hoff : T.offsetMin.natAbs ≤ 1439) :
    decodeTimestampRFC3339P (fmtRFC3339 T ++ (' ' :: rest)) =
      some (' ' :: rest,
        ⟨T.year, T.month, T.day, T.hour, T.minute, T.second, 0, T.offsetMin⟩) := by
  unfold decodeTimestampRFC3339P
  rw [decodeStringP_token (fmtRFC3339 T) rest (fmtRFC3339_clean T)]
  dsimp only
  rw [parseRFC3339Nano_fmt T hy hm1 hm2 hd1 hdm hh hmi hs hoff]

theorem decodeRFC3164P_spec (raw : List Char) (f p : Nat) (T : DateTime)
    (host tag content tail : List Char)
    (hm1 : 1 ≤ T.month) (hm2 : T.month ≤ 12)
    (hd1 : 1 ≤ T.day) (hdm : T.day ≤ daysInMonth 0 T.month)
    (hh : T.hour ≤ 23) (hmi : T.minute ≤ 59) (hs : T.second ≤ 59)
    (hhost : ∀ c ∈ host, ¬(c = ' ' ∨ c = '\n'))
    (htag : ∀ c ∈ tag, ¬(c = ' ' ∨ c = '\n'))
    (hcnl : '\n' ∉ content)
    (htail : tail = ['\n'] ∨ (tail = [] ∧ content ≠ [])) :
    decodeRFC3164P raw
      (fmtStamp T ++ (' ' :: (host ++ (' ' :: (tag ++ (' ' :: (content ++ tail)))))))
      f p =
      .RFC3164 raw f p ⟨0, T.month, T.day, T.hour, T.minute, T.second, 0, 0⟩
        host tag content := by
  unfold decodeRFC3164P
  rw [decodeTimestampStampP_fmt T _ (by simp) hm1 hm2 hd1 hdm hh hmi hs]
  dsimp only
  rw [decodeByteP_cons]
  dsimp only
  rw [decodeStringP_token host _ hhost]
  dsimp only
  rw [decodeByteP_cons]
  dsimp only
  rw [decodeStringP_token tag _ htag]
  dsimp only
  rw [decodeByteP_cons]
  dsimp only
  rcases htail with rfl | ⟨rfl, hcne⟩
  · rw [show content ++ ['\n'] = content ++ '\n' :: [] from rfl,
      decodeTrailerP_nl content [] hcnl]
  · rw [List.append_nil, decodeTrailerP_all content hcne hcnl]

theorem decodeRFC5424P_spec (raw : List Char) (f p : Nat) (T : DateTime)
    (host app pid msgid sdbytes msg tail : List Char) (sdelems : List SyslogSDElement)
    (hy : T.year ≤ 9999) (hm1 : 1 ≤ T.month) (hm2 : T.month ≤ 12)
    (hd1 : 1 ≤ T.day) (hdm : T.day ≤ daysInMonth T.year T.month)
    (hh : T.hour ≤ 23) (hmi : T.minute ≤ 59) (hs : T.second ≤ 59)
    (hoff : T.offsetMin.natAbs ≤ 1439)
    (hhost : ∀ c ∈ host, ¬(c = ' ' ∨ c = '\n'))
    (happ : ∀ c ∈ app, ¬(c = ' ' ∨ c = '\n'))
    (hpid : ∀ c ∈ pid, ¬(c = ' ' ∨ c = '\n'))
    (hmsgid : ∀ c ∈ msgid, ¬(c = ' ' ∨ c = '\n'))
    (hsd : decodeSDP (sdbytes ++ (' ' :: (msg ++ tail))) =
      some (' ' :: (msg ++ tail), sdelems))
    (hmsg : '\n' ∉ msg)
    (htail : tail = ['\n'] ∨ tail = []) :
    decodeRFC5424P raw
      ('1' :: (' ' :: (fmtRFC3339 T ++ (' ' :: (host ++ (' ' :: (app ++ (' ' :: (pid ++
        (' ' :: (msgid ++ (' ' :: (sdbytes ++ (' ' :: (msg ++ tail)))))))))))))))
      f p =
      .RFC5424 raw f p 1
        ⟨T.year, T.month, T.day, T.hour, T.minute, T.second, 0, T.offsetMin⟩
        host app pid msgid sdelems (' ' :: msg) := by
  have hmsgnl : '\n' ∉ (' ' :: msg : List Char) := by
    intro h
    rcases List.mem_cons.mp h with h | h
    · exact absurd h (by decide)
    · exact hmsg h
  unfold decodeRFC5424P
  rw [decodeByteP_cons]
  dsimp only
  rw [decodeByteP_cons]
  dsimp only
  rw [decodeTimestampRFC3339P_fmt T _ hy hm1 hm2 hd1 hdm hh hmi hs hoff]
  dsimp only
  rw [decodeByteP_cons]
  dsimp only
  rw [decodeStringP_token host _ hhost]
  dsimp only
  rw [decodeByteP_cons]
  dsimp only
  rw [decodeStringP_token app _ happ]
  dsimp only
  rw [decodeByteP_cons]
  dsimp only
  rw [decodeStringP_token pid _ hpid]
  dsimp only
  rw [decodeByteP_cons]
  dsimp only
  rw [decodeStringP_token msgid _ hmsgid]
  dsimp only
  rw [decodeByteP_cons]
  dsimp only
  rw [hsd]
  dsimp only
  rcases htail with rfl | rfl
  · rw [show (' ' :: (msg ++ ['\n']) : List Char) = (' ' :: msg) ++ '\n' :: [] from by
      simp]
    rw [decodeTrailerP_nl (' ' :: msg) [] hmsgnl]
  · rw [List.append_nil]
    rw [decodeTrailerP_all (' ' :: msg) (by simp) hmsgnl]

theorem undecodedDecode_3164 (raw : List Char) (off : Nat) (pri : Nat)
    (c : Char) (cs : List Char)
    (hdrop : raw.drop off = '<' :: (natDigits pri ++ ('>' :: (c :: cs))))
    (hc : c = 'J' ∨ c = 'F' ∨ c = 'M' ∨ c = 'A' ∨ c = 'S' ∨ c = 'O' ∨
      c = 'N' ∨ c = 'D') :
    undecodedDecode raw off =
      some (decodeRFC3164P raw (c :: cs) (pri / 8) (pri % 8)) := by
  unfold undecodedDecode
  dsimp only
  rw [hdrop]
  rw [decodeByteP_cons]
  dsimp only
  rw [decodePRIP_digits (natDigits pri) (natDigits_all_digits pri)
    (natDigits_ne_nil pri) '>' rfl (c :: cs)]
  dsimp only
  rw [digitsVal_natDigits]
  rw [decodeByteP_cons]
  dsimp only
  rw [if_pos hc]

theorem undecodedDecode_5424 (raw : List Char) (off : Nat) (pri : Nat)
    (cs : List Char)
    (hdrop : raw.drop off = '<' :: (natDigits pri ++ ('>' :: ('1' :: cs)))) :
    undecodedDecode raw off =
      some (decodeRFC5424P raw ('1' :: cs) (pri / 8) (pri % 8)) := by
  unfold undecodedDecode
  dsimp only
  rw [hdrop]
  rw [decodeByteP_cons]
  dsimp only
  rw [decodePRIP_digits (natDigits pri) (natDigits_all_digits pri)
    (natDigits_ne_nil pri) '>' rfl ('1' :: cs)]
  dsimp only
  rw [digitsVal_natDigits]
  rw [decodeByteP_cons]
  dsimp only
  rw [if_neg (by decide), if_pos rfl]

theorem decode_drained :
    SyslogDecoder.decode ⟨[], .Framing, [], 0, 0⟩ =
      some (none, ⟨[], .Framing, [], 0, 0⟩) := by
  decide

theorem decodeAll_single (fuel : Nat) (d d1 : SyslogDecoder) (m : SyslogMessage)
    (h : d.decode = some (some m, d1)) (h1 : d1.decode = some (none, d1))
    (hf : 2 ≤ fuel) :
    SyslogDecoder.decodeAll fuel d = some ([m], d1) := by
  obtain ⟨f, rfl⟩ := Nat.exists_eq_succ_of_ne_zero (by omega : fuel ≠ 0)
  have hin : SyslogDecoder.decodeAll f d1 = some ([], d1) := by
    obtain ⟨g, rfl⟩ := Nat.exists_eq_succ_of_ne_zero (by omega : f ≠ 0)
    unfold SyslogDecoder.decodeAll
    rw [h1]
  unfold SyslogDecoder.decodeAll
  rw [h]
  dsimp only
  rw [hin]

theorem decode_implicit_run (t : List Char) (m : SyslogMessage)
    (hnl : '\n' ∉ ('<' :: t : List Char))
    (hdec : undecodedDecode ('<' :: (t ++ ['\n'])) 0 = some m) :
    (SyslogDecoder.empty.Feed (('<' :: t) ++ ['\n'])).Decode =
      some ([m], ⟨[], .Framing, [], 0, 0⟩) := by
  have h1 : SyslogDecoder.decodeFraming ⟨'<' :: (t ++ ['\n']), .Framing, [], 0, 0⟩ =
      ⟨'<' :: (t ++ ['\n']), .ImplicitFraming, [], 0, 0⟩ := by
    unfold SyslogDecoder.decodeFraming
    dsimp only
    rw [if_pos rfl]
  have h2 : SyslogDecoder.decodeImplicitFraming
      ⟨'<' :: (t ++ ['\n']), .ImplicitFraming, [], 0, 0⟩ =
      ⟨[], .ImplicitFramingMessage, '<' :: (t ++ ['\n']), 0, 0⟩ := by
    unfold SyslogDecoder.decodeImplicitFraming
    have hr := readUntilNL_complete ('<' :: t) hnl
    rw [List.cons_append] at hr
    rw [hr]
    rfl
  have h3 : SyslogDecoder.decodeImplicitFramingMessage
      ⟨[], .ImplicitFramingMessage, '<' :: (t ++ ['\n']), 0, 0⟩ =
      some (m, ⟨[], .Framing, [], 0, 0⟩) := by
    unfold SyslogDecoder.decodeImplicitFramingMessage SyslogDecoder.decodeMessage
    dsimp only
    rw [hdec]
    rfl
  have hdecode : SyslogDecoder.decode ⟨'<' :: (t ++ ['\n']), .Framing, [], 0, 0⟩ =
      some (some m, ⟨[], .Framing, [], 0, 0⟩) := by
    show SyslogDecoder.decodeLoop 8 _ = _
    unfold SyslogDecoder.decodeLoop
    dsimp only
    rw [h1, if_neg (by simp)]
    unfold SyslogDecoder.decodeLoop
    dsimp only
    rw [h2, if_neg (by simp)]
    unfold SyslogDecoder.decodeLoop
    dsimp only
    rw [h3]
  have hfeed : SyslogDecoder.empty.Feed (('<' :: t) ++ ['\n']) =
      ⟨'<' :: (t ++ ['\n']), .Framing, [], 0, 0⟩ := by
    unfold SyslogDecoder.Feed SyslogDecoder.empty
    rw [List.nil_append, List.cons_append]
  rw [hfeed]
  show SyslogDecoder.decodeAll _ _ = _
  exact decodeAll_single _ _ _ m hdecode decode_drained (by omega)

theorem decode_octet_run (c : Char) (cs : List Char) (body : List Char)
    (L : Nat) (m : SyslogMessage)
    (hfd : SyslogDecoder.frameDigit c)
    (hds : ∀ x ∈ cs, (digitVal x).isSome)
    (hL : digitsVal 0 (c :: cs) = L)
    (hlim : L ≤ syslogDecodeLimit)
    (hlen : body.length = L) (hpos : 1 ≤ L)
    (hdec : undecodedDecode ((c :: cs) ++ (' ' :: body)) (cs.length + 2) = some m) :
    (SyslogDecoder.empty.Feed ((c :: cs) ++ (' ' :: body))).Decode =
      some ([m], ⟨[], .Framing, [], 0, 0⟩) := by
  have hdigAll : ∀ x ∈ c :: cs, (digitVal x).isSome := by
    intro x hx
    rcases List.mem_cons.mp hx with hx | hx
    · exact hx ▸ frameDigit_isSome_digitVal hfd
    · exact hds x hx
  have h1 : SyslogDecoder.decodeFraming ⟨c :: (cs ++ ' ' :: body), .Framing, [], 0, 0⟩ =
      ⟨c :: (cs ++ ' ' :: body), .OctetFramingHeader, [], 0, 0⟩ := by
    unfold SyslogDecoder.decodeFraming
    dsimp only
    rw [if_neg (frameDigit_ne_lt hfd), if_pos hfd]
  have h2 : SyslogDecoder.decodeOctetFramingHeader
      ⟨c :: (cs ++ ' ' :: body), .OctetFramingHeader, [], 0, 0⟩ =
      ⟨body, .OctetFraming, (c :: cs) ++ [' '], L, L⟩ := by
    unfold SyslogDecoder.decodeOctetFramingHeader
    have hofh := ofhLoop_digits (c :: cs) body [] 0 hdigAll (by rw [hL]; exact hlim)
    rw [show ((⟨c :: (cs ++ ' ' :: body), .OctetFramingHeader, [], 0, 0⟩ :
        SyslogDecoder).buffer) = (c :: cs) ++ ' ' :: body from by simp]
    rw [hofh, hL]
    rfl
  have h3 : SyslogDecoder.decodeOctetFraming
      ⟨body, .OctetFraming, (c :: cs) ++ [' '], L, L⟩ =
      ⟨[], .OctetFramingMessage, ((c :: cs) ++ [' ']) ++ body, L, 0⟩ := by
    unfold SyslogDecoder.decodeOctetFraming
    dsimp only
    rw [List.take_of_length_le (by omega), List.drop_of_length_le (by omega)]
    rw [if_pos (by omega)]
    rw [show L - body.length = 0 from by omega]
  have hraweq : ((c :: cs) ++ [' ']) ++ body = (c :: cs) ++ (' ' :: body) := by simp
  have h4 : SyslogDecoder.decodeOctetFramingMessage
      ⟨[], .OctetFramingMessage, ((c :: cs) ++ [' ']) ++ body, L, 0⟩ =
      some (m, ⟨[], .Framing, [], 0, 0⟩) := by
    unfold SyslogDecoder.decodeOctetFramingMessage
    dsimp only
    rw [show (((c :: cs) ++ [' ']) ++ body).length - L = cs.length + 2 from by
      simp
      omega]
    rw [if_neg (by omega)]
    unfold SyslogDecoder.decodeMessage
    dsimp only
    rw [hraweq, hdec]
    rfl
  have hdecode : SyslogDecoder.decode ⟨c :: (cs ++ ' ' :: body), .Framing, [], 0, 0⟩ =
      some (some m, ⟨[], .Framing, [], 0, 0⟩) := by
    show SyslogDecoder.decodeLoop 8 _ = _
    unfold SyslogDecoder.decodeLoop
    dsimp only
    rw [h1, if_neg (by simp)]
    unfold SyslogDecoder.decodeLoop
    dsimp only
    rw [h2, if_neg (by simp)]
    unfold SyslogDecoder.decodeLoop
    dsimp only
    rw [h3, if_neg (by simp)]
    unfold SyslogDecoder.decodeLoop
    dsimp only
    rw [h4]
  have hfeed : SyslogDecoder.empty.Feed ((c :: cs) ++ (' ' :: body)) =
      ⟨c :: (cs ++ ' ' :: body), .Framing, [], 0, 0⟩ := by
    unfold SyslogDecoder.Feed SyslogDecoder.empty
    rw [List.nil_append, List.cons_append]
  rw [hfeed]
  show SyslogDecoder.decodeAll _ _ = _
  exact decodeAll_single _ _ _ m hdecode decode_drained (by omega)

theorem natDigits_frameStart (n : Nat) (h : 1 ≤ n) :
    ∃ c cs, natDigits n = c :: cs ∧ SyslogDecoder.frameDigit c := by
  induction n using Nat.strong_induction_on with
  | _ n ih =>
    rw [natDigits_rec]
    split_ifs with h10
    · refine ⟨digitChar n, [], rfl, ?_⟩
      interval_cases n <;> decide
    · obtain ⟨c, cs, hcs, hfd⟩ := ih (n / 10)
        (Nat.div_lt_self (by omega) (by omega)) (by omega)
      exact ⟨c, cs ++ [digitChar (n % 10)], by rw [hcs]; rfl, hfd⟩

/-- The bytes `appendMsgID` writes: the first reserved-key attribute value,
else the handler msgID. -/
def msgIDBytes (h : SyslogHandler) (r : Record) : List Char :=
  ((r.attrs.find? fun a => a.1 = SyslogKey).map Prod.snd).getD h.msgID

/-- The rendered structured-data block of `encodeRFC5424` (for a handler
without prerendered attributes): committed element or ` - `. -/
def sdBlock (attrs : List (List Char × List Char)) : List Char :=
  if ∃ a ∈ attrs, a.1 ≠ SyslogKey then
    " [Attrs@1".data ++ sdTags attrs ++ "] ".data
  else " - ".data

theorem AS_nil (B s : List Char) :
    messageBuilder.AppendString ⟨B, []⟩ s = ⟨B ++ s, []⟩ :=
  AppendString_free _ _ rfl

theorem AR_nil (B : List Char) (c : Char) :
    messageBuilder.AppendRune ⟨B, []⟩ c = ⟨B ++ [c], []⟩ := by
  rw [AppendRune_eq]
  simp

theorem appendPRI_empty (h : SyslogHandler) (lv : Int) :
    h.appendPRI ⟨[], []⟩ lv = ⟨'<' :: (intRepr (h.priValue lv) ++ ['>']), []⟩ := by
  unfold SyslogHandler.appendPRI
  rw [AR_nil, AS_nil, AR_nil]
  simp

theorem encodeRFC3164_shape (h : SyslogHandler) (r : Record)
    (hpre : h.prerendered = [])
    (h3164 : h.encoding = SyslogEncodingRFC3164 ∨
      h.encoding = SyslogEncodingRFC3164F) :
    h.encodeRFC3164 ⟨[], []⟩ r =
      ⟨'<' :: (intRepr (h.priValue r.level) ++ ('>' :: (fmtStamp r.time ++
        (h.header ++ (r.message ++ sdTags r.attrs))))), []⟩ := by
  unfold SyslogHandler.encodeRFC3164
  dsimp only
  rw [appendPRI_empty]
  unfold SyslogHandler.appendTime
  rw [if_pos h3164]
  rw [AS_nil, AS_nil, AS_nil]
  rw [hpre, List.foldl_nil]
  rw [attrFold]
  split_ifs with hex
  · simp
  · rw [sdTags_nil hex]
    simp

theorem encodeRFC5424_shape (h : SyslogHandler) (r : Record)
    (hpre : h.prerendered = [])
    (hn3164 : ¬(h.encoding = SyslogEncodingRFC3164 ∨
      h.encoding = SyslogEncodingRFC3164F)) :
    h.encodeRFC5424 ⟨[], []⟩ r =
      ⟨'<' :: (intRepr (h.priValue r.level) ++ ('>' :: ('1' :: (' ' ::
        (fmtRFC3339 r.time ++ (h.header ++ (msgIDBytes h r ++
          (sdBlock r.attrs ++ r.message)))))))), []⟩ := by
  unfold SyslogHandler.encodeRFC5424
  dsimp only
  rw [appendPRI_empty]
  rw [AS_nil]
  unfold SyslogHandler.appendTime
  rw [if_neg hn3164]
  rw [AS_nil]
  rw [AS_nil]
  unfold SyslogHandler.appendMsgID
  rw [AS_nil]
  unfold messageBuilder.AppendConditional
  dsimp only
  rw [hpre, List.foldl_nil]
  rw [attrFold]
  unfold sdBlock
  split_ifs with hex
  · rw [CompleteConditional_eq _ _ _ (by decide) (by decide)]
    rw [if_pos rfl]
    rw [AS_nil]
    simp [msgIDBytes]
  · rw [CompleteConditional_eq _ _ _ (by decide) (by decide)]
    rw [if_neg (by simp)]
    rw [AS_nil]
    simp [msgIDBytes]

theorem severityFor_cases (lv : Int) :
    severityFor lv = 3 ∨ severityFor lv = 4 ∨ severityFor lv = 5 ∨
      severityFor lv = 7 := by
  unfold severityFor levelWarn levelInfo LevelNotice levelError
  split_ifs <;> omega

theorem severityFor_bounds (lv : Int) : 0 ≤ severityFor lv ∧ severityFor lv < 8 := by
  rcases severityFor_cases lv with h | h | h | h <;> rw [h] <;>
    exact ⟨by norm_num, by norm_num⟩

theorem intRepr_pri (fac : Nat) (lv : Int) :
    intRepr ((fac : Int) * 8 + severityFor lv) =
      natDigits (fac * 8 + (severityFor lv).toNat) ∧
    (fac * 8 + (severityFor lv).toNat) / 8 = fac ∧
    (fac * 8 + (severityFor lv).toNat) % 8 = (severityFor lv).toNat := by
  obtain ⟨hge, hlt⟩ := severityFor_bounds lv
  refine ⟨?_, by omega, by omega⟩
  unfold intRepr
  rw [if_neg (by omega)]
  congr 1
  omega

theorem daysInMonth_le_year0 (y m : Nat) : daysInMonth y m ≤ daysInMonth 0 m := by
  unfold daysInMonth leapYear
  split_ifs <;> omega

theorem nlin (l : List Char) (h : ∀ c ∈ l, ¬(c = ' ' ∨ c = '\n')) : '\n' ∉ l :=
  fun hm => (h _ hm) (Or.inr rfl)

theorem natDigits_no_nl (n : Nat) : '\n' ∉ natDigits n := by
  intro hm
  have h := natDigits_all_digits n _ hm
  rw [show digitVal '\n' = none from by decide] at h
  cases h

theorem tag_clean (app pid : List Char)
    (happ : ∀ c ∈ app, ¬(c = ' ' ∨ c = '\n'))
    (hpid : ∀ c ∈ pid, ¬(c = ' ' ∨ c = '\n')) :
    ∀ c ∈ app ++ ('[' :: (pid ++ [']', ':'])), ¬(c = ' ' ∨ c = '\n') := by
  refine List.forall_mem_append.mpr ⟨happ, ?_⟩
  refine List.forall_mem_cons.mpr ⟨by decide, ?_⟩
  exact List.forall_mem_append.mpr ⟨hpid, by decide⟩

theorem quoteChar_printable_clean (c : Char) (hc : printable c) :
    ∀ x ∈ quoteChar c, x ≠ '\n' := by
  unfold quoteChar
  split_ifs with h1 h2 h3
  · decide
  · decide
  · intro x hx
    rw [List.mem_singleton] at hx
    subst hx
    intro hEq
    unfold printable at hc
    rw [hEq] at hc
    exact absurd hc.1 (by decide)
  · intro x hx
    unfold printable at hc
    exact absurd hc h3

theorem sdTags_clean (attrs : List (List Char × List Char))
    (hkeys : ∀ a ∈ attrs, '\n' ∉ a.1)
    (hvals : ∀ a ∈ attrs, ∀ c ∈ a.2, printable c) :
    '\n' ∉ sdTags attrs := by
  unfold sdTags
  intro hmem
  rw [List.mem_flatMap] at hmem
  obtain ⟨a, ha, hmem⟩ := hmem
  have haa := (List.mem_filter.mp ha).1
  rw [show attrTagBytes a = ' ' :: (a.1 ++ ('=' :: goQuote a.2)) from rfl] at hmem
  rcases List.mem_cons.mp hmem with h | h
  · exact absurd h (by decide)
  · rw [List.mem_append] at h
    rcases h with h | h
    · exact hkeys a haa h
    · rcases List.mem_cons.mp h with h | h
      · exact absurd h (by decide)
      · rw [show goQuote a.2 = '"' :: (a.2.flatMap quoteChar ++ ['"']) from rfl] at h
        rcases List.mem_cons.mp h with h | h
        · exact absurd h (by decide)
        · rw [List.mem_append] at h
          rcases h with h | h
          · rw [List.mem_flatMap] at h
            obtain ⟨c, hc, hcm⟩ := h
            exact quoteChar_printable_clean c (hvals a haa c hc) _ hcm rfl
          · rw [List.mem_singleton] at h
            exact absurd h (by decide)

/-- The handler the round-trip claim constructs. -/
def c1Handler (enc : String) (fac : Nat) (host appName procID : List Char) :
    SyslogHandler :=
  NewSyslogHandler ⟨enc, (fac : Int)⟩ host appName procID

/-- The MSGID value the encoder wrote. -/
def expectedMsgID (attrs : List (List Char × List Char)) : List Char :=
  ((attrs.find? fun a => a.1 = SyslogKey).map Prod.snd).getD ['-']

/-- The structured-data elements the encoder wrote. -/
def expectedSD (attrs : List (List Char × List Char)) : List SyslogSDElement :=
  if ∃ a ∈ attrs, a.1 ≠ SyslogKey then
    [⟨"Attrs@1".data,
      (attrs.filter fun a => decide (a.1 ≠ SyslogKey)).map fun a => ⟨a.1, a.2⟩⟩]
  else []

/-- The message the decoder is expected to produce for a frame encoded by
`c1Handler`, built from the encoder-side values (note the decoded RFC5424
`Msg` keeps the separator space, and the RFC3164 timestamp carries year 0
and no zone, as the layouts dictate). -/
def c1Expected (enc : String) (fac : Nat) (host appName procID : List Char)
    (r : Record) (raw : List Char) : SyslogMessage :=
  if enc = SyslogEncodingRFC3164 ∨ enc = SyslogEncodingRFC3164F then
    .RFC3164 raw fac (severityFor r.level).toNat
      ⟨0, r.time.month, r.time.day, r.time.hour, r.time.minute, r.time.second, 0, 0⟩
      host (appName ++ ('[' :: (procID ++ [']', ':']))) (r.message ++ sdTags r.attrs)
  else
    .RFC5424 raw fac (severityFor r.level).toNat 1
      ⟨r.time.year, r.time.month, r.time.day, r.time.hour, r.time.minute,
        r.time.second, 0, r.time.offsetMin⟩
      host appName procID (expectedMsgID r.attrs) (expectedSD r.attrs)
      (' ' :: r.message)

/-- The unframed encode buffer of `c1Handler` on a record. -/
def c1Body (enc : String) (fac : Nat) (host appName procID : List Char)
    (r : Record) : List Char :=
  (match (c1Handler enc fac host appName procID).encodeKind with
   | .rfc3164 => (c1Handler enc fac host appName procID).encodeRFC3164 ⟨[], []⟩ r
   | .rfc5424 => (c1Handler enc fac host appName procID).encodeRFC5424 ⟨[], []⟩ r).buffer

theorem expectedMsgID_clean (attrs : List (List Char × List Char))
    (hsys : ∀ a ∈ attrs, a.1 = SyslogKey → ∀ c ∈ a.2, ¬(c = ' ' ∨ c = '\n')) :
    ∀ c ∈ expectedMsgID attrs, ¬(c = ' ' ∨ c = '\n') := by
  unfold expectedMsgID
  cases hfind : attrs.find? fun a => a.1 = SyslogKey with
  | none =>
    intro c hc
    simp at hc
    subst hc
    decide
  | some a =>
    have hmem := List.mem_of_find?_eq_some hfind
    have hkey : a.1 = SyslogKey := by
      have := List.find?_some hfind
      simpa using this
    intro c hc
    simp at hc
    exact hsys a hmem hkey c hc

theorem c1_rfc5424_implicit (fac : Nat) (host appName procID : List Char) (r : Record)
    (hy : r.time.year ≤ 9999) (hm1 : 1 ≤ r.time.month) (hm2 : r.time.month ≤ 12)
    (hd1 : 1 ≤ r.time.day) (hdm : r.time.day ≤ daysInMonth r.time.year r.time.month)
    (hh : r.time.hour ≤ 23) (hmi : r.time.minute ≤ 59) (hs : r.time.second ≤ 59)
    (hoff : r.time.offsetMin.natAbs ≤ 1439)
    (hhost : ∀ c ∈ host, ¬(c = ' ' ∨ c = '\n'))
    (happ : ∀ c ∈ appName, ¬(c = ' ' ∨ c = '\n'))
    (hpid : ∀ c ∈ procID, ¬(c = ' ' ∨ c = '\n'))
    (hkeys : ∀ a ∈ r.attrs, '=' ∉ a.1 ∧ '\n' ∉ a.1)
    (hvals : ∀ a ∈ r.attrs, ∀ c ∈ a.2, printable c)
    (hsys : ∀ a ∈ r.attrs, a.1 = SyslogKey → ∀ c ∈ a.2, ¬(c = ' ' ∨ c = '\n'))
    (hmsg : '\n' ∉ r.message) :
    ∃ wire,
      (c1Handler SyslogEncodingRFC5424 fac host appName procID).Handle r = some wire ∧
      (SyslogDecoder.empty.Feed wire).Decode =
        some ([c1Expected SyslogEncodingRFC5424 fac host appName procID r wire],
          ⟨[], .Framing, [], 0, 0⟩) := by
  have hn3164 : ¬((c1Handler SyslogEncodingRFC5424 fac host appName procID).encoding =
      SyslogEncodingRFC3164 ∨
      (c1Handler SyslogEncodingRFC5424 fac host appName procID).encoding =
      SyslogEncodingRFC3164F) := by
    rw [show (c1Handler SyslogEncodingRFC5424 fac host appName procID).encoding =
      SyslogEncodingRFC5424 from rfl]
    decide
  have hbody := encodeRFC5424_shape
    (c1Handler SyslogEncodingRFC5424 fac host appName procID) r rfl hn3164
  have hprival : (c1Handler SyslogEncodingRFC5424 fac host appName procID).priValue
      r.level = (fac : Int) * 8 + severityFor r.level := rfl
  obtain ⟨hpriN, hpdiv, hpmod⟩ := intRepr_pri fac r.level
  have hheader : (c1Handler SyslogEncodingRFC5424 fac host appName procID).header =
      ' ' :: host ++ [' '] ++ appName ++ [' '] ++ procID ++ [' '] := rfl
  have hmsgid : msgIDBytes (c1Handler SyslogEncodingRFC5424 fac host appName procID) r =
      expectedMsgID r.attrs := rfl
  have hmsgidcl := expectedMsgID_clean r.attrs hsys
  have hHandle : (c1Handler SyslogEncodingRFC5424 fac host appName procID).Handle r =
      some (((c1Handler SyslogEncodingRFC5424 fac host appName procID).encodeRFC5424
        ⟨[], []⟩ r).buffer ++ ['\n']) := by
    unfold SyslogHandler.Handle
    rw [show (c1Handler SyslogEncodingRFC5424 fac host appName procID).encodeKind =
      EncodeKind.rfc5424 from rfl]
    dsimp only
    rw [show (decide ((c1Handler SyslogEncodingRFC5424 fac host appName procID).encoding
      ≠ SyslogEncodingRFC3164F ∧
      (c1Handler SyslogEncodingRFC5424 fac host appName procID).encoding
      ≠ SyslogEncodingRFC5424F) : Bool) = true from rfl]
    unfold messageBuilder.write
    rw [if_pos rfl]
  rw [hbody] at hHandle
  dsimp only at hHandle
  by_cases hex : ∃ a ∈ r.attrs, a.1 ≠ SyslogKey
  · -- at least one regular attribute: the element is committed
    have hFne : r.attrs.filter (fun a => decide (a.1 ≠ SyslogKey)) ≠ [] := by
      obtain ⟨a, ha, hne⟩ := hex
      exact List.ne_nil_of_mem (List.mem_filter.mpr ⟨ha, by simpa using hne⟩)
    obtain ⟨aa, as, hF⟩ := List.exists_cons_of_ne_nil hFne
    have htags : sdTags r.attrs = (aa :: as).flatMap attrTagBytes := by
      unfold sdTags
      rw [hF]
    have hsdb : sdBlock r.attrs =
        " [Attrs@1".data ++ sdTags r.attrs ++ "] ".data := by
      unfold sdBlock
      rw [if_pos hex]
    have hclF : ∀ x ∈ aa :: as, '=' ∉ x.1 ∧ ∀ c ∈ x.2, printable c := by
      intro x hx
      have hxf : x ∈ r.attrs.filter (fun a => decide (a.1 ≠ SyslogKey)) := hF ▸ hx
      have hxa := (List.mem_filter.mp hxf).1
      exact ⟨(hkeys x hxa).1, hvals x hxa⟩
    have hsdspec : decodeSDP (('[' :: ("Attrs@1".data ++
        ((aa :: as).flatMap attrTagBytes ++ [']']))) ++
        (' ' :: (r.message ++ ['\n']))) =
        some (' ' :: (r.message ++ ['\n']),
          [⟨"Attrs@1".data, (aa :: as).map fun x => ⟨x.1, x.2⟩⟩]) := by
      rw [show ('[' :: ("Attrs@1".data ++ ((aa :: as).flatMap attrTagBytes ++ [']']))) ++
          (' ' :: (r.message ++ ['\n'])) =
        '[' :: ("Attrs@1".data ++ ((aa :: as).flatMap attrTagBytes ++
          (']' :: (' ' :: (r.message ++ ['\n']))))) from by simp]
      exact decodeSDP_attrs aa as (' ' :: (r.message ++ ['\n'])) hclF (by simp)
    have hexpSD : expectedSD r.attrs =
        [⟨"Attrs@1".data, (aa :: as).map fun x => ⟨x.1, x.2⟩⟩] := by
      unfold expectedSD
      rw [if_pos hex, hF]
    refine ⟨('<' :: (natDigits (fac * 8 + (severityFor r.level).toNat) ++ ('>' :: ('1' ::
      (' ' :: (fmtRFC3339 r.time ++ (' ' :: (host ++ (' ' :: (appName ++ (' ' ::
      (procID ++ (' ' :: (expectedMsgID r.attrs ++ (' ' :: (('[' :: ("Attrs@1".data ++
      ((aa :: as).flatMap attrTagBytes ++ [']']))) ++ (' ' ::
      r.message))))))))))))))))) ++ ['\n'], ?_, ?_⟩
    · rw [hHandle]
      rw [hprival, hpriN, hheader, hmsgid, hsdb, htags]
      rw [show " [Attrs@1".data = ' ' :: ('[' :: "Attrs@1".data) from rfl]
      rw [show "] ".data = ([']', ' '] : List Char) from rfl]
      simp
    · have hdrop : ((('<' :: (natDigits (fac * 8 + (severityFor r.level).toNat) ++
          ('>' :: ('1' :: (' ' :: (fmtRFC3339 r.time ++ (' ' :: (host ++ (' ' ::
          (appName ++ (' ' :: (procID ++ (' ' :: (expectedMsgID r.attrs ++ (' ' ::
          (('[' :: ("Attrs@1".data ++ ((aa :: as).flatMap attrTagBytes ++ [']']))) ++
          (' ' :: r.message))))))))))))))))) ++ ['\n']).drop 0) =
          '<' :: (natDigits (fac * 8 + (severityFor r.level).toNat) ++ ('>' :: ('1' ::
          (' ' :: (fmtRFC3339 r.time ++ (' ' :: (host ++ (' ' :: (appName ++ (' ' ::
          (procID ++ (' ' :: (expectedMsgID r.attrs ++ (' ' :: (('[' ::
          ("Attrs@1".data ++ ((aa :: as).flatMap attrTagBytes ++ [']']))) ++ (' ' ::
          (r.message ++ ['\n']))))))))))))))))) := by
        rw [List.drop_zero]
        simp
      have hdec : undecodedDecode (('<' :: (natDigits
          (fac * 8 + (severityFor r.level).toNat) ++ ('>' :: ('1' :: (' ' ::
          (fmtRFC3339 r.time ++ (' ' :: (host ++ (' ' :: (appName ++ (' ' ::
          (procID ++ (' ' :: (expectedMsgID r.attrs ++ (' ' :: (('[' ::
          ("Attrs@1".data ++ ((aa :: as).flatMap attrTagBytes ++ [']']))) ++ (' ' ::
          r.message))))))))))))))))) ++ ['\n']) 0 =
          some (.RFC5424 (('<' :: (natDigits (fac * 8 + (severityFor r.level).toNat) ++
            ('>' :: ('1' :: (' ' :: (fmtRFC3339 r.time ++ (' ' :: (host ++ (' ' ::
            (appName ++ (' ' :: (procID ++ (' ' :: (expectedMsgID r.attrs ++ (' ' ::
            (('[' :: ("Attrs@1".data ++ ((aa :: as).flatMap attrTagBytes ++ [']']))) ++
            (' ' :: r.message))))))))))))))))) ++ ['\n'])
            fac (severityFor r.level).toNat 1
            ⟨r.time.year, r.time.month, r.time.day, r.time.hour, r.time.minute,
              r.time.second, 0, r.time.offsetMin⟩
            host appName procID (expectedMsgID r.attrs)
            [⟨"Attrs@1".data, (aa :: as).map fun x => ⟨x.1, x.2⟩⟩]
            (' ' :: r.message)) := by
        rw [undecodedDecode_5424 _ 0 (fac * 8 + (severityFor r.level).toNat) _ hdrop]
        rw [hpdiv, hpmod]
        rw [decodeRFC5424P_spec _ fac ((severityFor r.level).toNat) r.time host
          appName procID (expectedMsgID r.attrs)
          ('[' :: ("Attrs@1".data ++ ((aa :: as).flatMap attrTagBytes ++ [']'])))
          r.message ['\n'] [⟨"Attrs@1".data, (aa :: as).map fun x => ⟨x.1, x.2⟩⟩]
          hy hm1 hm2 hd1 hdm hh hmi hs hoff hhost happ hpid hmsgidcl hsdspec hmsg
          (Or.inl rfl)]
      have hnl : '\n' ∉ ('<' :: (natDigits (fac * 8 + (severityFor r.level).toNat) ++
          ('>' :: ('1' :: (' ' :: (fmtRFC3339 r.time ++ (' ' :: (host ++ (' ' ::
          (appName ++ (' ' :: (procID ++ (' ' :: (expectedMsgID r.attrs ++ (' ' ::
          (('[' :: ("Attrs@1".data ++ ((aa :: as).flatMap attrTagBytes ++ [']']))) ++
          (' ' :: r.message))))))))))))))))) := by
        intro hm
        rcases List.mem_cons.mp hm with h | h
        · exact absurd h (by decide)
        rcases List.mem_append.mp h with h | h
        · exact natDigits_no_nl _ h
        rcases List.mem_cons.mp h with h | h
        · exact absurd h (by decide)
        rcases List.mem_cons.mp h with h | h
        · exact absurd h (by decide)
        rcases List.mem_cons.mp h with h | h
        · exact absurd h (by decide)
        rcases List.mem_append.mp h with h | h
        · exact (fmtRFC3339_clean r.time _ h) (Or.inr rfl)
        rcases List.mem_cons.mp h with h | h
        · exact absurd h (by decide)
        rcases List.mem_append.mp h with h | h
        · exact (hhost _ h) (Or.inr rfl)
        rcases List.mem_cons.mp h with h | h
        · exact absurd h (by decide)
        rcases List.mem_append.mp h with h | h
        · exact (happ _ h) (Or.inr rfl)
        rcases List.mem_cons.mp h with h | h
        · exact absurd h (by decide)
        rcases List.mem_append.mp h with h | h
        · exact (hpid _ h) (Or.inr rfl)
        rcases List.mem_cons.mp h with h | h
        · exact absurd h (by decide)
        rcases List.mem_append.mp h with h | h
        · exact (hmsgidcl _ h) (Or.inr rfl)
        rcases List.mem_cons.mp h with h | h
        · exact absurd h (by decide)
        rcases List.mem_append.mp h with h | h
        · rcases List.mem_cons.mp h with h | h
          · exact absurd h (by decide)
          rcases List.mem_append.mp h with h | h
          · exact absurd h (by decide)
          rcases List.mem_append.mp h with h | h
          · rw [← htags] at h
            exact sdTags_clean r.attrs (fun a ha => (hkeys a ha).2) hvals h
          · exact absurd h (by decide)
        rcases List.mem_cons.mp h with h | h
        · exact absurd h (by decide)
        · exact hmsg h
      rw [show c1Expected SyslogEncodingRFC5424 fac host appName procID r
          (('<' :: (natDigits (fac * 8 + (severityFor r.level).toNat) ++ ('>' :: ('1' ::
          (' ' :: (fmtRFC3339 r.time ++ (' ' :: (host ++ (' ' :: (appName ++ (' ' ::
          (procID ++ (' ' :: (expectedMsgID r.attrs ++ (' ' :: (('[' ::
          ("Attrs@1".data ++ ((aa :: as).flatMap attrTagBytes ++ [']']))) ++ (' ' ::
          r.message))))))))))))))))) ++ ['\n']) =
        .RFC5424 (('<' :: (natDigits (fac * 8 + (severityFor r.level).toNat) ++
          ('>' :: ('1' :: (' ' :: (fmtRFC3339 r.time ++ (' ' :: (host ++ (' ' ::
          (appName ++ (' ' :: (procID ++ (' ' :: (expectedMsgID r.attrs ++ (' ' ::
          (('[' :: ("Attrs@1".data ++ ((aa :: as).flatMap attrTagBytes ++ [']']))) ++
          (' ' :: r.message))))))))))))))))) ++ ['\n'])
          fac (severityFor r.level).toNat 1
          ⟨r.time.year, r.time.month, r.time.day, r.time.hour, r.time.minute,
            r.time.second, 0, r.time.offsetMin⟩
          host appName procID (expectedMsgID r.attrs)
          [⟨"Attrs@1".data, (aa :: as).map fun x => ⟨x.1, x.2⟩⟩]
          (' ' :: r.message) from by
        unfold c1Expected
        rw [if_neg (by decide), hexpSD]]
      have hdec2 := hdec
      rw [← List.cons_append] at hdec2
      exact decode_implicit_run _ _ hnl hdec2
  · -- no regular attribute: the block renders as a dash
    have hsdb : sdBlock r.attrs = " - ".data := by
      unfold sdBlock
      rw [if_neg hex]
    have hsdspec : decodeSDP ((['-'] : List Char) ++ (' ' :: (r.message ++ ['\n']))) =
        some (' ' :: (r.message ++ ['\n']), []) := by
      rw [show (['-'] : List Char) ++ (' ' :: (r.message ++ ['\n'])) =
        '-' :: (' ' :: (r.message ++ ['\n'])) from rfl]
      exact decodeSDP_dash _
    have hexpSD : expectedSD r.attrs = [] := by
      unfold expectedSD
      rw [if_neg hex]
    refine ⟨('<' :: (natDigits (fac * 8 + (severityFor r.level).toNat) ++ ('>' :: ('1' ::
      (' ' :: (fmtRFC3339 r.time ++ (' ' :: (host ++ (' ' :: (appName ++ (' ' ::
      (procID ++ (' ' :: (expectedMsgID r.attrs ++ (' ' :: ((['-'] : List Char) ++
      (' ' :: r.message))))))))))))))))) ++ ['\n'], ?_, ?_⟩
    · rw [hHandle]
      rw [hprival, hpriN, hheader, hmsgid, hsdb]
      rw [show " - ".data = ([' ', '-', ' '] : List Char) from rfl]
      simp
    · have hdrop : ((('<' :: (natDigits (fac * 8 + (severityFor r.level).toNat) ++
          ('>' :: ('1' :: (' ' :: (fmtRFC3339 r.time ++ (' ' :: (host ++ (' ' ::
          (appName ++ (' ' :: (procID ++ (' ' :: (expectedMsgID r.attrs ++ (' ' ::
          ((['-'] : List Char) ++ (' ' :: r.message))))))))))))))))) ++ ['\n']).drop 0) =
          '<' :: (natDigits (fac * 8 + (severityFor r.level).toNat) ++ ('>' :: ('1' ::
          (' ' :: (fmtRFC3339 r.time ++ (' ' :: (host ++ (' ' :: (appName ++ (' ' ::
          (procID ++ (' ' :: (expectedMsgID r.attrs ++ (' ' :: ((['-'] : List Char) ++
          (' ' :: (r.message ++ ['\n']))))))))))))))))) := by
        rw [List.drop_zero]
        simp
      have hdec : undecodedDecode (('<' :: (natDigits
          (fac * 8 + (severityFor r.level).toNat) ++ ('>' :: ('1' :: (' ' ::
          (fmtRFC3339 r.time ++ (' ' :: (host ++ (' ' :: (appName ++ (' ' ::
          (procID ++ (' ' :: (expectedMsgID r.attrs ++ (' ' :: ((['-'] : List Char) ++
          (' ' :: r.message))))))))))))))))) ++ ['\n']) 0 =
          some (.RFC5424 (('<' :: (natDigits (fac * 8 + (severityFor r.level).toNat) ++
            ('>' :: ('1' :: (' ' :: (fmtRFC3339 r.time ++ (' ' :: (host ++ (' ' ::
            (appName ++ (' ' :: (procID ++ (' ' :: (expectedMsgID r.attrs ++ (' ' ::
            ((['-'] : List Char) ++ (' ' :: r.message))))))))))))))))) ++ ['\n'])
            fac (severityFor r.level).toNat 1
            ⟨r.time.year, r.time.month, r.time.day, r.time.hour, r.time.minute,
              r.time.second, 0, r.time.offsetMin⟩
            host appName procID (expectedMsgID r.attrs) []
            (' ' :: r.message)) := by
        rw [undecodedDecode_5424 _ 0 (fac * 8 + (severityFor r.level).toNat) _ hdrop]
        rw [hpdiv, hpmod]
        rw [decodeRFC5424P_spec _ fac ((severityFor r.level).toNat) r.time host
          appName procID (expectedMsgID r.attrs) ['-'] r.message ['\n'] []
          hy hm1 hm2 hd1 hdm hh hmi hs hoff hhost happ hpid hmsgidcl hsdspec hmsg
          (Or.inl rfl)]
      have hnl : '\n' ∉ ('<' :: (natDigits (fac * 8 + (severityFor r.level).toNat) ++
          ('>' :: ('1' :: (' ' :: (fmtRFC3339 r.time ++ (' ' :: (host ++ (' ' ::
          (appName ++ (' ' :: (procID ++ (' ' :: (expectedMsgID r.attrs ++ (' ' ::
          ((['-'] : List Char) ++ (' ' :: r.message))))))))))))))))) := by
        intro hm
        rcases List.mem_cons.mp hm with h | h
        · exact absurd h (by decide)
        rcases List.mem_append.mp h with h | h
        · exact natDigits_no_nl _ h
        rcases List.mem_cons.mp h with h | h
        · exact absurd h (by decide)
        rcases List.mem_cons.mp h with h | h
        · exact absurd h (by decide)
        rcases List.mem_cons.mp h with h | h
        · exact absurd h (by decide)
        rcases List.mem_append.mp h with h | h
        · exact (fmtRFC3339_clean r.time _ h) (Or.inr rfl)
        rcases List.mem_cons.mp h with h | h
        · exact absurd h (by decide)
        rcases List.mem_append.mp h with h | h
        · exact (hhost _ h) (Or.inr rfl)
        rcases List.mem_cons.mp h with h | h
        · exact absurd h (by decide)
        rcases List.mem_append.mp h with h | h
        · exact (happ _ h) (Or.inr rfl)
        rcases List.mem_cons.mp h with h | h
        · exact absurd h (by decide)
        rcases List.mem_append.mp h with h | h
        · exact (hpid _ h) (Or.inr rfl)
        rcases List.mem_cons.mp h with h | h
        · exact absurd h (by decide)
        rcases List.mem_append.mp h with h | h
        · exact (hmsgidcl _ h) (Or.inr rfl)
        rcases List.mem_cons.mp h with h | h
        · exact absurd h (by decide)
        rcases List.mem_append.mp h with h | h
        · exact absurd h (by decide)
        rcases List.mem_cons.mp h with h | h
        · exact absurd h (by decide)
        · exact hmsg h
      rw [show c1Expected SyslogEncodingRFC5424 fac host appName procID r
          (('<' :: (natDigits (fac * 8 + (severityFor r.level).toNat) ++ ('>' :: ('1' ::
          (' ' :: (fmtRFC3339 r.time ++ (' ' :: (host ++ (' ' :: (appName ++ (' ' ::
          (procID ++ (' ' :: (expectedMsgID r.attrs ++ (' ' :: ((['-'] : List Char) ++
          (' ' :: r.message))))))))))))))))) ++ ['\n']) =
        .RFC5424 (('<' :: (natDigits (fac * 8 + (severityFor r.level).toNat) ++
          ('>' :: ('1' :: (' ' :: (fmtRFC3339 r.time ++ (' ' :: (host ++ (' ' ::
          (appName ++ (' ' :: (procID ++ (' ' :: (expectedMsgID r.attrs ++ (' ' ::
          ((['-'] : List Char) ++ (' ' :: r.message))))))))))))))))) ++ ['\n'])
          fac (severityFor r.level).toNat 1
          ⟨r.time.year, r.time.month, r.time.day, r.time.hour, r.time.minute,
            r.time.second, 0, r.time.offsetMin⟩
          host appName procID (expectedMsgID r.attrs) []
          (' ' :: r.message) from by
        unfold c1Expected
        rw [if_neg (by decide), hexpSD]]
      have hdec2 := hdec
      rw [← List.cons_append] at hdec2
      exact decode_implicit_run _ _ hnl hdec2

theorem decode_octet_wire (body : List Char) (MSGf : List Char → SyslogMessage)
    (hlim : body.length ≤ syslogDecodeLimit)
    (hpos : 1 ≤ body.length)
    (hdec : undecodedDecode ((natDigits body.length) ++ (' ' :: body))
      ((natDigits body.length).length + 1) =
      some (MSGf ((natDigits body.length) ++ (' ' :: body)))) :
    (SyslogDecoder.empty.Feed ((natDigits body.length) ++ (' ' :: body))).Decode =
      some ([MSGf ((natDigits body.length) ++ (' ' :: body))],
        ⟨[], .Framing, [], 0, 0⟩) := by
  obtain ⟨c, cs, hcs, hfd⟩ := natDigits_frameStart body.length hpos
  have hds : ∀ x ∈ cs, (digitVal x).isSome := by
    intro x hx
    exact natDigits_all_digits body.length x (hcs ▸ List.mem_cons_of_mem c hx)
  have hL : digitsVal 0 (c :: cs) = body.length := by
    rw [← hcs]
    exact digitsVal_natDigits body.length
  rw [hcs] at hdec ⊢
  rw [show (c :: cs : List Char).length + 1 = cs.length + 2 from by simp] at hdec
  exact decode_octet_run c cs body body.length (MSGf ((c :: cs) ++ (' ' :: body)))
    hfd hds hL hlim rfl hpos hdec

theorem c1_rfc5424_octet (fac : Nat) (host appName procID : List Char) (r : Record)
    (hy : r.time.year ≤ 9999) (hm1 : 1 ≤ r.time.month) (hm2 : r.time.month ≤ 12)
    (hd1 : 1 ≤ r.time.day) (hdm : r.time.day ≤ daysInMonth r.time.year r.time.month)
    (hh : r.time.hour ≤ 23) (hmi : r.time.minute ≤ 59) (hs : r.time.second ≤ 59)
    (hoff : r.time.offsetMin.natAbs ≤ 1439)
    (hhost : ∀ c ∈ host, ¬(c = ' ' ∨ c = '\n'))
    (happ : ∀ c ∈ appName, ¬(c = ' ' ∨ c = '\n'))
    (hpid : ∀ c ∈ procID, ¬(c = ' ' ∨ c = '\n'))
    (hkeys : ∀ a ∈ r.attrs, '=' ∉ a.1 ∧ '\n' ∉ a.1)
    (hvals : ∀ a ∈ r.attrs, ∀ c ∈ a.2, printable c)
    (hsys : ∀ a ∈ r.attrs, a.1 = SyslogKey → ∀ c ∈ a.2, ¬(c = ' ' ∨ c = '\n'))
    (hmsg : '\n' ∉ r.message)
    (hlen : (c1Body SyslogEncodingRFC5424F fac host appName procID r).length ≤
      syslogDecodeLimit) :
    ∃ wire,
      (c1Handler SyslogEncodingRFC5424F fac host appName procID).Handle r = some wire ∧
      (SyslogDecoder.empty.Feed wire).Decode =
        some ([c1Expected SyslogEncodingRFC5424F fac host appName procID r wire],
          ⟨[], .Framing, [], 0, 0⟩) := by
  have hn3164 : ¬((c1Handler SyslogEncodingRFC5424F fac host appName procID).encoding =
      SyslogEncodingRFC3164 ∨
      (c1Handler SyslogEncodingRFC5424F fac host appName procID).encoding =
      SyslogEncodingRFC3164F) := by
    rw [show (c1Handler SyslogEncodingRFC5424F fac host appName procID).encoding =
      SyslogEncodingRFC5424F from rfl]
    decide
  have hbody := encodeRFC5424_shape
    (c1Handler SyslogEncodingRFC5424F fac host appName procID) r rfl hn3164
  have hbodyB : c1Body SyslogEncodingRFC5424F fac host appName procID r =
      '<' :: (intRepr ((c1Handler SyslogEncodingRFC5424F fac host appName
        procID).priValue r.level) ++ ('>' :: ('1' :: (' ' ::
        (fmtRFC3339 r.time ++ ((c1Handler SyslogEncodingRFC5424F fac host appName
          procID).header ++ (msgIDBytes (c1Handler SyslogEncodingRFC5424F fac host
          appName procID) r ++ (sdBlock r.attrs ++ r.message)))))))) := by
    unfold c1Body
    rw [show (c1Handler SyslogEncodingRFC5424F fac host appName procID).encodeKind =
      EncodeKind.rfc5424 from rfl]
    dsimp only
    rw [hbody]
  have hlenB := hlen
  rw [hbodyB] at hlenB
  have hHandle : (c1Handler SyslogEncodingRFC5424F fac host appName procID).Handle r =
      some (natDigits (c1Body SyslogEncodingRFC5424F fac host appName procID
          r).length ++
        (' ' :: c1Body SyslogEncodingRFC5424F fac host appName procID r)) := by
    unfold SyslogHandler.Handle
    rw [show (c1Handler SyslogEncodingRFC5424F fac host appName procID).encodeKind =
      EncodeKind.rfc5424 from rfl]
    dsimp only
    rw [show (decide ((c1Handler SyslogEncodingRFC5424F fac host appName
      procID).encoding ≠ SyslogEncodingRFC3164F ∧
      (c1Handler SyslogEncodingRFC5424F fac host appName procID).encoding
      ≠ SyslogEncodingRFC5424F) : Bool) = false from rfl]
    unfold messageBuilder.write
    rw [if_neg (by decide)]
    rw [if_neg (by
      have h5 : (natDigits ((c1Handler SyslogEncodingRFC5424F fac host appName
          procID).encodeRFC5424 ⟨[], []⟩ r).buffer.length).length ≤ 5 := by
        apply natDigits_length_le 5 _ (by omega)
        have := hlen
        unfold c1Body at this
        rw [show (c1Handler SyslogEncodingRFC5424F fac host appName
          procID).encodeKind = EncodeKind.rfc5424 from rfl] at this
        dsimp only at this
        unfold syslogDecodeLimit at this
        omega
      omega)]
    unfold c1Body
    rw [show (c1Handler SyslogEncodingRFC5424F fac host appName procID).encodeKind =
      EncodeKind.rfc5424 from rfl]
    dsimp only
    rw [show (natDigits ((c1Handler SyslogEncodingRFC5424F fac host appName
        procID).encodeRFC5424 ⟨[], []⟩ r).buffer.length) ++ [' '] ++
      ((c1Handler SyslogEncodingRFC5424F fac host appName procID).encodeRFC5424
        ⟨[], []⟩ r).buffer =
      (natDigits ((c1Handler SyslogEncodingRFC5424F fac host appName
        procID).encodeRFC5424 ⟨[], []⟩ r).buffer.length) ++
      (' ' :: ((c1Handler SyslogEncodingRFC5424F fac host appName procID).encodeRFC5424
        ⟨[], []⟩ r).buffer) from by simp]
  have hpos : 1 ≤ (c1Body SyslogEncodingRFC5424F fac host appName procID r).length := by
    rw [hbodyB]
    simp
  refine ⟨natDigits (c1Body SyslogEncodingRFC5424F fac host appName procID r).length ++
    (' ' :: c1Body SyslogEncodingRFC5424F fac host appName procID r), hHandle, ?_⟩
  rw [show c1Expected SyslogEncodingRFC5424F fac host appName procID r
      (natDigits (c1Body SyslogEncodingRFC5424F fac host appName procID r).length ++
        (' ' :: c1Body SyslogEncodingRFC5424F fac host appName procID r)) =
    (fun raw => (SyslogMessage.RFC5424 raw
      fac (severityFor r.level).toNat 1
      ⟨r.time.year, r.time.month, r.time.day, r.time.hour, r.time.minute,
        r.time.second, 0, r.time.offsetMin⟩
      host appName procID (expectedMsgID r.attrs) (expectedSD r.attrs)
      (' ' :: r.message)))
      (natDigits (c1Body SyslogEncodingRFC5424F fac host appName procID r).length ++
        (' ' :: c1Body SyslogEncodingRFC5424F fac host appName procID r)) from by
    unfold c1Expected
    rw [if_neg (by decide)]]
  apply decode_octet_wire (c1Body SyslogEncodingRFC5424F fac host appName procID r)
    (fun raw => SyslogMessage.RFC5424 raw fac (severityFor r.level).toNat 1
      ⟨r.time.year, r.time.month, r.time.day, r.time.hour, r.time.minute,
        r.time.second, 0, r.time.offsetMin⟩
      host appName procID (expectedMsgID r.attrs) (expectedSD r.attrs)
      (' ' :: r.message)) hlen hpos
  -- the single-frame grammar obligation
  have hprival : (c1Handler SyslogEncodingRFC5424F fac host appName procID).priValue
      r.level = (fac : Int) * 8 + severityFor r.level := rfl
  obtain ⟨hpriN, hpdiv, hpmod⟩ := intRepr_pri fac r.level
  have hheader : (c1Handler SyslogEncodingRFC5424F fac host appName procID).header =
      ' ' :: host ++ [' '] ++ appName ++ [' '] ++ procID ++ [' '] := rfl
  have hmsgid : msgIDBytes (c1Handler SyslogEncodingRFC5424F fac host appName
      procID) r = expectedMsgID r.attrs := rfl
  have hmsgidcl := expectedMsgID_clean r.attrs hsys
  by_cases hex : ∃ a ∈ r.attrs, a.1 ≠ SyslogKey
  · have hFne : r.attrs.filter (fun a => decide (a.1 ≠ SyslogKey)) ≠ [] := by
      obtain ⟨a, ha, hne⟩ := hex
      exact List.ne_nil_of_mem (List.mem_filter.mpr ⟨ha, by simpa using hne⟩)
    obtain ⟨aa, as, hF⟩ := List.exists_cons_of_ne_nil hFne
    have htags : sdTags r.attrs = (aa :: as).flatMap attrTagBytes := by
      unfold sdTags
      rw [hF]
    have hsdb : sdBlock r.attrs =
        " [Attrs@1".data ++ sdTags r.attrs ++ "] ".data := by
      unfold sdBlock
      rw [if_pos hex]
    have hclF : ∀ x ∈ aa :: as, '=' ∉ x.1 ∧ ∀ c ∈ x.2, printable c := by
      intro x hx
      have hxf : x ∈ r.attrs.filter (fun a => decide (a.1 ≠ SyslogKey)) := hF ▸ hx
      have hxa := (List.mem_filter.mp hxf).1
      exact ⟨(hkeys x hxa).1, hvals x hxa⟩
    have hsdspec : decodeSDP (('[' :: ("Attrs@1".data ++
        ((aa :: as).flatMap attrTagBytes ++ [']']))) ++
        (' ' :: (r.message ++ []))) =
        some (' ' :: (r.message ++ []),
          [⟨"Attrs@1".data, (aa :: as).map fun x => ⟨x.1, x.2⟩⟩]) := by
      rw [show ('[' :: ("Attrs@1".data ++ ((aa :: as).flatMap attrTagBytes ++ [']']))) ++
          (' ' :: (r.message ++ [])) =
        '[' :: ("Attrs@1".data ++ ((aa :: as).flatMap attrTagBytes ++
          (']' :: (' ' :: (r.message ++ []))))) from by simp]
      exact decodeSDP_attrs aa as (' ' :: (r.message ++ [])) hclF (by simp)
    have hexpSD : expectedSD r.attrs =
        [⟨"Attrs@1".data, (aa :: as).map fun x => ⟨x.1, x.2⟩⟩] := by
      unfold expectedSD
      rw [if_pos hex, hF]
    have hdrop : ((natDigits (c1Body SyslogEncodingRFC5424F fac host appName procID
        r).length ++ (' ' :: c1Body SyslogEncodingRFC5424F fac host appName procID
        r)).drop ((natDigits (c1Body SyslogEncodingRFC5424F fac host appName procID
        r).length).length + 1)) =
        '<' :: (natDigits (fac * 8 + (severityFor r.level).toNat) ++ ('>' :: ('1' ::
        (' ' :: (fmtRFC3339 r.time ++ (' ' :: (host ++ (' ' :: (appName ++ (' ' ::
        (procID ++ (' ' :: (expectedMsgID r.attrs ++ (' ' :: (('[' ::
        ("Attrs@1".data ++ ((aa :: as).flatMap attrTagBytes ++ [']']))) ++ (' ' ::
        (r.message ++ []))))))))))))))))) := by
      rw [show natDigits (c1Body SyslogEncodingRFC5424F fac host appName procID
          r).length ++ (' ' :: c1Body SyslogEncodingRFC5424F fac host appName procID
          r) =
        (natDigits (c1Body SyslogEncodingRFC5424F fac host appName procID
          r).length ++ [' ']) ++ c1Body SyslogEncodingRFC5424F fac host appName
          procID r from by simp]
      rw [List.drop_left' (by simp)]
      rw [hbodyB, hprival, hpriN, hheader, hmsgid, hsdb, htags]
      rw [show " [Attrs@1".data = ' ' :: ('[' :: "Attrs@1".data) from rfl]
      rw [show "] ".data = ([']', ' '] : List Char) from rfl]
      simp
    rw [hexpSD]
    dsimp only
    rw [undecodedDecode_5424 _ _ (fac * 8 + (severityFor r.level).toNat) _ hdrop]
    rw [hpdiv, hpmod]
    rw [decodeRFC5424P_spec _ fac ((severityFor r.level).toNat) r.time host
      appName procID (expectedMsgID r.attrs)
      ('[' :: ("Attrs@1".data ++ ((aa :: as).flatMap attrTagBytes ++ [']'])))
      r.message [] [⟨"Attrs@1".data, (aa :: as).map fun x => ⟨x.1, x.2⟩⟩]
      hy hm1 hm2 hd1 hdm hh hmi hs hoff hhost happ hpid hmsgidcl hsdspec hmsg
      (Or.inr rfl)]
  · have hsdb : sdBlock r.attrs = " - ".data := by
      unfold sdBlock
      rw [if_neg hex]
    have hsdspec : decodeSDP ((['-'] : List Char) ++ (' ' :: (r.message ++ []))) =
        some (' ' :: (r.message ++ []), []) := by
      rw [show (['-'] : List Char) ++ (' ' :: (r.message ++ [])) =
        '-' :: (' ' :: (r.message ++ [])) from rfl]
      exact decodeSDP_dash _
    have hexpSD : expectedSD r.attrs = [] := by
      unfold expectedSD
      rw [if_neg hex]
    have hdrop : ((natDigits (c1Body SyslogEncodingRFC5424F fac host appName procID
        r).length ++ (' ' :: c1Body SyslogEncodingRFC5424F fac host appName procID
        r)).drop ((natDigits (c1Body SyslogEncodingRFC5424F fac host appName procID
        r).length).length + 1)) =
        '<' :: (natDigits (fac * 8 + (severityFor r.level).toNat) ++ ('>' :: ('1' ::
        (' ' :: (fmtRFC3339 r.time ++ (' ' :: (host ++ (' ' :: (appName ++ (' ' ::
        (procID ++ (' ' :: (expectedMsgID r.attrs ++ (' ' :: ((['-'] : List Char) ++
        (' ' :: (r.message ++ []))))))))))))))))) := by
      rw [show natDigits (c1Body SyslogEncodingRFC5424F fac host appName procID
          r).length ++ (' ' :: c1Body SyslogEncodingRFC5424F fac host appName procID
          r) =
        (natDigits (c1Body SyslogEncodingRFC5424F fac host appName procID
          r).length ++ [' ']) ++ c1Body SyslogEncodingRFC5424F fac host appName
          procID r from by simp]
      rw [List.drop_left' (by simp)]
      rw [hbodyB, hprival, hpriN, hheader, hmsgid, hsdb]
      rw [show " - ".data = ([' ', '-', ' '] : List Char) from rfl]
      simp
    rw [hexpSD]
    rw [undecodedDecode_5424 _ _ (fac * 8 + (severityFor r.level).toNat) _ hdrop]
    rw [hpdiv, hpmod]
    rw [decodeRFC5424P_spec _ fac ((severityFor r.level).toNat) r.time host
      appName procID (expectedMsgID r.attrs) ['-'] r.message [] []
      hy hm1 hm2 hd1 hdm hh hmi hs hoff hhost happ hpid hmsgidcl hsdspec hmsg
      (Or.inr rfl)]

theorem undecodedDecode_3164v (raw : List Char) (off : Nat) (pri : Nat)
    (bd : List Char) (c : Char) (cs : List Char)
    (hbd : bd = c :: cs)
    (hdrop : raw.drop off = '<' :: (natDigits pri ++ ('>' :: bd)))
    (hc : c = 'J' ∨ c = 'F' ∨ c = 'M' ∨ c = 'A' ∨ c = 'S' ∨ c = 'O' ∨
      c = 'N' ∨ c = 'D') :
    undecodedDecode raw off =
      some (decodeRFC3164P raw bd (pri / 8) (pri % 8)) := by
  subst hbd
  exact undecodedDecode_3164 raw off pri c cs hdrop hc

theorem monthName_no_nl (m : Nat) : '\n' ∉ monthName m := by
  unfold monthName
  split <;> decide

theorem pad2_no_nl (x : Nat) : '\n' ∉ pad2 x := by
  unfold pad2
  intro hm
  rcases List.mem_cons.mp hm with h | h
  · exact (digitChar_ne_special _).2.1 h.symm
  rcases List.mem_cons.mp h with h | h
  · exact (digitChar_ne_special _).2.1 h.symm
  · simp at h

theorem padSpace2_no_nl (x : Nat) : '\n' ∉ padSpace2 x := by
  unfold padSpace2
  split_ifs
  · intro hm
    rcases List.mem_cons.mp hm with h | h
    · exact absurd h (by decide)
    rcases List.mem_cons.mp h with h | h
    · exact (digitChar_ne_special _).2.1 h.symm
    · simp at h
  · exact pad2_no_nl x

theorem fmtStamp_no_nl (t : DateTime) : '\n' ∉ fmtStamp t := by
  unfold fmtStamp
  intro hm
  rcases List.mem_append.mp hm with h | h
  · rcases List.mem_append.mp h with h | h
    · rcases List.mem_append.mp h with h | h
      · rcases List.mem_append.mp h with h | h
        · rcases List.mem_append.mp h with h | h
          · rcases List.mem_append.mp h with h | h
            · rcases List.mem_append.mp h with h | h
              · rcases List.mem_append.mp h with h | h
                · exact monthName_no_nl t.month h
                · simp at h
              · exact padSpace2_no_nl t.day h
            · simp at h
          · exact pad2_no_nl t.hour h
        · simp at h
      · exact pad2_no_nl t.minute h
    · simp at h
  · exact pad2_no_nl t.second h

theorem c1_rfc3164_implicit (fac : Nat) (host appName procID : List Char) (r : Record)
    (hm1 : 1 ≤ r.time.month) (hm2 : r.time.month ≤ 12)
    (hd1 : 1 ≤ r.time.day) (hdm : r.time.day ≤ daysInMonth r.time.year r.time.month)
    (hh : r.time.hour ≤ 23) (hmi : r.time.minute ≤ 59) (hs : r.time.second ≤ 59)
    (hhost : ∀ c ∈ host, ¬(c = ' ' ∨ c = '\n'))
    (happ : ∀ c ∈ appName, ¬(c = ' ' ∨ c = '\n'))
    (hpid : ∀ c ∈ procID, ¬(c = ' ' ∨ c = '\n'))
    (hkeys : ∀ a ∈ r.attrs, '=' ∉ a.1 ∧ '\n' ∉ a.1)
    (hvals : ∀ a ∈ r.attrs, ∀ c ∈ a.2, printable c)
    (hmsg : '\n' ∉ r.message) :
    ∃ wire,
      (c1Handler SyslogEncodingRFC3164 fac host appName procID).Handle r = some wire ∧
      (SyslogDecoder.empty.Feed wire).Decode =
        some ([c1Expected SyslogEncodingRFC3164 fac host appName procID r wire],
          ⟨[], .Framing, [], 0, 0⟩) := by
  have hdm0 : r.time.day ≤ daysInMonth 0 r.time.month :=
    le_trans hdm (daysInMonth_le_year0 _ _)
  have h3164 : (c1Handler SyslogEncodingRFC3164 fac host appName procID).encoding =
      SyslogEncodingRFC3164 ∨
      (c1Handler SyslogEncodingRFC3164 fac host appName procID).encoding =
      SyslogEncodingRFC3164F := Or.inl rfl
  have hbody := encodeRFC3164_shape
    (c1Handler SyslogEncodingRFC3164 fac host appName procID) r rfl h3164
  have hprival : (c1Handler SyslogEncodingRFC3164 fac host appName procID).priValue
      r.level = (fac : Int) * 8 + severityFor r.level := rfl
  obtain ⟨hpriN, hpdiv, hpmod⟩ := intRepr_pri fac r.level
  have hheader : (c1Handler SyslogEncodingRFC3164 fac host appName procID).header =
      ' ' :: host ++ [' '] ++ appName ++ ['['] ++ procID ++ [']', ':', ' '] := rfl
  have hcnl : '\n' ∉ r.message ++ sdTags r.attrs := by
    intro hm
    rcases List.mem_append.mp hm with h | h
    · exact hmsg h
    · exact sdTags_clean r.attrs (fun a ha => (hkeys a ha).2) hvals h
  have htagcl := tag_clean appName procID happ hpid
  have hHandle : (c1Handler SyslogEncodingRFC3164 fac host appName procID).Handle r =
      some (((c1Handler SyslogEncodingRFC3164 fac host appName procID).encodeRFC3164
        ⟨[], []⟩ r).buffer ++ ['\n']) := by
    unfold SyslogHandler.Handle
    rw [show (c1Handler SyslogEncodingRFC3164 fac host appName procID).encodeKind =
      EncodeKind.rfc3164 from rfl]
    dsimp only
    rw [show (decide ((c1Handler SyslogEncodingRFC3164 fac host appName
      procID).encoding ≠ SyslogEncodingRFC3164F ∧
      (c1Handler SyslogEncodingRFC3164 fac host appName procID).encoding
      ≠ SyslogEncodingRFC5424F) : Bool) = true from rfl]
    unfold messageBuilder.write
    rw [if_pos rfl]
  rw [hbody] at hHandle
  dsimp only at hHandle
  obtain ⟨mc, mcs, hmon, hmc⟩ := monthName_head r.time.month hm1 hm2
  refine ⟨('<' :: (natDigits (fac * 8 + (severityFor r.level).toNat) ++ ('>' ::
    (fmtStamp r.time ++ (' ' :: (host ++ (' ' :: ((appName ++ ('[' :: (procID ++
    [']', ':']))) ++ (' ' :: (r.message ++ sdTags r.attrs)))))))))) ++ ['\n'],
    ?_, ?_⟩
  · rw [hHandle]
    rw [hprival, hpriN, hheader]
    simp
  · have hdrop : ((('<' :: (natDigits (fac * 8 + (severityFor r.level).toNat) ++
        ('>' :: (fmtStamp r.time ++ (' ' :: (host ++ (' ' :: ((appName ++ ('[' ::
        (procID ++ [']', ':']))) ++ (' ' :: (r.message ++
        sdTags r.attrs)))))))))) ++ ['\n']).drop 0) =
        '<' :: (natDigits (fac * 8 + (severityFor r.level).toNat) ++ ('>' ::
        (fmtStamp r.time ++ (' ' :: (host ++ (' ' :: ((appName ++ ('[' :: (procID ++
        [']', ':']))) ++ (' ' :: ((r.message ++ sdTags r.attrs) ++ ['\n']))))))))) := by
      rw [List.drop_zero]
      simp
    have hfs : ∃ cs', fmtStamp r.time = mc :: cs' := by
      unfold fmtStamp
      rw [hmon]
      simp only [List.cons_append]
      exact ⟨_, rfl⟩
    obtain ⟨fcs, hfs⟩ := hfs
    have hbd : fmtStamp r.time ++ (' ' :: (host ++ (' ' :: ((appName ++ ('[' ::
        (procID ++ [']', ':']))) ++ (' ' :: ((r.message ++ sdTags r.attrs) ++
        ['\n'])))))) =
        mc :: (fcs ++ (' ' :: (host ++ (' ' :: ((appName ++ ('[' :: (procID ++
        [']', ':']))) ++ (' ' :: ((r.message ++ sdTags r.attrs) ++ ['\n']))))))) := by
      rw [hfs]
      rfl
    have hdec : undecodedDecode (('<' :: (natDigits
        (fac * 8 + (severityFor r.level).toNat) ++ ('>' :: (fmtStamp r.time ++
        (' ' :: (host ++ (' ' :: ((appName ++ ('[' :: (procID ++ [']', ':']))) ++
        (' ' :: (r.message ++ sdTags r.attrs)))))))))) ++ ['\n']) 0 =
        some (.RFC3164 (('<' :: (natDigits (fac * 8 + (severityFor r.level).toNat) ++
          ('>' :: (fmtStamp r.time ++ (' ' :: (host ++ (' ' :: ((appName ++ ('[' ::
          (procID ++ [']', ':']))) ++ (' ' :: (r.message ++
          sdTags r.attrs)))))))))) ++ ['\n'])
          fac ((severityFor r.level).toNat)
          ⟨0, r.time.month, r.time.day, r.time.hour, r.time.minute,
            r.time.second, 0, 0⟩
          host (appName ++ ('[' :: (procID ++ [']', ':'])))
          (r.message ++ sdTags r.attrs)) := by
      rw [undecodedDecode_3164v _ 0 (fac * 8 + (severityFor r.level).toNat) _ mc
        (fcs ++ (' ' :: (host ++ (' ' :: ((appName ++ ('[' :: (procID ++
        [']', ':']))) ++ (' ' :: ((r.message ++ sdTags r.attrs) ++ ['\n'])))))))
        hbd hdrop hmc]
      rw [hpdiv, hpmod]
      rw [decodeRFC3164P_spec _ fac ((severityFor r.level).toNat) r.time host
        (appName ++ ('[' :: (procID ++ [']', ':']))) (r.message ++ sdTags r.attrs)
        ['\n'] hm1 hm2 hd1 hdm0 hh hmi hs hhost htagcl hcnl (Or.inl rfl)]
    have hnl : '\n' ∉ ('<' :: (natDigits (fac * 8 + (severityFor r.level).toNat) ++
        ('>' :: (fmtStamp r.time ++ (' ' :: (host ++ (' ' :: ((appName ++ ('[' ::
        (procID ++ [']', ':']))) ++ (' ' :: (r.message ++
        sdTags r.attrs)))))))))) := by
      intro hm
      rcases List.mem_cons.mp hm with h | h
      · exact absurd h (by decide)
      rcases List.mem_append.mp h with h | h
      · exact natDigits_no_nl _ h
      rcases List.mem_cons.mp h with h | h
      · exact absurd h (by decide)
      rcases List.mem_append.mp h with h | h
      · exact fmtStamp_no_nl r.time h
      rcases List.mem_cons.mp h with h | h
      · exact absurd h (by decide)
      rcases List.mem_append.mp h with h | h
      · exact (hhost _ h) (Or.inr rfl)
      rcases List.mem_cons.mp h with h | h
      · exact absurd h (by decide)
      rcases List.mem_append.mp h with h | h
      · exact (htagcl _ h) (Or.inr rfl)
      rcases List.mem_cons.mp h with h | h
      · exact absurd h (by decide)
      · exact hcnl h
    rw [show c1Expected SyslogEncodingRFC3164 fac host appName procID r
        (('<' :: (natDigits (fac * 8 + (severityFor r.level).toNat) ++ ('>' ::
        (fmtStamp r.time ++ (' ' :: (host ++ (' ' :: ((appName ++ ('[' :: (procID ++
        [']', ':']))) ++ (' ' :: (r.message ++
        sdTags r.attrs)))))))))) ++ ['\n']) =
      .RFC3164 (('<' :: (natDigits (fac * 8 + (severityFor r.level).toNat) ++
        ('>' :: (fmtStamp r.time ++ (' ' :: (host ++ (' ' :: ((appName ++ ('[' ::
        (procID ++ [']', ':']))) ++ (' ' :: (r.message ++
        sdTags r.attrs)))))))))) ++ ['\n'])
        fac ((severityFor r.level).toNat)
        ⟨0, r.time.month, r.time.day, r.time.hour, r.time.minute,
          r.time.second, 0, 0⟩
        host (appName ++ ('[' :: (procID ++ [']', ':'])))
        (r.message ++ sdTags r.attrs) from by
      unfold c1Expected
      rw [if_pos (Or.inl rfl)]]
    have hdec2 := hdec
    rw [← List.cons_append] at hdec2
    exact decode_implicit_run _ _ hnl hdec2

theorem c1_rfc3164_octet (fac : Nat) (host appName procID : List Char) (r : Record)
    (hm1 : 1 ≤ r.time.month) (hm2 : r.time.month ≤ 12)
    (hd1 : 1 ≤ r.time.day) (hdm : r.time.day ≤ daysInMonth r.time.year r.time.month)
    (hh : r.time.hour ≤ 23) (hmi : r.time.minute ≤ 59) (hs : r.time.second ≤ 59)
    (hhost : ∀ c ∈ host, ¬(c = ' ' ∨ c = '\n'))
    (happ : ∀ c ∈ appName, ¬(c = ' ' ∨ c = '\n'))
    (hpid : ∀ c ∈ procID, ¬(c = ' ' ∨ c = '\n'))
    (hkeys : ∀ a ∈ r.attrs, '=' ∉ a.1 ∧ '\n' ∉ a.1)
    (hvals : ∀ a ∈ r.attrs, ∀ c ∈ a.2, printable c)
    (hmsg : '\n' ∉ r.message)
    (hmne : r.message ≠ [])
    (hlen : (c1Body SyslogEncodingRFC3164F fac host appName procID r).length ≤
      syslogDecodeLimit) :
    ∃ wire,
      (c1Handler SyslogEncodingRFC3164F fac host appName procID).Handle r = some wire ∧
      (SyslogDecoder.empty.Feed wire).Decode =
        some ([c1Expected SyslogEncodingRFC3164F fac host appName procID r wire],
          ⟨[], .Framing, [], 0, 0⟩) := by
  have hdm0 : r.time.day ≤ daysInMonth 0 r.time.month :=
    le_trans hdm (daysInMonth_le_year0 _ _)
  have h3164 : (c1Handler SyslogEncodingRFC3164F fac host appName procID).encoding =
      SyslogEncodingRFC3164 ∨
      (c1Handler SyslogEncodingRFC3164F fac host appName procID).encoding =
      SyslogEncodingRFC3164F := Or.inr rfl
  have hbody := encodeRFC3164_shape
    (c1Handler SyslogEncodingRFC3164F fac host appName procID) r rfl h3164
  have hbodyB : c1Body SyslogEncodingRFC3164F fac host appName procID r =
      '<' :: (intRepr ((c1Handler SyslogEncodingRFC3164F fac host appName
        procID).priValue r.level) ++ ('>' :: (fmtStamp r.time ++
        ((c1Handler SyslogEncodingRFC3164F fac host appName procID).header ++
          (r.message ++ sdTags r.attrs))))) := by
    unfold c1Body
    rw [show (c1Handler SyslogEncodingRFC3164F fac host appName procID).encodeKind =
      EncodeKind.rfc3164 from rfl]
    dsimp only
    rw [hbody]
  have hHandle : (c1Handler SyslogEncodingRFC3164F fac host appName procID).Handle r =
      some (natDigits (c1Body SyslogEncodingRFC3164F fac host appName procID
          r).length ++
        (' ' :: c1Body SyslogEncodingRFC3164F fac host appName procID r)) := by
    unfold SyslogHandler.Handle
    rw [show (c1Handler SyslogEncodingRFC3164F fac host appName procID).encodeKind =
      EncodeKind.rfc3164 from rfl]
    dsimp only
    rw [show (decide ((c1Handler SyslogEncodingRFC3164F fac host appName
      procID).encoding ≠ SyslogEncodingRFC3164F ∧
      (c1Handler SyslogEncodingRFC3164F fac host appName procID).encoding
      ≠ SyslogEncodingRFC5424F) : Bool) = false from rfl]
    unfold messageBuilder.write
    rw [if_neg (by decide)]
    rw [if_neg (by
      have h5 : (natDigits ((c1Handler SyslogEncodingRFC3164F fac host appName
          procID).encodeRFC3164 ⟨[], []⟩ r).buffer.length).length ≤ 5 := by
        apply natDigits_length_le 5 _ (by omega)
        have := hlen
        unfold c1Body at this
        rw [show (c1Handler SyslogEncodingRFC3164F fac host appName
          procID).encodeKind = EncodeKind.rfc3164 from rfl] at this
        dsimp only at this
        unfold syslogDecodeLimit at this
        omega
      omega)]
    unfold c1Body
    rw [show (c1Handler SyslogEncodingRFC3164F fac host appName procID).encodeKind =
      EncodeKind.rfc3164 from rfl]
    dsimp only
    rw [show (natDigits ((c1Handler SyslogEncodingRFC3164F fac host appName
        procID).encodeRFC3164 ⟨[], []⟩ r).buffer.length) ++ [' '] ++
      ((c1Handler SyslogEncodingRFC3164F fac host appName procID).encodeRFC3164
        ⟨[], []⟩ r).buffer =
      (natDigits ((c1Handler SyslogEncodingRFC3164F fac host appName
        procID).encodeRFC3164 ⟨[], []⟩ r).buffer.length) ++
      (' ' :: ((c1Handler SyslogEncodingRFC3164F fac host appName procID).encodeRFC3164
        ⟨[], []⟩ r).buffer) from by simp]
  have hpos : 1 ≤ (c1Body SyslogEncodingRFC3164F fac host appName procID r).length := by
    rw [hbodyB]
    simp
  refine ⟨natDigits (c1Body SyslogEncodingRFC3164F fac host appName procID r).length ++
    (' ' :: c1Body SyslogEncodingRFC3164F fac host appName procID r), hHandle, ?_⟩
  rw [show c1Expected SyslogEncodingRFC3164F fac host appName procID r
      (natDigits (c1Body SyslogEncodingRFC3164F fac host appName procID r).length ++
        (' ' :: c1Body SyslogEncodingRFC3164F fac host appName procID r)) =
    (fun raw => (SyslogMessage.RFC3164 raw
      fac (severityFor r.level).toNat
      ⟨0, r.time.month, r.time.day, r.time.hour, r.time.minute, r.time.second, 0, 0⟩
      host (appName ++ ('[' :: (procID ++ [']', ':'])))
      (r.message ++ sdTags r.attrs)))
      (natDigits (c1Body SyslogEncodingRFC3164F fac host appName procID r).length ++
        (' ' :: c1Body SyslogEncodingRFC3164F fac host appName procID r)) from by
    unfold c1Expected
    rw [if_pos (Or.inr rfl)]]
  apply decode_octet_wire (c1Body SyslogEncodingRFC3164F fac host appName procID r)
    (fun raw => SyslogMessage.RFC3164 raw fac (severityFor r.level).toNat
      ⟨0, r.time.month, r.time.day, r.time.hour, r.time.minute, r.time.second, 0, 0⟩
      host (appName ++ ('[' :: (procID ++ [']', ':'])))
      (r.message ++ sdTags r.attrs)) hlen hpos
  -- the single-frame grammar obligation
  have hprival : (c1Handler SyslogEncodingRFC3164F fac host appName procID).priValue
      r.level = (fac : Int) * 8 + severityFor r.level := rfl
  obtain ⟨hpriN, hpdiv, hpmod⟩ := intRepr_pri fac r.level
  have hheader : (c1Handler SyslogEncodingRFC3164F fac host appName procID).header =
      ' ' :: host ++ [' '] ++ appName ++ ['['] ++ procID ++ [']', ':', ' '] := rfl
  have hcnl : '\n' ∉ r.message ++ sdTags r.attrs := by
    intro hm
    rcases List.mem_append.mp hm with h | h
    · exact hmsg h
    · exact sdTags_clean r.attrs (fun a ha => (hkeys a ha).2) hvals h
  have hcne : r.message ++ sdTags r.attrs ≠ [] := by
    intro hc
    exact hmne (List.append_eq_nil.mp hc).1
  have htagcl := tag_clean appName procID happ hpid
  obtain ⟨mc, mcs, hmon, hmc⟩ := monthName_head r.time.month hm1 hm2
  have hdrop : ((natDigits (c1Body SyslogEncodingRFC3164F fac host appName procID
      r).length ++ (' ' :: c1Body SyslogEncodingRFC3164F fac host appName procID
      r)).drop ((natDigits (c1Body SyslogEncodingRFC3164F fac host appName procID
      r).length).length + 1)) =
      '<' :: (natDigits (fac * 8 + (severityFor r.level).toNat) ++ ('>' ::
      (fmtStamp r.time ++ (' ' :: (host ++ (' ' :: ((appName ++ ('[' :: (procID ++
      [']', ':']))) ++ (' ' :: ((r.message ++ sdTags r.attrs) ++ []))))))))) := by
    rw [show natDigits (c1Body SyslogEncodingRFC3164F fac host appName procID
        r).length ++ (' ' :: c1Body SyslogEncodingRFC3164F fac host appName procID
        r) =
      (natDigits (c1Body SyslogEncodingRFC3164F fac host appName procID
        r).length ++ [' ']) ++ c1Body SyslogEncodingRFC3164F fac host appName
        procID r from by simp]
    rw [List.drop_left' (by simp)]
    rw [hbodyB, hprival, hpriN, hheader]
    simp
  have hfs : ∃ cs', fmtStamp r.time = mc :: cs' := by
    unfold fmtStamp
    rw [hmon]
    simp only [List.cons_append]
    exact ⟨_, rfl⟩
  obtain ⟨fcs, hfs⟩ := hfs
  have hbd : fmtStamp r.time ++ (' ' :: (host ++ (' ' :: ((appName ++ ('[' ::
      (procID ++ [']', ':']))) ++ (' ' :: ((r.message ++ sdTags r.attrs) ++
      [])))))) =
      mc :: (fcs ++ (' ' :: (host ++ (' ' :: ((appName ++ ('[' :: (procID ++
      [']', ':']))) ++ (' ' :: ((r.message ++ sdTags r.attrs) ++ []))))))) := by
    rw [hfs]
    rfl
  rw [undecodedDecode_3164v _ _ (fac * 8 + (severityFor r.level).toNat) _ mc
    (fcs ++ (' ' :: (host ++ (' ' :: ((appName ++ ('[' :: (procID ++
    [']', ':']))) ++ (' ' :: ((r.message ++ sdTags r.attrs) ++ [])))))))
    hbd hdrop hmc]
  rw [hpdiv, hpmod]
  rw [decodeRFC3164P_spec _ fac ((severityFor r.level).toNat) r.time host
    (appName ++ ('[' :: (procID ++ [']', ':']))) (r.message ++ sdTags r.attrs)
    [] hm1 hm2 hd1 hdm0 hh hmi hs hhost htagcl hcnl (Or.inr ⟨rfl, hcne⟩)]

/-- C1: encode/decode round trip, as the code actually behaves. For every
record and each of the four encoding modes, the framed bytes produced by
`SyslogHandler.Handle`, fed into a fresh decoder, yield exactly one message of
the matching variant whose fields are the encoder-side values — with the
caveats that the decoded RFC5424 `Msg` keeps the separator space in front of
the message text, the decoded RFC3164 timestamp carries year 0 and no zone
(the `time.Stamp` layout drops them), and the RFC3164 content is the message
text with the attribute tags appended. The round trip needs the stated
well-formedness side conditions (tokens free of spaces and newlines, attribute
keys without `=`, printable attribute values, in-range timestamp) and, for the
octet-framed modes, a body within the 32767-byte decode limit and a non-empty
message. -/
theorem c1_encode_decode_roundtrip (enc : String)
    (henc : enc = SyslogEncodingRFC3164 ∨ enc = SyslogEncodingRFC3164F ∨
      enc = SyslogEncodingRFC5424 ∨ enc = SyslogEncodingRFC5424F)
    (fac : Nat) (host appName procID : List Char) (r : Record)
    (hy : r.time.year ≤ 9999) (hm1 : 1 ≤ r.time.month) (hm2 : r.time.month ≤ 12)
    (hd1 : 1 ≤ r.time.day) (hdm : r.time.day ≤ daysInMonth r.time.year r.time.month)
    (hh : r.time.hour ≤ 23) (hmi : r.time.minute ≤ 59) (hs : r.time.second ≤ 59)
    (hoff : r.time.offsetMin.natAbs ≤ 1439)
    (hhost : ∀ c ∈ host, ¬(c = ' ' ∨ c = '\n'))
    (happ : ∀ c ∈ appName, ¬(c = ' ' ∨ c = '\n'))
    (hpid : ∀ c ∈ procID, ¬(c = ' ' ∨ c = '\n'))
    (hkeys : ∀ a ∈ r.attrs, '=' ∉ a.1 ∧ '\n' ∉ a.1)
    (hvals : ∀ a ∈ r.attrs, ∀ c ∈ a.2, printable c)
    (hsys : ∀ a ∈ r.attrs, a.1 = SyslogKey → ∀ c ∈ a.2, ¬(c = ' ' ∨ c = '\n'))
    (hmsg : '\n' ∉ r.message)
    (hmne : r.message ≠ [])
    (hlen : (c1Body enc fac host appName procID r).length ≤ syslogDecodeLimit) :
    ∃ wire,
      (c1Handler enc fac host appName procID).Handle r = some wire ∧
      (SyslogDecoder.empty.Feed wire).Decode =
        some ([c1Expected enc fac host appName procID r wire],
          ⟨[], .Framing, [], 0, 0⟩) := by
  rcases henc with rfl | rfl | rfl | rfl
  · exact c1_rfc3164_implicit fac host appName procID r hm1 hm2 hd1 hdm hh hmi hs
      hhost happ hpid hkeys hvals hmsg
  · exact c1_rfc3164_octet fac host appName procID r hm1 hm2 hd1 hdm hh hmi hs
      hhost happ hpid hkeys hvals hmsg hmne hlen
  · exact c1_rfc5424_implicit fac host appName procID r hy hm1 hm2 hd1 hdm hh hmi hs
      hoff hhost happ hpid hkeys hvals hsys hmsg
  · exact c1_rfc5424_octet fac host appName procID r hy hm1 hm2 hd1 hdm hh hmi hs
      hoff hhost happ hpid hkeys hvals hsys hmsg hlen

/-- The concrete RFC5424 frame of the C1 counterexample. -/
def c1cexWire : List Char := "<131>1 2025-10-11T22:14:15Z h a p - - m\n".data

/-- C1 counterexample to the claim as stated: for an error-level record with
message `m` and no attributes, the RFC5424 encoder emits this frame and the
decoder returns a message whose `Msg` field is the two bytes `\x20m` — the
separator space is kept — so the decoded message content is not equal to the
encoded message text. -/
theorem c1_counterexample_msg_keeps_separator :
    (c1Handler SyslogEncodingRFC5424 16 ['h'] ['a'] ['p']).Handle
      ⟨levelError, ⟨2025, 10, 11, 22, 14, 15, 0, 0⟩, ['m'], []⟩ = some c1cexWire ∧
    (SyslogDecoder.empty.Feed c1cexWire).Decode =
      some ([.RFC5424 c1cexWire 16 3 1 ⟨2025, 10, 11, 22, 14, 15, 0, 0⟩
        ['h'] ['a'] ['p'] ['-'] [] [' ', 'm']],
        ⟨[], .Framing, [], 0, 0⟩) ∧
    ([' ', 'm'] : List Char) ≠ ['m'] := by
  refine ⟨by decide, by decide, by decide⟩

/-- Witness: the C1 round trip at a concrete record (RFC5424 encoding,
facility 16, one regular attribute), every hypothesis discharged by
evaluation. -/
theorem c1_encode_decode_roundtrip_witness :
    ∃ wire,
      (c1Handler SyslogEncodingRFC5424 16 ['h'] ['a'] ['p']).Handle
        ⟨levelError, ⟨2025, 10, 11, 22, 14, 15, 0, 0⟩, ['m'], [(['k'], ['v'])]⟩ =
        some wire ∧
      (SyslogDecoder.empty.Feed wire).Decode =
        some ([c1Expected SyslogEncodingRFC5424 16 ['h'] ['a'] ['p']
          ⟨levelError, ⟨2025, 10, 11, 22, 14, 15, 0, 0⟩, ['m'], [(['k'], ['v'])]⟩
          wire], ⟨[], .Framing, [], 0, 0⟩) :=
  c1_encode_decode_roundtrip SyslogEncodingRFC5424 (Or.inr (Or.inr (Or.inl rfl)))
    16 ['h'] ['a'] ['p']
    ⟨levelError, ⟨2025, 10, 11, 22, 14, 15, 0, 0⟩, ['m'], [(['k'], ['v'])]⟩
    (by decide) (by decide) (by decide) (by decide) (by decide) (by decide)
    (by decide) (by decide) (by decide) (by decide) (by decide) (by decide)
    (by decide) (by decide) (by decide) (by decide) (by decide) (by decide)

theorem Feed_mk (buf : List Char) (st : syslogDecoderState) (dec : List Char)
    (o r : Nat) (b : List Char) :
    SyslogDecoder.Feed ⟨buf, st, dec, o, r⟩ b = ⟨buf ++ b, st, dec, o, r⟩ := rfl

theorem Feed_nil (d : SyslogDecoder) : d.Feed [] = d := by
  rcases d with ⟨buf, st, dec, o, r⟩
  simp [SyslogDecoder.Feed]

theorem Feed_assoc (d : SyslogDecoder) (a b : List Char) :
    (d.Feed a).Feed b = d.Feed (a ++ b) := by
  rcases d with ⟨buf, st, dec, o, r⟩
  simp [SyslogDecoder.Feed]

theorem readUntilNL_cons (c : Char) (rest : List Char) :
    SyslogDecoder.readUntilNL (c :: rest) =
      if c = '\n' then ([c], some rest)
      else ((c :: (SyslogDecoder.readUntilNL rest).1),
        (SyslogDecoder.readUntilNL rest).2) := rfl

theorem readUntilNL_append (l b : List Char) :
    SyslogDecoder.readUntilNL (l ++ b) =
      match SyslogDecoder.readUntilNL l with
      | (chunk, some rest) => (chunk, some (rest ++ b))
      | (chunk, none) => (chunk ++ (SyslogDecoder.readUntilNL b).1, (SyslogDecoder.readUntilNL b).2) := by
  induction l with
  | nil => simp [SyslogDecoder.readUntilNL]
  | cons c rest ih =>
    rw [show (c :: rest) ++ b = c :: (rest ++ b) from rfl]
    rw [readUntilNL_cons c (rest ++ b), readUntilNL_cons c rest]
    split_ifs with hc
    · rfl
    · rw [ih]
      rcases hru : SyslogDecoder.readUntilNL rest with ⟨chunk, rr⟩
      cases rr <;> simp

theorem readUntilNL_none (l : List Char) :
    ∀ chunk, SyslogDecoder.readUntilNL l = (chunk, none) → chunk = l := by
  induction l with
  | nil => intro chunk h; cases h; rfl
  | cons c rest ih =>
    intro chunk h
    unfold SyslogDecoder.readUntilNL at h
    split_ifs at h with hc
    · cases h
    · rcases hru : SyslogDecoder.readUntilNL rest with ⟨chunk', rr⟩
      rw [hru] at h
      cases rr with
      | some r0 => cases h
      | none =>
        cases h
        rw [ih chunk' hru]

theorem readUntilNL_found (l : List Char) :
    ∀ chunk rest, SyslogDecoder.readUntilNL l = (chunk, some rest) → rest.length < l.length := by
  induction l with
  | nil => intro chunk rest h; cases h
  | cons c tail ih =>
    intro chunk rest h
    unfold SyslogDecoder.readUntilNL at h
    split_ifs at h with hc
    · cases h
      simp
    · rcases hru : SyslogDecoder.readUntilNL tail with ⟨chunk', rr⟩
      rw [hru] at h
      cases rr with
      | some r0 =>
        cases h
        have := ih chunk' rest hru
        simp
        omega
      | none => cases h

theorem ofhLoop_suspended (l : List Char) :
    ∀ dec oct buf dec' oct',
      SyslogDecoder.ofhLoop l dec oct = (buf, dec', oct', .suspended) → buf = [] := by
  induction l with
  | nil => intro dec oct buf dec' oct' h; cases h; rfl
  | cons c rest ih =>
    intro dec oct buf dec' oct' h
    unfold SyslogDecoder.ofhLoop at h
    split_ifs at h with hc
    · cases h
    · cases hdv : digitVal c with
      | some dig =>
        rw [hdv] at h
        dsimp only at h
        split_ifs at h with hlim
        · cases h
        · exact ih _ _ _ _ _ h
      | none =>
        rw [hdv] at h
        cases h

theorem ofhLoop_space (l : List Char) :
    ∀ dec oct buf dec' oct',
      SyslogDecoder.ofhLoop l dec oct = (buf, dec', oct', .space) → buf.length < l.length := by
  induction l with
  | nil => intro dec oct buf dec' oct' h; cases h
  | cons c rest ih =>
    intro dec oct buf dec' oct' h
    unfold SyslogDecoder.ofhLoop at h
    split_ifs at h with hc
    · cases h
      simp
    · cases hdv : digitVal c with
      | some dig =>
        rw [hdv] at h
        dsimp only at h
        split_ifs at h with hlim
        · cases h
        · have := ih _ _ _ _ _ h
          simp
          omega
      | none =>
        rw [hdv] at h
        cases h

theorem ofhLoop_cons (c : Char) (rest dec : List Char) (oct : Nat) :
    SyslogDecoder.ofhLoop (c :: rest) dec oct =
      if c = ' ' then (rest, dec ++ [c], oct, .space)
      else
        match digitVal c with
        | some dig =>
          if 10 * oct + dig > syslogDecodeLimit then
            (rest, dec ++ [c], 10 * oct + dig, .unknown)
          else SyslogDecoder.ofhLoop rest (dec ++ [c]) (10 * oct + dig)
        | none => (rest, dec ++ [c], oct, .unknown) := rfl

theorem ofhLoop_append (l b : List Char) :
    ∀ (dec : List Char) (oct : Nat),
      SyslogDecoder.ofhLoop (l ++ b) dec oct =
        match SyslogDecoder.ofhLoop l dec oct with
        | (_, dec', oct', .suspended) => SyslogDecoder.ofhLoop b dec' oct'
        | (buf, dec', oct', .space) => (buf ++ b, dec', oct', .space)
        | (buf, dec', oct', .unknown) => (buf ++ b, dec', oct', .unknown) := by
  induction l with
  | nil => intro dec oct; rfl
  | cons c rest ih =>
    intro dec oct
    rw [show (c :: rest) ++ b = c :: (rest ++ b) from rfl]
    rw [ofhLoop_cons c (rest ++ b) dec oct, ofhLoop_cons c rest dec oct]
    split_ifs with hc
    · rfl
    · cases hdv : digitVal c with
      | some dig =>
        dsimp only
        split_ifs with hlim
        · rfl
        · exact ih _ _
      | none => rfl

theorem duLoop_cons_garbage (fuel : Nat) (c : Char) (rest : List Char)
    (st : syslogDecoderState) (dec : List Char) (o r : Nat)
    (hc : ¬(c = '<' ∨ SyslogDecoder.frameDigit c)) :
    SyslogDecoder.duLoop (fuel + 1) ⟨c :: rest, st, dec, o, r⟩ =
      SyslogDecoder.duLoop fuel ⟨rest, st, [c], o, r⟩ := by
  conv_lhs => unfold SyslogDecoder.duLoop
  dsimp only
  rw [if_neg hc]
  rw [if_neg (by simp [syslogDecodeLimit])]

theorem duLoop_garbage (g : List Char) :
    g ≠ [] → (∀ c ∈ g, ¬(c = '<' ∨ SyslogDecoder.frameDigit c)) →
      ∃ dec', (∀ c ∈ dec', ¬(c = '<' ∨ SyslogDecoder.frameDigit c)) ∧
        ∀ (K : Nat) (b : List Char) (st : syslogDecoderState) (dec : List Char)
          (o r : Nat),
          SyslogDecoder.duLoop (g.length + K) ⟨g ++ b, st, dec, o, r⟩ =
            SyslogDecoder.duLoop K ⟨b, st, dec', o, r⟩ := by
  induction g with
  | nil => intro h; exact absurd rfl h
  | cons c gs ih =>
    intro _ hg
    have hc : ¬(c = '<' ∨ SyslogDecoder.frameDigit c) := hg c (List.mem_cons_self c gs)
    cases gs with
    | nil =>
      refine ⟨[c], ?_, ?_⟩
      · intro x hx
        rcases List.mem_cons.mp hx with hx | hx
        · exact hx ▸ hc
        · simp at hx
      intro K b st dec o r
      show SyslogDecoder.duLoop (1 + K) ⟨c :: b, st, dec, o, r⟩ = _
      rw [show 1 + K = K + 1 from by omega]
      exact duLoop_cons_garbage K c b st dec o r hc
    | cons c2 gs2 =>
      obtain ⟨dec', hdcl, hdec'⟩ := ih (by simp)
        (fun x hx => hg x (List.mem_cons_of_mem c hx))
      refine ⟨dec', hdcl, ?_⟩
      intro K b st dec o r
      show SyslogDecoder.duLoop ((c2 :: gs2).length + 1 + K)
        ⟨c :: ((c2 :: gs2) ++ b), st, dec, o, r⟩ = _
      rw [show (c2 :: gs2).length + 1 + K = ((c2 :: gs2).length + K) + 1 from by omega]
      rw [duLoop_cons_garbage ((c2 :: gs2).length + K) c ((c2 :: gs2) ++ b)
        st dec o r hc]
      exact hdec' K b st [c] o r

theorem stateRank_pos (s : syslogDecoderState) (h : s ≠ .Framing) :
    1 ≤ SyslogDecoder.stateRank s := by
  cases s
  · exact absurd rfl h
  all_goals simp [SyslogDecoder.stateRank]

theorem decode_eq_seven (d : SyslogDecoder) (h : d.state ≠ .Framing) :
    d.decode = SyslogDecoder.decodeLoop 7 d := by
  unfold SyslogDecoder.decode
  exact SyslogDecoder.decodeLoop_stable 7 8 d
    (by have := stateRank_pos d.state h; omega) (by omega)

theorem decodeLoop_succ (f : Nat) (d : SyslogDecoder) :
    SyslogDecoder.decodeLoop (f + 1) d =
      match d.state with
      | .ImplicitFramingMessage =>
        match SyslogDecoder.decodeImplicitFramingMessage d with
        | some (m, d') => some (some m, d')
        | none => none
      | .OctetFramingMessage =>
        match SyslogDecoder.decodeOctetFramingMessage d with
        | some (m, d') => some (some m, d')
        | none => none
      | .UnknownMessage =>
        let p := SyslogDecoder.decodeUnknownMessage d
        some (some p.1, p.2)
      | .Framing =>
        let d' := SyslogDecoder.decodeFraming d
        if d'.state = .Framing then some (none, d')
        else SyslogDecoder.decodeLoop f d'
      | .ImplicitFraming =>
        let d' := SyslogDecoder.decodeImplicitFraming d
        if d'.state = .ImplicitFraming then some (none, d')
        else SyslogDecoder.decodeLoop f d'
      | .OctetFramingHeader =>
        let d' := SyslogDecoder.decodeOctetFramingHeader d
        if d'.state = .OctetFramingHeader then some (none, d')
        else SyslogDecoder.decodeLoop f d'
      | .OctetFraming =>
        let d' := SyslogDecoder.decodeOctetFraming d
        if d'.state = .OctetFraming then some (none, d')
        else SyslogDecoder.decodeLoop f d'
      | .Unknown =>
        match SyslogDecoder.duLoop (d.buffer.length + 1) d with
        | none => none
        | some d' =>
          if d'.state = .Unknown then some (none, d')
          else SyslogDecoder.decodeLoop f d' := rfl

theorem decodeAll_succ (f : Nat) (d : SyslogDecoder) :
    SyslogDecoder.decodeAll (f + 1) d =
      match d.decode with
      | none => none
      | some (none, d') => some ([], d')
      | some (some m, d') =>
        match SyslogDecoder.decodeAll f d' with
        | none => none
        | some (ms, d'') => some (m :: ms, d'') := rfl

/-- A decoder as left behind by a suspension: empty buffer, in a
non-message state, and mid-frame for octet framing. -/
def Quiescent (d : SyslogDecoder) : Prop :=
  d.buffer = [] ∧
  (d.state = .Framing ∨ d.state = .ImplicitFraming ∨
    d.state = .OctetFramingHeader ∨
    (d.state = .OctetFraming ∧ d.octetsRemaining ≠ 0) ∨ d.state = .Unknown)

theorem decodeLoop_susp :
    ∀ (fuel : Nat) (d d₁ : SyslogDecoder),
      SyslogDecoder.decodeLoop fuel d = some (none, d₁) → Quiescent d₁ := by
  intro fuel
  induction fuel with
  | zero => intro d d₁ h; cases h
  | succ fuel ih =>
    intro d d₁ h
    rw [decodeLoop_succ] at h
    cases hst : d.state <;> rw [hst] at h <;> dsimp only at h
    case Framing =>
      split_ifs at h with hf
      · cases h
        cases hbuf : d.buffer with
        | nil =>
          have hdf : SyslogDecoder.decodeFraming d = d := by
            unfold SyslogDecoder.decodeFraming
            rw [hbuf]
          rw [hdf]
          exact ⟨hbuf, Or.inl hst⟩
        | cons c rest =>
          exfalso
          unfold SyslogDecoder.decodeFraming at hf
          rw [hbuf] at hf
          dsimp only at hf
          split_ifs at hf <;> cases hf
      · exact ih _ _ h
    case ImplicitFraming =>
      split_ifs at h with hf
      · cases h
        rcases hru : SyslogDecoder.readUntilNL d.buffer with ⟨chunk, rr⟩
        unfold SyslogDecoder.decodeImplicitFraming at hf ⊢
        rw [hru] at hf ⊢
        cases rr with
        | some rest => cases hf
        | none => exact ⟨rfl, Or.inr (Or.inl hst)⟩
      · exact ih _ _ h
    case OctetFramingHeader =>
      split_ifs at h with hf
      · cases h
        rcases hof : SyslogDecoder.ofhLoop d.buffer d.decoding d.octets
          with ⟨buf', dec', oct', oc⟩
        unfold SyslogDecoder.decodeOctetFramingHeader at hf ⊢
        rw [hof] at hf ⊢
        cases oc with
        | suspended =>
          exact ⟨ofhLoop_suspended _ _ _ _ _ _ hof, Or.inr (Or.inr (Or.inl hst))⟩
        | space => cases hf
        | unknown => cases hf
      · exact ih _ _ h
    case OctetFraming =>
      split_ifs at h with hf
      · cases h
        unfold SyslogDecoder.decodeOctetFraming at hf ⊢
        dsimp only at hf ⊢
        by_cases hz : d.octetsRemaining - (List.take d.octetsRemaining d.buffer).length = 0
        · rw [if_pos hz] at hf
          simp at hf
        · rw [if_neg hz] at hf ⊢
          have hmin := List.length_take d.octetsRemaining d.buffer
          exact ⟨List.drop_eq_nil_of_le (by omega),
            Or.inr (Or.inr (Or.inr (Or.inl ⟨hst, hz⟩)))⟩
      · exact ih _ _ h
    case Unknown =>
      cases hdu : SyslogDecoder.duLoop (d.buffer.length + 1) d with
      | none => rw [hdu] at h; cases h
      | some d'' =>
        rw [hdu] at h
        dsimp only at h
        obtain ⟨hstu, hbu⟩ := SyslogDecoder.duLoop_some _ _ _ hdu
        rw [if_pos (hstu.trans hst)] at h
        cases h
        exact ⟨hbu, Or.inr (Or.inr (Or.inr (Or.inr (hstu.trans hst))))⟩
    case ImplicitFramingMessage =>
      cases hm : SyslogDecoder.decodeImplicitFramingMessage d with
      | none => rw [hm] at h; cases h
      | some p => rcases p with ⟨m, d'⟩; rw [hm] at h; cases h
    case OctetFramingMessage =>
      cases hm : SyslogDecoder.decodeOctetFramingMessage d with
      | none => rw [hm] at h; cases h
      | some p => rcases p with ⟨m, d'⟩; rw [hm] at h; cases h
    case UnknownMessage => cases h

theorem decodeLoop_unknown_no_emit (fuel : Nat) (d : SyslogDecoder)
    (hst : d.state = .Unknown) (m : SyslogMessage) (d₁ : SyslogDecoder) :
    SyslogDecoder.decodeLoop fuel d ≠ some (some m, d₁) := by
  cases fuel with
  | zero => intro h; cases h
  | succ fuel =>
    rw [decodeLoop_succ, hst]
    dsimp only
    cases hdu : SyslogDecoder.duLoop (d.buffer.length + 1) d with
    | none => intro h; cases h
    | some d'' =>
      dsimp only
      obtain ⟨hstu, _⟩ := SyslogDecoder.duLoop_some _ _ _ hdu
      rw [if_pos (hstu.trans hst)]
      intro h
      cases h

theorem decodeLoop_emit :
    ∀ (fuel : Nat) (d : SyslogDecoder) (m : SyslogMessage) (d₁ : SyslogDecoder),
      SyslogDecoder.decodeLoop fuel d = some (some m, d₁) →
      d₁.state = .Framing ∧ d₁.buffer.length ≤ d.buffer.length ∧
        ((d.state = .Framing ∨ d.state = .ImplicitFraming ∨
          d.state = .OctetFramingHeader) → d₁.buffer.length < d.buffer.length) := by
  intro fuel
  induction fuel with
  | zero => intro d m d₁ h; cases h
  | succ fuel ih =>
    intro d m d₁ h
    rw [decodeLoop_succ] at h
    cases hst : d.state <;> rw [hst] at h <;> dsimp only at h
    case ImplicitFramingMessage =>
      unfold SyslogDecoder.decodeImplicitFramingMessage
        SyslogDecoder.decodeMessage at h
      cases hdm : undecodedDecode d.decoding 0 with
      | none => rw [hdm] at h; cases h
      | some m' =>
        rw [hdm] at h
        cases h
        refine ⟨rfl, le_rfl, ?_⟩
        intro hd
        rcases hd with hd | hd | hd <;> cases hd
    case OctetFramingMessage =>
      unfold SyslogDecoder.decodeOctetFramingMessage at h
      dsimp only at h
      split_ifs at h with hoff
      · cases h
        refine ⟨rfl, le_rfl, ?_⟩
        intro hd
        rcases hd with hd | hd | hd <;> cases hd
      · unfold SyslogDecoder.decodeMessage at h
        cases hdm : undecodedDecode d.decoding (d.decoding.length - d.octets) with
        | none => rw [hdm] at h; cases h
        | some m' =>
          rw [hdm] at h
          cases h
          refine ⟨rfl, le_rfl, ?_⟩
          intro hd
          rcases hd with hd | hd | hd <;> cases hd
    case UnknownMessage =>
      cases h
      refine ⟨rfl, le_rfl, ?_⟩
      intro hd
      rcases hd with hd | hd | hd <;> cases hd
    case Framing =>
      cases hbuf : d.buffer with
      | nil =>
        exfalso
        have hdf : SyslogDecoder.decodeFraming d = d := by
          unfold SyslogDecoder.decodeFraming
          rw [hbuf]
        rw [hdf, if_pos hst] at h
        cases h
      | cons c rest =>
        have hdf : SyslogDecoder.decodeFraming d =
            ⟨d.buffer, if c = '<' then .ImplicitFraming
              else if SyslogDecoder.frameDigit c then .OctetFramingHeader
              else .Unknown, [], d.octets, d.octetsRemaining⟩ := by
          unfold SyslogDecoder.decodeFraming
          rw [hbuf]
        rw [hdf] at h
        by_cases hlt : c = '<'
        · rw [if_pos hlt] at h
          rw [if_neg (by simp)] at h
          obtain ⟨h1, h2, h3⟩ := ih _ _ _ h
          dsimp only at h2 h3
          rw [hbuf] at h2 h3
          exact ⟨h1, h2, fun _ => h3 (by simp)⟩
        · rw [if_neg hlt] at h
          by_cases hfd : SyslogDecoder.frameDigit c
          · rw [if_pos hfd] at h
            rw [if_neg (by simp)] at h
            obtain ⟨h1, h2, h3⟩ := ih _ _ _ h
            dsimp only at h2 h3
            rw [hbuf] at h2 h3
            exact ⟨h1, h2, fun _ => h3 (by simp)⟩
          · rw [if_neg hfd] at h
            rw [if_neg (by simp)] at h
            exact absurd h (decodeLoop_unknown_no_emit _ _ rfl _ _)
    case ImplicitFraming =>
      rcases hru : SyslogDecoder.readUntilNL d.buffer with ⟨chunk, rr⟩
      unfold SyslogDecoder.decodeImplicitFraming at h
      rw [hru] at h
      cases rr with
      | none =>
        dsimp only at h
        rw [if_pos hst] at h
        cases h
      | some rest =>
        dsimp only at h
        rw [if_neg (by simp)] at h
        obtain ⟨h1, h2, _⟩ := ih _ _ _ h
        have hlt := readUntilNL_found _ _ _ hru
        refine ⟨h1, ?_, fun _ => ?_⟩ <;> dsimp only at h2 <;> omega
    case OctetFramingHeader =>
      rcases hof : SyslogDecoder.ofhLoop d.buffer d.decoding d.octets
        with ⟨buf', dec', oct', oc⟩
      unfold SyslogDecoder.decodeOctetFramingHeader at h
      rw [hof] at h
      cases oc with
      | suspended =>
        dsimp only at h
        rw [if_pos hst] at h
        cases h
      | space =>
        dsimp only at h
        rw [if_neg (by simp)] at h
        obtain ⟨h1, h2, _⟩ := ih _ _ _ h
        have hlt := ofhLoop_space _ _ _ _ _ _ hof
        refine ⟨h1, ?_, fun _ => ?_⟩ <;> dsimp only at h2 <;> omega
      | unknown =>
        dsimp only at h
        rw [if_neg (by simp)] at h
        exact absurd h (decodeLoop_unknown_no_emit _ _ rfl _ _)
    case OctetFraming =>
      unfold SyslogDecoder.decodeOctetFraming at h
      dsimp only at h
      by_cases hz : d.octetsRemaining - (List.take d.octetsRemaining d.buffer).length = 0
      · rw [if_pos hz] at h
        dsimp only at h
        rw [if_neg (by decide)] at h
        obtain ⟨h1, h2, _⟩ := ih _ _ _ h
        dsimp only at h2
        rw [List.length_drop] at h2
        refine ⟨h1, by omega, fun hd => ?_⟩
        rcases hd with hd | hd | hd <;> cases hd
      · rw [if_neg hz] at h
        dsimp only at h
        rw [if_pos hst] at h
        cases h
    case Unknown =>
      exfalso
      cases hdu : SyslogDecoder.duLoop (d.buffer.length + 1) d with
      | none => rw [hdu] at h; cases h
      | some d'' =>
        rw [hdu] at h
        dsimp only at h
        obtain ⟨hstu, _⟩ := SyslogDecoder.duLoop_some _ _ _ hdu
        rw [if_pos (hstu.trans hst)] at h
        cases h

theorem decode_susp (d d₁ : SyslogDecoder) (h : d.decode = some (none, d₁)) :
    Quiescent d₁ :=
  decodeLoop_susp 8 d d₁ h

theorem decode_emit (d : SyslogDecoder) (m : SyslogMessage) (d₁ : SyslogDecoder)
    (h : d.decode = some (some m, d₁)) :
    d₁.state = .Framing ∧ d₁.buffer.length ≤ d.buffer.length ∧
      (d.state = .Framing → d₁.buffer.length < d.buffer.length) := by
  obtain ⟨h1, h2, h3⟩ := decodeLoop_emit 8 d m d₁ h
  exact ⟨h1, h2, fun hf => h3 (Or.inl hf)⟩

theorem decodeAll_mono :
    ∀ (f f' : Nat) (d : SyslogDecoder) (r : List SyslogMessage × SyslogDecoder),
      SyslogDecoder.decodeAll f d = some r → f ≤ f' →
      SyslogDecoder.decodeAll f' d = some r := by
  intro f
  induction f with
  | zero => intro f' d r h; cases h
  | succ f ih =>
    intro f' d r h hle
    obtain ⟨g, rfl⟩ : ∃ g, f' = g + 1 := ⟨f' - 1, by omega⟩
    cases hd : d.decode with
    | none =>
      rw [decodeAll_succ, hd] at h
      dsimp only at h
      cases h
    | some p =>
      rcases p with ⟨mo, d₁⟩
      cases mo with
      | none =>
        rw [decodeAll_succ, hd] at h ⊢
        dsimp only at h ⊢
        exact h
      | some m =>
        rw [decodeAll_succ, hd] at h ⊢
        dsimp only at h ⊢
        cases hrec : SyslogDecoder.decodeAll f d₁ with
        | none =>
          rw [hrec] at h
          dsimp only at h
          cases h
        | some pr =>
          rcases pr with ⟨ms, d₂⟩
          rw [hrec] at h
          dsimp only at h
          rw [ih g d₁ (ms, d₂) hrec (by omega)]
          dsimp only
          exact h
theorem decodeAll_bound_framing :
    ∀ (n f : Nat) (d : SyslogDecoder) (r : List SyslogMessage × SyslogDecoder),
      d.buffer.length ≤ n → d.state = .Framing →
      SyslogDecoder.decodeAll f d = some r →
      SyslogDecoder.decodeAll (n + 1) d = some r := by
  intro n
  induction n with
  | zero =>
    intro f d r hb hst h
    obtain ⟨g, rfl⟩ : ∃ g, f = g + 1 := ⟨f - 1, by rcases f with _ | f; cases h; omega⟩
    cases hd : d.decode with
    | none =>
      rw [decodeAll_succ, hd] at h
      dsimp only at h
      cases h
    | some p =>
      rcases p with ⟨mo, d₁⟩
      cases mo with
      | none =>
        rw [decodeAll_succ, hd] at h
        rw [show (0 : Nat) + 1 = 0 + 1 from rfl, decodeAll_succ, hd]
        dsimp only at h ⊢
        exact h
      | some m =>
        exfalso
        have := (decode_emit d m d₁ hd).2.2 hst
        omega
  | succ n ih =>
    intro f d r hb hst h
    obtain ⟨g, rfl⟩ : ∃ g, f = g + 1 := ⟨f - 1, by rcases f with _ | f; cases h; omega⟩
    cases hd : d.decode with
    | none =>
      rw [decodeAll_succ, hd] at h
      dsimp only at h
      cases h
    | some p =>
      rcases p with ⟨mo, d₁⟩
      cases mo with
      | none =>
        rw [decodeAll_succ, hd] at h
        rw [show n + 1 + 1 = (n + 1) + 1 from rfl, decodeAll_succ, hd]
        dsimp only at h ⊢
        exact h
      | some m =>
        rw [decodeAll_succ, hd] at h
        rw [show n + 1 + 1 = (n + 1) + 1 from rfl, decodeAll_succ, hd]
        dsimp only at h ⊢
        cases hrec : SyslogDecoder.decodeAll g d₁ with
        | none =>
          rw [hrec] at h
          dsimp only at h
          cases h
        | some pr =>
          rcases pr with ⟨ms, d₂⟩
          rw [hrec] at h
          dsimp only at h
          obtain ⟨h1, _, h3⟩ := decode_emit d m d₁ hd
          have hlt := h3 hst
          rw [ih g d₁ (ms, d₂) (by omega) h1 hrec]
          dsimp only
          exact h
theorem decodeAll_bound :
    ∀ (f : Nat) (d : SyslogDecoder) (r : List SyslogMessage × SyslogDecoder),
      SyslogDecoder.decodeAll f d = some r →
      SyslogDecoder.decodeAll (d.buffer.length + 2) d = some r := by
  intro f d r h
  obtain ⟨g, rfl⟩ : ∃ g, f = g + 1 := ⟨f - 1, by rcases f with _ | f; cases h; omega⟩
  cases hd : d.decode with
  | none =>
    rw [decodeAll_succ, hd] at h
    dsimp only at h
    cases h
  | some p =>
    rcases p with ⟨mo, d₁⟩
    cases mo with
    | none =>
      rw [decodeAll_succ, hd] at h
      rw [show d.buffer.length + 2 = (d.buffer.length + 1) + 1 from rfl,
        decodeAll_succ, hd]
      dsimp only at h ⊢
      exact h
    | some m =>
      rw [decodeAll_succ, hd] at h
      rw [show d.buffer.length + 2 = (d.buffer.length + 1) + 1 from rfl,
        decodeAll_succ, hd]
      dsimp only at h ⊢
      cases hrec : SyslogDecoder.decodeAll g d₁ with
      | none =>
        rw [hrec] at h
        dsimp only at h
        cases h
      | some pr =>
        rcases pr with ⟨ms, d₂⟩
        rw [hrec] at h
        dsimp only at h
        obtain ⟨h1, h2, _⟩ := decode_emit d m d₁ hd
        rw [decodeAll_mono (d₁.buffer.length + 1) (d.buffer.length + 1) d₁ (ms, d₂)
          (decodeAll_bound_framing d₁.buffer.length g d₁ (ms, d₂) le_rfl h1 hrec)
          (by omega)]
        dsimp only
        exact h
theorem Decode_some_iff (d : SyslogDecoder) (r : List SyslogMessage × SyslogDecoder) :
    d.Decode = some r ↔ ∃ f, SyslogDecoder.decodeAll f d = some r := by
  constructor
  · intro h
    exact ⟨d.buffer.length + 2, h⟩
  · intro hex
    obtain ⟨f, h⟩ := hex
    exact decodeAll_bound f d r h

theorem Decode_none_iff (d : SyslogDecoder) :
    d.Decode = none ↔ ∀ f, SyslogDecoder.decodeAll f d = none := by
  constructor
  · intro h f
    cases hf : SyslogDecoder.decodeAll f d with
    | none => rfl
    | some r =>
      rw [show SyslogDecoder.Decode d =
        SyslogDecoder.decodeAll (d.buffer.length + 2) d from rfl] at h
      rw [decodeAll_bound f d r hf] at h
      cases h
  · intro h
    exact h (d.buffer.length + 2)

theorem Quiescent_decode (d : SyslogDecoder) (h : Quiescent d) :
    d.decode = some (none, d) := by
  rcases d with ⟨buf, st, dec, o, r⟩
  obtain ⟨hbuf, hst⟩ := h
  subst hbuf
  unfold SyslogDecoder.decode
  rcases hst with hst | hst | hst | hstp | hst
  · subst hst
    rw [decodeLoop_succ]
    dsimp only
    rw [show SyslogDecoder.decodeFraming ⟨[], .Framing, dec, o, r⟩ =
      ⟨[], .Framing, dec, o, r⟩ from rfl]
    rw [if_pos rfl]
  · subst hst
    rw [decodeLoop_succ]
    dsimp only
    rw [show SyslogDecoder.decodeImplicitFraming ⟨[], .ImplicitFraming, dec, o, r⟩ =
      ⟨[], .ImplicitFraming, dec ++ [], o, r⟩ from rfl]
    rw [if_pos rfl]
    simp
  · subst hst
    rw [decodeLoop_succ]
    dsimp only
    rw [show SyslogDecoder.decodeOctetFramingHeader
      ⟨[], .OctetFramingHeader, dec, o, r⟩ =
      ⟨[], .OctetFramingHeader, dec, o, r⟩ from rfl]
    rw [if_pos rfl]
  · obtain ⟨hst, hr⟩ := hstp
    subst hst
    rw [decodeLoop_succ]
    dsimp only
    rw [show SyslogDecoder.decodeOctetFraming ⟨[], .OctetFraming, dec, o, r⟩ =
      if r - ([] : List Char).length = 0 then
        ⟨[], .OctetFramingMessage, dec ++ [], o, r - ([] : List Char).length⟩
      else ⟨[], .OctetFraming, dec ++ [], o, r - ([] : List Char).length⟩ from by
        unfold SyslogDecoder.decodeOctetFraming
        dsimp only
        rw [List.take_nil, List.drop_nil]]
    rw [if_neg (show ¬(r - ([] : List Char).length = 0) from by simpa using hr)]
    dsimp only
    rw [if_pos rfl]
    simp
  · subst hst
    rw [decodeLoop_succ]
    dsimp only
    rw [show SyslogDecoder.duLoop (([] : List Char).length + 1)
      ⟨[], .Unknown, dec, o, r⟩ = some ⟨[], .Unknown, dec, o, r⟩ from rfl]
    dsimp only
    rw [if_pos rfl]

theorem decodeAll_final :
    ∀ (f : Nat) (d : SyslogDecoder) (ms : List SyslogMessage) (d₁ : SyslogDecoder),
      SyslogDecoder.decodeAll f d = some (ms, d₁) → Quiescent d₁ := by
  intro f
  induction f with
  | zero => intro d ms d₁ h; cases h
  | succ f ih =>
    intro d ms d₁ h
    cases hd : d.decode with
    | none =>
      rw [decodeAll_succ, hd] at h
      dsimp only at h
      cases h
    | some p =>
      rcases p with ⟨mo, d'⟩
      cases mo with
      | none =>
        rw [decodeAll_succ, hd] at h
        dsimp only at h
        cases h
        exact decode_susp d _ hd
      | some m =>
        rw [decodeAll_succ, hd] at h
        dsimp only at h
        cases hrec : SyslogDecoder.decodeAll f d' with
        | none =>
          rw [hrec] at h
          dsimp only at h
          cases h
        | some pr =>
          rcases pr with ⟨ms', d''⟩
          rw [hrec] at h
          dsimp only at h
          cases h
          exact ih d' ms' d₁ hrec

/-- The decode step commutes with feeding more bytes: a diverging step still
diverges, a suspended step resumes on the new bytes, and an emitted message
is unchanged with the new bytes carried along. -/
def AppendEq (d : SyslogDecoder) (b : List Char) : Prop :=
  (d.Feed b).decode =
    match d.decode with
    | none => none
    | some (none, d₁) => (d₁.Feed b).decode
    | some (some m, d₁) => some (some m, d₁.Feed b)

theorem Feed_nilbuf (st : syslogDecoderState) (dec : List Char) (o r : Nat)
    (b : List Char) :
    SyslogDecoder.Feed ⟨[], st, dec, o, r⟩ b = ⟨b, st, dec, o, r⟩ := rfl

/-- One pass of `SyslogDecoder.decode`, re-expressed with `decode` itself in
the recursive positions (justified by `decodeLoop_stable`). -/
theorem decode_eq (d : SyslogDecoder) :
    d.decode =
      match d.state with
      | .ImplicitFramingMessage =>
        (match SyslogDecoder.decodeImplicitFramingMessage d with
         | some (m, d') => some (some m, d')
         | none => none)
      | .OctetFramingMessage =>
        (match SyslogDecoder.decodeOctetFramingMessage d with
         | some (m, d') => some (some m, d')
         | none => none)
      | .UnknownMessage =>
        some (some (SyslogDecoder.decodeUnknownMessage d).1,
          (SyslogDecoder.decodeUnknownMessage d).2)
      | .Framing =>
        if (SyslogDecoder.decodeFraming d).state = .Framing
        then some (none, SyslogDecoder.decodeFraming d)
        else (SyslogDecoder.decodeFraming d).decode
      | .ImplicitFraming =>
        if (SyslogDecoder.decodeImplicitFraming d).state = .ImplicitFraming
        then some (none, SyslogDecoder.decodeImplicitFraming d)
        else (SyslogDecoder.decodeImplicitFraming d).decode
      | .OctetFramingHeader =>
        if (SyslogDecoder.decodeOctetFramingHeader d).state = .OctetFramingHeader
        then some (none, SyslogDecoder.decodeOctetFramingHeader d)
        else (SyslogDecoder.decodeOctetFramingHeader d).decode
      | .OctetFraming =>
        if (SyslogDecoder.decodeOctetFraming d).state = .OctetFraming
        then some (none, SyslogDecoder.decodeOctetFraming d)
        else (SyslogDecoder.decodeOctetFraming d).decode
      | .Unknown =>
        match SyslogDecoder.duLoop (d.buffer.length + 1) d with
        | none => none
        | some d' =>
          if d'.state = .Unknown then some (none, d') else d'.decode := by
  conv_lhs => rw [show d.decode = SyslogDecoder.decodeLoop 8 d from rfl,
    decodeLoop_succ]
  cases hst : d.state <;> dsimp only
  case Framing =>
    split_ifs with hf
    · rfl
    · exact (decode_eq_seven _ hf).symm
  case ImplicitFraming =>
    split_ifs with hf
    · rfl
    · refine (decode_eq_seven _ ?_).symm
      intro hcon
      rcases SyslogDecoder.decodeImplicitFraming_state d with hs | hs
      · exact hf (hs.trans hst)
      · rw [hs] at hcon
        cases hcon
  case OctetFramingHeader =>
    split_ifs with hf
    · rfl
    · refine (decode_eq_seven _ ?_).symm
      intro hcon
      rcases SyslogDecoder.decodeOctetFramingHeader_state d with hs | hs | hs
      · exact hf (hs.trans hst)
      · rw [hs] at hcon; cases hcon
      · rw [hs] at hcon; cases hcon
  case OctetFraming =>
    split_ifs with hf
    · rfl
    · refine (decode_eq_seven _ ?_).symm
      intro hcon
      rcases SyslogDecoder.decodeOctetFraming_state d with hs | hs
      · exact hf (hs.trans hst)
      · rw [hs] at hcon
        cases hcon
  case Unknown =>
    cases hdu : SyslogDecoder.duLoop (d.buffer.length + 1) d with
    | none => rfl
    | some d' =>
      dsimp only
      split_ifs with hf
      · rfl
      · refine (decode_eq_seven _ ?_).symm
        intro hcon
        rw [(SyslogDecoder.duLoop_some _ _ _ hdu).1, hst] at hcon
        cases hcon
  all_goals rfl

theorem appendEq_UnkM (buf dec : List Char) (o r : Nat) (b : List Char) :
    AppendEq ⟨buf, .UnknownMessage, dec, o, r⟩ b := rfl

theorem appendEq_IFM (buf dec : List Char) (o r : Nat) (b : List Char) :
    AppendEq ⟨buf, .ImplicitFramingMessage, dec, o, r⟩ b := by
  unfold AppendEq
  rw [Feed_mk]
  unfold SyslogDecoder.decode
  rw [decodeLoop_succ, decodeLoop_succ]
  dsimp only
  rw [show SyslogDecoder.decodeImplicitFramingMessage
      ⟨buf ++ b, .ImplicitFramingMessage, dec, o, r⟩ =
    match undecodedDecode dec 0 with
    | some m => some (m, ⟨buf ++ b, .Framing, [], 0, 0⟩)
    | none => none from rfl]
  rw [show SyslogDecoder.decodeImplicitFramingMessage
      ⟨buf, .ImplicitFramingMessage, dec, o, r⟩ =
    match undecodedDecode dec 0 with
    | some m => some (m, ⟨buf, .Framing, [], 0, 0⟩)
    | none => none from rfl]
  cases hdm : undecodedDecode dec 0 with
  | none => rfl
  | some m => rfl

theorem appendEq_OFM (buf dec : List Char) (o r : Nat) (b : List Char) :
    AppendEq ⟨buf, .OctetFramingMessage, dec, o, r⟩ b := by
  unfold AppendEq
  rw [Feed_mk]
  unfold SyslogDecoder.decode
  rw [decodeLoop_succ, decodeLoop_succ]
  dsimp only
  rw [show SyslogDecoder.decodeOctetFramingMessage
      ⟨buf ++ b, .OctetFramingMessage, dec, o, r⟩ =
    (if dec.length - o < 2 then
      some (.Undecoded dec, ⟨buf ++ b, .Framing, [], 0, 0⟩)
    else
      match undecodedDecode dec (dec.length - o) with
      | some m => some (m, ⟨buf ++ b, .Framing, [], 0, 0⟩)
      | none => none) from rfl]
  rw [show SyslogDecoder.decodeOctetFramingMessage
      ⟨buf, .OctetFramingMessage, dec, o, r⟩ =
    (if dec.length - o < 2 then
      some (.Undecoded dec, ⟨buf, .Framing, [], 0, 0⟩)
    else
      match undecodedDecode dec (dec.length - o) with
      | some m => some (m, ⟨buf, .Framing, [], 0, 0⟩)
      | none => none) from rfl]
  split_ifs with hoff
  · rfl
  · cases hdm : undecodedDecode dec (dec.length - o) with
    | none => rfl
    | some m => rfl

theorem appendEq_IF (buf dec : List Char) (o r : Nat) (b : List Char) :
    AppendEq ⟨buf, .ImplicitFraming, dec, o, r⟩ b := by
  unfold AppendEq
  rw [Feed_mk]
  rw [decode_eq ⟨buf ++ b, .ImplicitFraming, dec, o, r⟩]
  rw [decode_eq ⟨buf, .ImplicitFraming, dec, o, r⟩]
  dsimp only
  rcases hru : SyslogDecoder.readUntilNL buf with ⟨chunk, rr⟩
  have hab := readUntilNL_append buf b
  rw [hru] at hab
  cases rr with
  | some rest =>
    dsimp only at hab
    have h1 : SyslogDecoder.decodeImplicitFraming
        ⟨buf ++ b, .ImplicitFraming, dec, o, r⟩ =
        ⟨rest ++ b, .ImplicitFramingMessage, dec ++ chunk, o, r⟩ := by
      unfold SyslogDecoder.decodeImplicitFraming
      dsimp only
      rw [hab]
    have h2 : SyslogDecoder.decodeImplicitFraming
        ⟨buf, .ImplicitFraming, dec, o, r⟩ =
        ⟨rest, .ImplicitFramingMessage, dec ++ chunk, o, r⟩ := by
      unfold SyslogDecoder.decodeImplicitFraming
      dsimp only
      rw [hru]
    rw [h1, h2]
    dsimp only
    rw [if_neg (show ¬(syslogDecoderState.ImplicitFramingMessage =
      syslogDecoderState.ImplicitFraming) from by decide)]
    rw [if_neg (show ¬(syslogDecoderState.ImplicitFramingMessage =
      syslogDecoderState.ImplicitFraming) from by decide)]
    have hm := appendEq_IFM rest (dec ++ chunk) o r b
    unfold AppendEq at hm
    rw [Feed_mk] at hm
    exact hm
  | none =>
    rcases hrb : SyslogDecoder.readUntilNL b with ⟨cb, rb⟩
    rw [hrb] at hab
    dsimp only at hab
    have h2 : SyslogDecoder.decodeImplicitFraming
        ⟨buf, .ImplicitFraming, dec, o, r⟩ =
        ⟨[], .ImplicitFraming, dec ++ chunk, o, r⟩ := by
      unfold SyslogDecoder.decodeImplicitFraming
      dsimp only
      rw [hru]
    rw [h2]
    dsimp only
    rw [if_pos rfl]
    dsimp only
    rw [Feed_nilbuf]
    rw [decode_eq ⟨b, .ImplicitFraming, dec ++ chunk, o, r⟩]
    dsimp only
    cases rb with
    | some restb =>
      have h1 : SyslogDecoder.decodeImplicitFraming
          ⟨buf ++ b, .ImplicitFraming, dec, o, r⟩ =
          ⟨restb, .ImplicitFramingMessage, dec ++ (chunk ++ cb), o, r⟩ := by
        unfold SyslogDecoder.decodeImplicitFraming
        dsimp only
        rw [hab]
      have h3 : SyslogDecoder.decodeImplicitFraming
          ⟨b, .ImplicitFraming, dec ++ chunk, o, r⟩ =
          ⟨restb, .ImplicitFramingMessage, (dec ++ chunk) ++ cb, o, r⟩ := by
        unfold SyslogDecoder.decodeImplicitFraming
        dsimp only
        rw [hrb]
      rw [h1, h3]
      dsimp only
      rw [if_neg (show ¬(syslogDecoderState.ImplicitFramingMessage =
        syslogDecoderState.ImplicitFraming) from by decide)]
      rw [if_neg (show ¬(syslogDecoderState.ImplicitFramingMessage =
        syslogDecoderState.ImplicitFraming) from by decide)]
      rw [List.append_assoc]
    | none =>
      have h1 : SyslogDecoder.decodeImplicitFraming
          ⟨buf ++ b, .ImplicitFraming, dec, o, r⟩ =
          ⟨[], .ImplicitFraming, dec ++ (chunk ++ cb), o, r⟩ := by
        unfold SyslogDecoder.decodeImplicitFraming
        dsimp only
        rw [hab]
      have h3 : SyslogDecoder.decodeImplicitFraming
          ⟨b, .ImplicitFraming, dec ++ chunk, o, r⟩ =
          ⟨[], .ImplicitFraming, (dec ++ chunk) ++ cb, o, r⟩ := by
        unfold SyslogDecoder.decodeImplicitFraming
        dsimp only
        rw [hrb]
      rw [h1, h3]
      dsimp only
      rw [if_pos rfl, if_pos rfl]
      rw [List.append_assoc]

theorem appendEq_OF (buf dec : List Char) (o r : Nat) (b : List Char) :
    AppendEq ⟨buf, .OctetFraming, dec, o, r⟩ b := by
  unfold AppendEq
  rw [Feed_mk]
  rw [decode_eq ⟨buf ++ b, .OctetFraming, dec, o, r⟩]
  rw [decode_eq ⟨buf, .OctetFraming, dec, o, r⟩]
  dsimp only
  by_cases hle : r ≤ buf.length
  · have htk : (List.take r buf).length = r := by
      rw [List.length_take]
      omega
    have h2 : SyslogDecoder.decodeOctetFraming ⟨buf, .OctetFraming, dec, o, r⟩ =
        ⟨List.drop r buf, .OctetFramingMessage, dec ++ List.take r buf, o, 0⟩ := by
      unfold SyslogDecoder.decodeOctetFraming
      dsimp only
      rw [htk, Nat.sub_self]
      rw [if_pos rfl]
    have h1 : SyslogDecoder.decodeOctetFraming
        ⟨buf ++ b, .OctetFraming, dec, o, r⟩ =
        ⟨List.drop r buf ++ b, .OctetFramingMessage, dec ++ List.take r buf, o, 0⟩ := by
      unfold SyslogDecoder.decodeOctetFraming
      dsimp only
      rw [List.take_append_eq_append_take, List.drop_append_eq_append_drop]
      rw [show r - buf.length = 0 from by omega]
      rw [List.take_zero, List.drop_zero, List.append_nil]
      rw [htk, Nat.sub_self]
      rw [if_pos rfl]
    rw [h1, h2]
    dsimp only
    rw [if_neg (show ¬(syslogDecoderState.OctetFramingMessage =
      syslogDecoderState.OctetFraming) from by decide)]
    rw [if_neg (show ¬(syslogDecoderState.OctetFramingMessage =
      syslogDecoderState.OctetFraming) from by decide)]
    have hm := appendEq_OFM (List.drop r buf) (dec ++ List.take r buf) o 0 b
    unfold AppendEq at hm
    rw [Feed_mk] at hm
    exact hm
  · have htk : (List.take r buf).length = buf.length := by
      rw [List.length_take]
      omega
    have h2 : SyslogDecoder.decodeOctetFraming ⟨buf, .OctetFraming, dec, o, r⟩ =
        ⟨[], .OctetFraming, dec ++ buf, o, r - buf.length⟩ := by
      unfold SyslogDecoder.decodeOctetFraming
      dsimp only
      rw [htk]
      rw [if_neg (by omega)]
      rw [List.take_of_length_le (by omega), List.drop_eq_nil_of_le (by omega)]
    rw [h2]
    dsimp only
    rw [if_pos rfl]
    dsimp only
    rw [Feed_nilbuf]
    rw [decode_eq ⟨b, .OctetFraming, dec ++ buf, o, r - buf.length⟩]
    dsimp only
    have h1 : SyslogDecoder.decodeOctetFraming
        ⟨buf ++ b, .OctetFraming, dec, o, r⟩ =
        (if r - buf.length - (List.take (r - buf.length) b).length = 0 then
          ⟨List.drop (r - buf.length) b, .OctetFramingMessage,
            dec ++ (buf ++ List.take (r - buf.length) b), o,
            r - buf.length - (List.take (r - buf.length) b).length⟩
        else
          ⟨List.drop (r - buf.length) b, .OctetFraming,
            dec ++ (buf ++ List.take (r - buf.length) b), o,
            r - buf.length - (List.take (r - buf.length) b).length⟩) := by
      unfold SyslogDecoder.decodeOctetFraming
      dsimp only
      rw [List.take_append_eq_append_take, List.drop_append_eq_append_drop]
      rw [List.take_of_length_le (by omega), List.drop_eq_nil_of_le (by omega)]
      rw [show ([] : List Char) ++ List.drop (r - buf.length) b =
        List.drop (r - buf.length) b from rfl]
      rw [List.length_append]
      rw [show r - (buf.length + (List.take (r - buf.length) b).length) =
        r - buf.length - (List.take (r - buf.length) b).length from by omega]
    have h3 : SyslogDecoder.decodeOctetFraming
        ⟨b, .OctetFraming, dec ++ buf, o, r - buf.length⟩ =
        (if r - buf.length - (List.take (r - buf.length) b).length = 0 then
          ⟨List.drop (r - buf.length) b, .OctetFramingMessage,
            dec ++ (buf ++ List.take (r - buf.length) b), o,
            r - buf.length - (List.take (r - buf.length) b).length⟩
        else
          ⟨List.drop (r - buf.length) b, .OctetFraming,
            dec ++ (buf ++ List.take (r - buf.length) b), o,
            r - buf.length - (List.take (r - buf.length) b).length⟩) := by
      unfold SyslogDecoder.decodeOctetFraming
      dsimp only
      rw [List.append_assoc]
    rw [h1, h3]

theorem appendEq_Unk (buf dec : List Char) (o r : Nat) (b : List Char) :
    AppendEq ⟨buf, .Unknown, dec, o, r⟩ b := by
  unfold AppendEq
  rw [Feed_mk]
  rw [decode_eq ⟨buf ++ b, .Unknown, dec, o, r⟩]
  rw [decode_eq ⟨buf, .Unknown, dec, o, r⟩]
  dsimp only
  by_cases hfs : ∃ c ∈ buf, c = '<' ∨ SyslogDecoder.frameDigit c
  · obtain ⟨c, hc, hcf⟩ := hfs
    rw [SyslogDecoder.duLoop_none_of_mem_frameStart ((buf ++ b).length + 1)
      ⟨buf ++ b, .Unknown, dec, o, r⟩ ⟨c, List.mem_append_left b hc, hcf⟩]
    rw [SyslogDecoder.duLoop_none_of_mem_frameStart (buf.length + 1)
      ⟨buf, .Unknown, dec, o, r⟩ ⟨c, hc, hcf⟩]
  · by_cases hne : buf = []
    · subst hne
      rw [show SyslogDecoder.duLoop (([] : List Char).length + 1)
        ⟨[], .Unknown, dec, o, r⟩ = some ⟨[], .Unknown, dec, o, r⟩ from rfl]
      dsimp only
      rw [if_pos rfl]
      dsimp only
      rw [Feed_nilbuf]
      rw [show ([] : List Char) ++ b = b from rfl]
      rw [decode_eq ⟨b, .Unknown, dec, o, r⟩]
    · push_neg at hfs
      obtain ⟨dec'', hdcl, hg⟩ := duLoop_garbage buf hne
        (fun c hc hcon => by
          rcases hcon with h | h
          · exact (hfs c hc).1 h
          · exact (hfs c hc).2 h)
      have hd2 : SyslogDecoder.duLoop (buf.length + 1)
          ⟨buf, .Unknown, dec, o, r⟩ = some ⟨[], .Unknown, dec'', o, r⟩ := by
        have hx := hg 1 [] .Unknown dec o r
        rw [List.append_nil] at hx
        exact hx
      have hd1 : SyslogDecoder.duLoop ((buf ++ b).length + 1)
          ⟨buf ++ b, .Unknown, dec, o, r⟩ =
          SyslogDecoder.duLoop (b.length + 1) ⟨b, .Unknown, dec'', o, r⟩ := by
        have hx := hg (b.length + 1) b .Unknown dec o r
        rw [show (buf ++ b).length + 1 = buf.length + (b.length + 1) from by
          rw [List.length_append]; omega]
        exact hx
      rw [hd1, hd2]
      dsimp only
      rw [if_pos rfl]
      dsimp only
      rw [Feed_nilbuf]
      rw [decode_eq ⟨b, .Unknown, dec'', o, r⟩]

theorem appendEq_OFH (buf dec : List Char) (o r : Nat) (b : List Char) :
    AppendEq ⟨buf, .OctetFramingHeader, dec, o, r⟩ b := by
  unfold AppendEq
  rw [Feed_mk]
  rw [decode_eq ⟨buf ++ b, .OctetFramingHeader, dec, o, r⟩]
  rw [decode_eq ⟨buf, .OctetFramingHeader, dec, o, r⟩]
  dsimp only
  rcases hof : SyslogDecoder.ofhLoop buf dec o with ⟨buf', dec', oct', oc⟩
  have hap := ofhLoop_append buf b dec o
  rw [hof] at hap
  cases oc with
  | suspended =>
    have hb0 : buf' = [] := ofhLoop_suspended _ _ _ _ _ _ hof
    subst hb0
    dsimp only at hap
    have h2 : SyslogDecoder.decodeOctetFramingHeader
        ⟨buf, .OctetFramingHeader, dec, o, r⟩ =
        ⟨[], .OctetFramingHeader, dec', oct', r⟩ := by
      unfold SyslogDecoder.decodeOctetFramingHeader
      dsimp only
      rw [hof]
    rw [h2]
    dsimp only
    rw [if_pos rfl]
    dsimp only
    rw [Feed_nilbuf]
    rw [decode_eq ⟨b, .OctetFramingHeader, dec', oct', r⟩]
    dsimp only
    have h1 : SyslogDecoder.decodeOctetFramingHeader
        ⟨buf ++ b, .OctetFramingHeader, dec, o, r⟩ =
        SyslogDecoder.decodeOctetFramingHeader
        ⟨b, .OctetFramingHeader, dec', oct', r⟩ := by
      unfold SyslogDecoder.decodeOctetFramingHeader
      dsimp only
      rw [hap]
    rw [h1]
  | space =>
    dsimp only at hap
    have h1 : SyslogDecoder.decodeOctetFramingHeader
        ⟨buf ++ b, .OctetFramingHeader, dec, o, r⟩ =
        ⟨buf' ++ b, .OctetFraming, dec', oct', oct'⟩ := by
      unfold SyslogDecoder.decodeOctetFramingHeader
      dsimp only
      rw [hap]
    have h2 : SyslogDecoder.decodeOctetFramingHeader
        ⟨buf, .OctetFramingHeader, dec, o, r⟩ =
        ⟨buf', .OctetFraming, dec', oct', oct'⟩ := by
      unfold SyslogDecoder.decodeOctetFramingHeader
      dsimp only
      rw [hof]
    rw [h1, h2]
    dsimp only
    rw [if_neg (show ¬(syslogDecoderState.OctetFraming =
      syslogDecoderState.OctetFramingHeader) from by decide)]
    rw [if_neg (show ¬(syslogDecoderState.OctetFraming =
      syslogDecoderState.OctetFramingHeader) from by decide)]
    have hm := appendEq_OF buf' dec' oct' oct' b
    unfold AppendEq at hm
    rw [Feed_mk] at hm
    exact hm
  | unknown =>
    dsimp only at hap
    have h1 : SyslogDecoder.decodeOctetFramingHeader
        ⟨buf ++ b, .OctetFramingHeader, dec, o, r⟩ =
        ⟨buf' ++ b, .Unknown, dec', oct', r⟩ := by
      unfold SyslogDecoder.decodeOctetFramingHeader
      dsimp only
      rw [hap]
    have h2 : SyslogDecoder.decodeOctetFramingHeader
        ⟨buf, .OctetFramingHeader, dec, o, r⟩ =
        ⟨buf', .Unknown, dec', oct', r⟩ := by
      unfold SyslogDecoder.decodeOctetFramingHeader
      dsimp only
      rw [hof]
    rw [h1, h2]
    dsimp only
    rw [if_neg (show ¬(syslogDecoderState.Unknown =
      syslogDecoderState.OctetFramingHeader) from by decide)]
    rw [if_neg (show ¬(syslogDecoderState.Unknown =
      syslogDecoderState.OctetFramingHeader) from by decide)]
    have hm := appendEq_Unk buf' dec' oct' r b
    unfold AppendEq at hm
    rw [Feed_mk] at hm
    exact hm

theorem appendEq_Framing (buf dec : List Char) (o r : Nat) (b : List Char) :
    AppendEq ⟨buf, .Framing, dec, o, r⟩ b := by
  unfold AppendEq
  rw [Feed_mk]
  rw [decode_eq ⟨buf ++ b, .Framing, dec, o, r⟩]
  rw [decode_eq ⟨buf, .Framing, dec, o, r⟩]
  dsimp only
  cases buf with
  | nil =>
    have h2 : SyslogDecoder.decodeFraming ⟨[], .Framing, dec, o, r⟩ =
        ⟨[], .Framing, dec, o, r⟩ := rfl
    rw [h2]
    dsimp only
    rw [if_pos rfl]
    dsimp only
    rw [Feed_nilbuf]
    rw [show ([] : List Char) ++ b = b from rfl]
    rw [decode_eq ⟨b, .Framing, dec, o, r⟩]
  | cons c rest =>
    rw [show (c :: rest) ++ b = c :: (rest ++ b) from rfl]
    have h1 : SyslogDecoder.decodeFraming ⟨c :: (rest ++ b), .Framing, dec, o, r⟩ =
        ⟨c :: (rest ++ b),
          if c = '<' then .ImplicitFraming
          else if SyslogDecoder.frameDigit c then .OctetFramingHeader
          else .Unknown, [], o, r⟩ := rfl
    have h2 : SyslogDecoder.decodeFraming ⟨c :: rest, .Framing, dec, o, r⟩ =
        ⟨c :: rest,
          if c = '<' then .ImplicitFraming
          else if SyslogDecoder.frameDigit c then .OctetFramingHeader
          else .Unknown, [], o, r⟩ := rfl
    rw [h1, h2]
    by_cases hlt : c = '<'
    · rw [if_pos hlt]
      dsimp only
      rw [if_neg (show ¬(syslogDecoderState.ImplicitFraming =
        syslogDecoderState.Framing) from by decide)]
      rw [if_neg (show ¬(syslogDecoderState.ImplicitFraming =
        syslogDecoderState.Framing) from by decide)]
      have hm := appendEq_IF (c :: rest) [] o r b
      unfold AppendEq at hm
      rw [Feed_mk] at hm
      rw [show (c :: rest) ++ b = c :: (rest ++ b) from rfl] at hm
      exact hm
    · rw [if_neg hlt]
      by_cases hfd : SyslogDecoder.frameDigit c
      · rw [if_pos hfd]
        dsimp only
        rw [if_neg (show ¬(syslogDecoderState.OctetFramingHeader =
          syslogDecoderState.Framing) from by decide)]
        rw [if_neg (show ¬(syslogDecoderState.OctetFramingHeader =
          syslogDecoderState.Framing) from by decide)]
        have hm := appendEq_OFH (c :: rest) [] o r b
        unfold AppendEq at hm
        rw [Feed_mk] at hm
        rw [show (c :: rest) ++ b = c :: (rest ++ b) from rfl] at hm
        exact hm
      · rw [if_neg hfd]
        dsimp only
        rw [if_neg (show ¬(syslogDecoderState.Unknown =
          syslogDecoderState.Framing) from by decide)]
        rw [if_neg (show ¬(syslogDecoderState.Unknown =
          syslogDecoderState.Framing) from by decide)]
        have hm := appendEq_Unk (c :: rest) [] o r b
        unfold AppendEq at hm
        rw [Feed_mk] at hm
        rw [show (c :: rest) ++ b = c :: (rest ++ b) from rfl] at hm
        exact hm

/-- The decode step commutes with `Feed` (all states). -/
theorem decode_append (d : SyslogDecoder) (b : List Char) : AppendEq d b := by
  rcases d with ⟨buf, st, dec, o, r⟩
  cases st with
  | Framing => exact appendEq_Framing buf dec o r b
  | ImplicitFraming => exact appendEq_IF buf dec o r b
  | ImplicitFramingMessage => exact appendEq_IFM buf dec o r b
  | OctetFramingHeader => exact appendEq_OFH buf dec o r b
  | OctetFraming => exact appendEq_OF buf dec o r b
  | OctetFramingMessage => exact appendEq_OFM buf dec o r b
  | Unknown => exact appendEq_Unk buf dec o r b
  | UnknownMessage => exact appendEq_UnkM buf dec o r b

theorem decodeAll_append_none :
    ∀ (f : Nat) (d : SyslogDecoder) (b : List Char),
      (∀ g, SyslogDecoder.decodeAll g d = none) →
      SyslogDecoder.decodeAll f (d.Feed b) = none := by
  intro f
  induction f with
  | zero => intro d b hd; rfl
  | succ f ih =>
    intro d b hd
    have hAE := decode_append d b
    unfold AppendEq at hAE
    cases hdd : d.decode with
    | none =>
      rw [hdd] at hAE
      dsimp only at hAE
      rw [decodeAll_succ, hAE]
    | some pr =>
      rcases pr with ⟨ms?, d₁⟩
      cases ms? with
      | none =>
        exfalso
        have h1 := hd 1
        rw [show (1 : Nat) = 0 + 1 from rfl] at h1
        rw [decodeAll_succ, hdd] at h1
        dsimp only at h1
        exact Option.noConfusion h1
      | some m =>
        rw [hdd] at hAE
        dsimp only at hAE
        rw [decodeAll_succ, hAE]
        dsimp only
        have hd₁ : ∀ g, SyslogDecoder.decodeAll g d₁ = none := by
          intro g
          cases hg : SyslogDecoder.decodeAll g d₁ with
          | none => rfl
          | some r =>
            exfalso
            rcases r with ⟨ms2, d₂⟩
            have h1 := hd (g + 1)
            rw [decodeAll_succ, hdd] at h1
            dsimp only at h1
            rw [hg] at h1
            dsimp only at h1
            exact Option.noConfusion h1
        rw [ih d₁ b hd₁]

theorem decodeAll_append_some :
    ∀ (f : Nat) (d : SyslogDecoder) (ms : List SyslogMessage)
      (d₁ : SyslogDecoder) (b : List Char),
      SyslogDecoder.decodeAll f d = some (ms, d₁) →
      (d.Feed b).Decode =
        match (d₁.Feed b).Decode with
        | none => none
        | some (msx, d₂) => some (ms ++ msx, d₂) := by
  intro f
  induction f with
  | zero => intro d ms d₁ b h; exact Option.noConfusion h
  | succ f ih =>
    intro d ms d₁ b h
    have hAE := decode_append d b
    unfold AppendEq at hAE
    cases hdd : d.decode with
    | none =>
      rw [decodeAll_succ, hdd] at h
      dsimp only at h
      exact Option.noConfusion h
    | some pr =>
      rcases pr with ⟨ms?, d'⟩
      cases ms? with
      | none =>
        rw [decodeAll_succ, hdd] at h
        dsimp only at h
        simp only [Option.some.injEq, Prod.mk.injEq] at h
        obtain ⟨h1, h2⟩ := h
        subst h1
        subst h2
        rw [hdd] at hAE
        dsimp only at hAE
        cases hz : (d'.Feed b).Decode with
        | none =>
          dsimp only
          rw [Decode_none_iff]
          intro g
          cases g with
          | zero => rfl
          | succ k =>
            rw [decodeAll_succ, hAE]
            have h2 := (Decode_none_iff (d'.Feed b)).mp hz (k + 1)
            rw [decodeAll_succ] at h2
            exact h2
        | some r =>
          rcases r with ⟨msx, d₂⟩
          dsimp only
          rw [List.nil_append]
          rw [Decode_some_iff]
          have h2 : SyslogDecoder.decodeAll
              ((d'.Feed b).buffer.length + 2) (d'.Feed b) = some (msx, d₂) := hz
          rw [show (d'.Feed b).buffer.length + 2 =
            ((d'.Feed b).buffer.length + 1) + 1 from rfl] at h2
          rw [decodeAll_succ] at h2
          refine ⟨(d'.Feed b).buffer.length + 2, ?_⟩
          rw [show (d'.Feed b).buffer.length + 2 =
            ((d'.Feed b).buffer.length + 1) + 1 from rfl]
          rw [decodeAll_succ, hAE]
          exact h2
      | some m =>
        rw [decodeAll_succ, hdd] at h
        dsimp only at h
        cases hrec : SyslogDecoder.decodeAll f d' with
        | none =>
          rw [hrec] at h
          dsimp only at h
          exact Option.noConfusion h
        | some pr2 =>
          rcases pr2 with ⟨ms2, d₂⟩
          rw [hrec] at h
          dsimp only at h
          simp only [Option.some.injEq, Prod.mk.injEq] at h
          obtain ⟨h1, h2⟩ := h
          subst h1
          subst h2
          rw [hdd] at hAE
          dsimp only at hAE
          have ihs := ih d' ms2 d₂ b hrec
          cases hz : (d₂.Feed b).Decode with
          | none =>
            rw [hz] at ihs
            dsimp only at ihs
            dsimp only
            rw [Decode_none_iff]
            intro g
            cases g with
            | zero => rfl
            | succ k =>
              rw [decodeAll_succ, hAE]
              dsimp only
              rw [(Decode_none_iff (d'.Feed b)).mp ihs k]
          | some r =>
            rcases r with ⟨msx, d₃⟩
            rw [hz] at ihs
            dsimp only at ihs
            dsimp only
            rw [Decode_some_iff]
            obtain ⟨g, hg⟩ := (Decode_some_iff (d'.Feed b) (ms2 ++ msx, d₃)).mp ihs
            refine ⟨g + 1, ?_⟩
            rw [decodeAll_succ, hAE]
            dsimp only
            rw [hg]
            rfl

/-- Composing a feed with `Decode`: decoding the extended buffer first runs
`Decode` on the original decoder, then on the leftover decoder with the new
bytes appended. -/
theorem Decode_append (d : SyslogDecoder) (b : List Char) :
    (d.Feed b).Decode =
      match d.Decode with
      | none => none
      | some (ms, d₁) =>
        match (d₁.Feed b).Decode with
        | none => none
        | some (msx, d₂) => some (ms ++ msx, d₂) := by
  cases hd : d.Decode with
  | none =>
    dsimp only
    rw [Decode_none_iff] at hd
    rw [Decode_none_iff]
    intro f
    exact decodeAll_append_none f d b hd
  | some r =>
    rcases r with ⟨ms, d₁⟩
    dsimp only
    exact decodeAll_append_some (d.buffer.length + 2) d ms d₁ b hd

/-- Feed a list of chunks one at a time, running `Decode` after each feed and
concatenating the emitted messages (the chunked client usage pattern). -/
def feedDecodeRun : SyslogDecoder → List (List Char) →
    Option (List SyslogMessage × SyslogDecoder)
  | d, [] => some ([], d)
  | d, c :: cs =>
    match (d.Feed c).Decode with
    | none => none
    | some (ms, d₁) =>
      match feedDecodeRun d₁ cs with
      | none => none
      | some (ms₂, d₂) => some (ms ++ ms₂, d₂)

theorem feedDecodeRun_cons (d : SyslogDecoder) (c : List Char)
    (cs : List (List Char)) :
    feedDecodeRun d (c :: cs) =
      match (d.Feed c).Decode with
      | none => none
      | some (ms, d₁) =>
        match feedDecodeRun d₁ cs with
        | none => none
        | some (ms₂, d₂) => some (ms ++ ms₂, d₂) := rfl

theorem feedDecodeRun_flatten :
    ∀ (chunks : List (List Char)) (d : SyslogDecoder),
      d.decode = some (none, d) →
      feedDecodeRun d chunks = (d.Feed chunks.flatten).Decode := by
  intro chunks
  induction chunks with
  | nil =>
    intro d hq
    show some ([], d) = (d.Feed ([] : List (List Char)).flatten).Decode
    rw [show (([] : List (List Char)).flatten : List Char) = [] from rfl, Feed_nil]
    rw [show d.Decode = SyslogDecoder.decodeAll (d.buffer.length + 2) d from rfl]
    rw [show d.buffer.length + 2 = (d.buffer.length + 1) + 1 from rfl]
    rw [decodeAll_succ, hq]
  | cons c cs ih =>
    intro d hq
    rw [feedDecodeRun_cons]
    rw [show ((c :: cs).flatten : List Char) = c ++ cs.flatten from rfl]
    rw [← Feed_assoc]
    rw [Decode_append (d.Feed c) cs.flatten]
    cases h1 : (d.Feed c).Decode with
    | none => rfl
    | some r =>
      rcases r with ⟨ms, d₁⟩
      dsimp only
      have hq₁ : d₁.decode = some (none, d₁) :=
        Quiescent_decode d₁
          (decodeAll_final ((d.Feed c).buffer.length + 2) (d.Feed c) ms d₁ h1)
      rw [ih d₁ hq₁]

/-- C4: Feed-boundary independence — for every partition of an input byte
sequence into consecutive chunks, feeding the chunks one at a time into a
fresh `SyslogDecoder` (invoking `Decode` after each feed and concatenating
the emitted messages) produces exactly the same message sequence and final
decoder as feeding the whole sequence at once and calling `Decode` once;
divergence of the decode loop is likewise boundary-independent. -/
theorem c4_feed_boundary_independence (chunks : List (List Char)) :
    feedDecodeRun SyslogDecoder.empty chunks =
      (SyslogDecoder.empty.Feed chunks.flatten).Decode :=
  feedDecodeRun_flatten chunks SyslogDecoder.empty rfl

end GoLog
